import Mathlib

/-!
Tetris rules engine: shallow embedding and verified properties

Embedding of `domain/model/point.go`, `domain/model/board.go`,
`domain/model/tetromino.go` and `domain/service/game_service.go`.

Modelling conventions
* Go `int` is modelled by `Int` (unbounded); Go `/` on `int` truncates toward
  zero and is modelled by `Int.tdiv`.
* A Go method with a pointer receiver that mutates its receiver and returns an
  `error` is modelled by a function returning the receiver after the call
  together with `Option Err` (`none` is a `nil` error).
* `fmt.Errorf("...%w...", e)` is modelled by `Err.wrap e`, and
  `errors.Is(err, target)` by `Err.is err target`.
* Slices are modelled by lists with value semantics; `s[i]` is `List.getD`
  (Go panics on an index out of range, which cannot occur on a grid whose
  rows match `Width` and `Height`, see `Board.WF`).
* `rand.IntN(7)` is modelled by an argument of type `Fin 7`.
* The unbounded `for` loop of `DropPiece` is modelled with fuel.
* `time.Duration` is an `int64`; its arithmetic in `updateDropInterval` wraps
  modulo 2^64 (`wrapInt64`).
-/

namespace Tetris

/-! ## Errors -/

/-- Sentinel errors of the packages `model` and `service`, and wrapping. -/
inductive Err where
  | ErrOutOfBounds
  | ErrInvalidBoardSize
  | ErrBlockOccupied
  | ErrNilTetromino
  | ErrInvalidTetrominoType
  | ErrInvalidPosition
  | ErrRotationFailed
  | ErrGameOver
  | ErrInvalidMove
  | ErrNoPiece
  | wrap (inner : Err)
  deriving DecidableEq, Repr

/-- Go `errors.Is(e, target)`: `e` or an error it wraps equals `target`. -/
def Err.is : Err → Err → Bool
  | .wrap inner, target => (Err.wrap inner == target) || Err.is inner target
  | e, target => e == target

/-! ## point.go -/

/-- Go `type Point struct { X, Y int }`. -/
structure Point where
  X : Int
  Y : Int
  deriving DecidableEq, Repr

/-- Go `func (p Point) Add(other Point) Point`. -/
def Point.Add (p other : Point) : Point :=
  { X := p.X + other.X, Y := p.Y + other.Y }

/-! ## tetromino.go -/

/-- Go `type TetrominoType int`. -/
abbrev TetrominoType := Int

namespace TetrominoType
def I : TetrominoType := 0
def O : TetrominoType := 1
def T : TetrominoType := 2
def S : TetrominoType := 3
def Z : TetrominoType := 4
def J : TetrominoType := 5
def L : TetrominoType := 6
end TetrominoType

/-- Go `type Tetromino struct`; the field `Type` is named `Typ` here. -/
structure Tetromino where
  Typ : TetrominoType
  Shape : List (List Bool)
  Position : Point
  size : Int
  deriving DecidableEq, Repr

/-- Go `var tetrominoShapes = map[TetrominoType][][][]bool{...}`; `none` is a
missing key. -/
def tetrominoShapes (t : TetrominoType) : Option (List (List (List Bool))) :=
  if t = TetrominoType.I then some [
    [[false, false, false, false],
     [true, true, true, true],
     [false, false, false, false],
     [false, false, false, false]],
    [[false, false, true, false],
     [false, false, true, false],
     [false, false, true, false],
     [false, false, true, false]]]
  else if t = TetrominoType.O then some [
    [[false, false, false, false],
     [false, true, true, false],
     [false, true, true, false],
     [false, false, false, false]]]
  else if t = TetrominoType.T then some [
    [[false, false, false, false],
     [false, true, false, false],
     [true, true, true, false],
     [false, false, false, false]],
    [[false, false, false, false],
     [false, true, false, false],
     [false, true, true, false],
     [false, true, false, false]],
    [[false, false, false, false],
     [false, false, false, false],
     [true, true, true, false],
     [false, true, false, false]],
    [[false, false, false, false],
     [false, true, false, false],
     [true, true, false, false],
     [false, true, false, false]]]
  else if t = TetrominoType.S then some [
    [[false, false, false, false],
     [false, true, true, false],
     [true, true, false, false],
     [false, false, false, false]],
    [[false, false, false, false],
     [false, true, false, false],
     [false, true, true, false],
     [false, false, true, false]]]
  else if t = TetrominoType.Z then some [
    [[false, false, false, false],
     [true, true, false, false],
     [false, true, true, false],
     [false, false, false, false]],
    [[false, false, false, false],
     [false, false, true, false],
     [false, true, true, false],
     [false, true, false, false]]]
  else if t = TetrominoType.J then some [
    [[false, false, false, false],
     [true, false, false, false],
     [true, true, true, false],
     [false, false, false, false]],
    [[false, false, false, false],
     [false, true, true, false],
     [false, true, false, false],
     [false, true, false, false]],
    [[false, false, false, false],
     [false, false, false, false],
     [true, true, true, false],
     [false, false, true, false]],
    [[false, false, false, false],
     [false, true, false, false],
     [false, true, false, false],
     [true, true, false, false]]]
  else if t = TetrominoType.L then some [
    [[false, false, false, false],
     [false, false, true, false],
     [true, true, true, false],
     [false, false, false, false]],
    [[false, false, false, false],
     [false, true, false, false],
     [false, true, false, false],
     [false, true, true, false]],
    [[false, false, false, false],
     [false, false, false, false],
     [true, true, true, false],
     [true, false, false, false]],
    [[false, false, false, false],
     [true, true, false, false],
     [false, true, false, false],
     [false, true, false, false]]]
  else none

/-- Go `func NewTetromino(tetrominoType TetrominoType, position Point)
(*Tetromino, error)`. The row-by-row `copy` of `shapes[0]` is the value
`shapes[0]`. -/
def NewTetromino (tetrominoType : TetrominoType) (position : Point) : Except Err Tetromino :=
  if tetrominoType < TetrominoType.I ∨ tetrominoType > TetrominoType.L then
    .error (.wrap .ErrInvalidTetrominoType)
  else
    match tetrominoShapes tetrominoType with
    | none => .error (.wrap .ErrInvalidTetrominoType)
    | some [] => .error (.wrap .ErrInvalidTetrominoType)
    | some (shape0 :: _) =>
      .ok { Typ := tetrominoType, Shape := shape0, Position := position, size := 4 }

/-- Go `func (t *Tetromino) GetBlocks() []Point`: the two nested loops over
`y` and `x` below `t.size`, appending in row-major order. -/
def Tetromino.GetBlocks (t : Tetromino) : List Point :=
  (List.range t.size.toNat).flatMap fun y =>
    (List.range t.size.toNat).filterMap fun x =>
      if y < t.Shape.length ∧ x < (t.Shape.getD y []).length ∧ (t.Shape.getD y []).getD x false = true then
        some { X := t.Position.X + (x : Int), Y := t.Position.Y + (y : Int) }
      else none

/-- Go `func (t *Tetromino) Move(delta Point) error`. -/
def Tetromino.Move (t : Tetromino) (delta : Point) : Tetromino × Option Err :=
  let newPosition := t.Position.Add delta
  ({ t with Position := newPosition }, none)

/-- Go `func (t *Tetromino) shapeEquals(shape [][]bool) bool`. -/
def Tetromino.shapeEquals (t : Tetromino) (shape : List (List Bool)) : Bool :=
  if t.Shape.length ≠ shape.length then false
  else (List.range t.Shape.length).all fun i =>
    if (t.Shape.getD i []).length ≠ (shape.getD i []).length then false
    else (List.range (t.Shape.getD i []).length).all fun j =>
      (t.Shape.getD i []).getD j false == (shape.getD i []).getD j false

/-- The `for i, shape := range shapes` loop of `Rotate`, from index `i` on:
`rest` is `shapes[i:]`. -/
def Tetromino.rotateScan (t : Tetromino) (shapes : List (List (List Bool))) :
    Nat → List (List (List Bool)) → Tetromino × Option Err
  | _, [] => (t, some (.wrap .ErrRotationFailed))
  | i, shape :: rest =>
    if t.shapeEquals shape then
      let nextIndex := (i + 1) % shapes.length
      ({ t with Shape := shapes.getD nextIndex [] }, none)
    else Tetromino.rotateScan t shapes (i + 1) rest

/-- Go `func (t *Tetromino) Rotate() error`. -/
def Tetromino.Rotate (t : Tetromino) : Tetromino × Option Err :=
  match tetrominoShapes t.Typ with
  | none => (t, some (.wrap .ErrRotationFailed))
  | some shapes =>
    if shapes.length ≤ 1 then (t, none)
    else t.rotateScan shapes 0 shapes

/-! ## board.go -/

def BoardWidth : Int := 10
def BoardHeight : Int := 20

/-- Go `type Board struct { Grid [][]bool; Width int; Height int }`. -/
structure Board where
  Grid : List (List Bool)
  Width : Int
  Height : Int
  deriving DecidableEq, Repr

/-- The shape every board made by `NewBoard` has and every method keeps:
`Height` rows of `Width` cells. -/
def Board.WF (b : Board) : Prop :=
  0 < b.Width ∧ 0 < b.Height ∧ b.Grid.length = b.Height.toNat ∧
    ∀ row ∈ b.Grid, row.length = b.Width.toNat

/-- Go `func NewBoard(width, height int) (*Board, error)`. -/
def NewBoard (width height : Int) : Except Err Board :=
  if width ≤ 0 ∨ height ≤ 0 then .error (.wrap .ErrInvalidBoardSize)
  else .ok { Grid := List.replicate height.toNat (List.replicate width.toNat false),
             Width := width, Height := height }

/-- Go `b.Grid[y][x]`. -/
def Board.cell (b : Board) (y x : Int) : Bool :=
  (b.Grid.getD y.toNat []).getD x.toNat false

/-- Go `func (b *Board) IsValidPosition(point Point) bool`. -/
def Board.IsValidPosition (b : Board) (point : Point) : Bool :=
  decide (point.X ≥ 0) && decide (point.X < b.Width) && decide (point.Y ≥ 0) &&
    decide (point.Y < b.Height)

/-- Go `func (b *Board) IsOccupied(point Point) (bool, error)`. -/
def Board.IsOccupied (b : Board) (point : Point) : Bool × Option Err :=
  if !b.IsValidPosition point then (false, some (.wrap .ErrOutOfBounds))
  else (b.cell point.Y point.X, none)

/-- Go `func (b *Board) SetBlock(point Point, occupied bool) error`. -/
def Board.SetBlock (b : Board) (point : Point) (occupied : Bool) : Board × Option Err :=
  if !b.IsValidPosition point then (b, some (.wrap .ErrOutOfBounds))
  else
    ({ b with Grid := b.Grid.set point.Y.toNat
                ((b.Grid.getD point.Y.toNat []).set point.X.toNat occupied) }, none)

/-- Go `func (b *Board) CanPlaceTetromino(tetromino *Tetromino) bool`; `none`
is the `nil` pointer. -/
def Board.CanPlaceTetromino (b : Board) : Option Tetromino → Bool
  | none => false
  | some tetromino =>
    tetromino.GetBlocks.all fun block =>
      if !b.IsValidPosition block then false
      else
        match b.IsOccupied block with
        | (occupied, err) => !(err.isSome || occupied)

/-- The `for _, block := range blocks` loop of `PlaceTetromino`. -/
def Board.placeBlocks (b : Board) : List Point → Board × Option Err
  | [] => (b, none)
  | block :: rest =>
    match b.SetBlock block true with
    | (b1, some err) => (b1, some (.wrap err))
    | (b1, none) => Board.placeBlocks b1 rest

/-- Go `func (b *Board) PlaceTetromino(tetromino *Tetromino) error`. -/
def Board.PlaceTetromino (b : Board) : Option Tetromino → Board × Option Err
  | none => (b, some .ErrNilTetromino)
  | some tetromino =>
    if !b.CanPlaceTetromino (some tetromino) then (b, some (.wrap .ErrBlockOccupied))
    else b.placeBlocks tetromino.GetBlocks

/-- Go `func (b *Board) isLineFull(y int) bool`. -/
def Board.isLineFull (b : Board) (y : Int) : Bool :=
  if y < 0 ∨ y ≥ b.Height then false
  else (List.range b.Width.toNat).all fun x => b.cell y (x : Int)

/-- Go `func (b *Board) GetCompletedLines() []int`. -/
def Board.GetCompletedLines (b : Board) : List Int :=
  ((List.range b.Height.toNat).map fun y => (y : Int)).filter fun y => b.isLineFull y

/-- Go builtin `copy(dst, src)`: overwrites the first `min(len dst, len src)`
elements of `dst`. -/
def copySlice (dst src : List Bool) : List Bool :=
  src.take dst.length ++ dst.drop src.length

/-- The loop `for y := lineIndex; y > 0; y-- { copy(b.Grid[y], b.Grid[y-1]) }`
of `ClearLines`, started at `y`. -/
def shiftRows (grid : List (List Bool)) : Nat → List (List Bool)
  | 0 => grid
  | y + 1 =>
    shiftRows (grid.set (y + 1) (copySlice (grid.getD (y + 1) []) (grid.getD y []))) y

/-- The loop `for x := 0; x < b.Width; x++ { b.Grid[0][x] = false }` of
`ClearLines`. -/
def clearTopRow (grid : List (List Bool)) (width : Int) : List (List Bool) :=
  (List.range width.toNat).foldl (fun g x => g.set 0 ((g.getD 0 []).set x false)) grid

/-- One iteration of the outer loop of `ClearLines`, for `lineIndex`. -/
def Board.clearLine (b : Board) (lineIndex : Int) : Board :=
  { b with Grid := clearTopRow (shiftRows b.Grid lineIndex.toNat) b.Width }

/-- Go `func (b *Board) ClearLines(lines []int) error`. The outer loop runs
`i` from `len(lines) - 1` down to `0`, that is over `lines` reversed. -/
def Board.ClearLines (b : Board) (lines : List Int) : Board × Option Err :=
  if lines.length = 0 then (b, none)
  else
    match lines.find? fun line => decide (line < 0) || decide (line ≥ b.Height) with
    | some _ => (b, some (.wrap .ErrOutOfBounds))
    | none => (lines.reverse.foldl (fun acc lineIndex => acc.clearLine lineIndex) b, none)

/-- Go `func (b *Board) IsGameOver() bool`. -/
def Board.IsGameOver (b : Board) : Bool :=
  (List.range b.Width.toNat).any fun x => b.cell 0 (x : Int)

/-! ## game_service.go -/

/-- Go `type GameService struct`; a `nil` piece pointer is `none`. -/
structure GameService where
  board : Board
  currentPiece : Option Tetromino
  nextPiece : Option Tetromino
  score : Int
  lines : Int
  level : Int
  gameOver : Bool
  deriving DecidableEq, Repr

/-- The spawn position `model.Point{X: model.BoardWidth/2 - 2, Y: 0}`. -/
def spawnPosition : Point := { X := Int.tdiv BoardWidth 2 - 2, Y := 0 }

/-- Go `func (g *GameService) spawnNewPiece() error`; `r` is the value of
`rand.IntN(7)`. -/
def GameService.spawnNewPiece (g : GameService) (r : Fin 7) : GameService × Option Err :=
  match NewTetromino (r.val : Int) spawnPosition with
  | .error err => (g, some (.wrap err))
  | .ok piece => ({ g with currentPiece := some piece }, none)

/-- Go `func (g *GameService) generateNextPiece() error`; `r` is the value of
`rand.IntN(7)`. -/
def GameService.generateNextPiece (g : GameService) (r : Fin 7) : GameService × Option Err :=
  match NewTetromino (r.val : Int) spawnPosition with
  | .error err => (g, some (.wrap err))
  | .ok piece => ({ g with nextPiece := some piece }, none)

/-- Go `func NewGameService() (*GameService, error)`; `r1` and `r2` are the
two values drawn from `rand.IntN(7)`. -/
def NewGameService (r1 r2 : Fin 7) : Except Err GameService :=
  match NewBoard BoardWidth BoardHeight with
  | .error err => .error (.wrap err)
  | .ok board =>
    let service : GameService :=
      { board := board, currentPiece := none, nextPiece := none,
        score := 0, lines := 0, level := 1, gameOver := false }
    match service.spawnNewPiece r1 with
    | (_, some err) => .error (.wrap err)
    | (service1, none) =>
      match service1.generateNextPiece r2 with
      | (_, some err) => .error (.wrap err)
      | (service2, none) => .ok service2

/-- Go `func (g *GameService) IsGameOver() bool`. -/
def GameService.IsGameOver (g : GameService) : Bool := g.gameOver

/-- Go `func (g *GameService) GetBoard() *model.Board`. -/
def GameService.GetBoard (g : GameService) : Board := g.board

/-- Go `func (g *GameService) MovePiece(delta model.Point) error`. -/
def GameService.MovePiece (g : GameService) (delta : Point) : GameService × Option Err :=
  if g.gameOver then (g, some .ErrGameOver)
  else
    match g.currentPiece with
    | none => (g, some .ErrNoPiece)
    | some piece =>
      let originalPosition := piece.Position
      match piece.Move delta with
      | (moved, some err) => ({ g with currentPiece := some moved }, some (.wrap err))
      | (moved, none) =>
        if !g.board.CanPlaceTetromino (some moved) then
          ({ g with currentPiece := some { moved with Position := originalPosition } },
            some .ErrInvalidMove)
        else ({ g with currentPiece := some moved }, none)

/-- Go `func (g *GameService) RotatePiece() error`. -/
def GameService.RotatePiece (g : GameService) : GameService × Option Err :=
  if g.gameOver then (g, some .ErrGameOver)
  else
    match g.currentPiece with
    | none => (g, some .ErrNoPiece)
    | some piece =>
      let originalShape := piece.Shape
      match piece.Rotate with
      | (rotated, some err) => ({ g with currentPiece := some rotated }, some (.wrap err))
      | (rotated, none) =>
        if !g.board.CanPlaceTetromino (some rotated) then
          ({ g with currentPiece := some { rotated with Shape := originalShape } },
            some .ErrInvalidMove)
        else ({ g with currentPiece := some rotated }, none)

/-- The base-score table `map[int]int{1: 100, 2: 300, 3: 500, 4: 800}` of
`updateScore`; `none` is a missing key. -/
def baseScore (linesCleared : Int) : Option Int :=
  if linesCleared = 1 then some 100
  else if linesCleared = 2 then some 300
  else if linesCleared = 3 then some 500
  else if linesCleared = 4 then some 800
  else none

/-- Go `func (g *GameService) updateScore(linesCleared int)`. -/
def GameService.updateScore (g : GameService) (linesCleared : Int) : GameService :=
  let g1 := { g with lines := g.lines + linesCleared }
  let g2 := { g1 with level := Int.tdiv g1.lines 10 + 1 }
  match baseScore linesCleared with
  | some score => { g2 with score := g2.score + score * g2.level }
  | none => g2

/-- Go `func (g *GameService) lockPiece() error`; `r` is the value that
`rand.IntN(7)` yields if `generateNextPiece` is reached. -/
def GameService.lockPiece (g : GameService) (r : Fin 7) : GameService × Option Err :=
  match g.currentPiece with
  | none => (g, some .ErrNoPiece)
  | some piece =>
    match g.board.PlaceTetromino (some piece) with
    | (b1, some err) => ({ g with board := b1 }, some (.wrap err))
    | (b1, none) =>
      let g1 := { g with board := b1 }
      let completedLines := g1.board.GetCompletedLines
      let cleared : GameService × Option Err :=
        if completedLines.length > 0 then
          match g1.board.ClearLines completedLines with
          | (b2, some err) => ({ g1 with board := b2 }, some (.wrap err))
          | (b2, none) =>
            (({ g1 with board := b2 } : GameService).updateScore (completedLines.length : Int), none)
        else (g1, none)
      match cleared with
      | (g2, some err) => (g2, some err)
      | (g2, none) =>
        if g2.board.IsGameOver then ({ g2 with gameOver := true }, none)
        else
          let g3 := { g2 with currentPiece := g2.nextPiece }
          match g3.generateNextPiece r with
          | (g4, some err) => (g4, some (.wrap err))
          | (g4, none) =>
            if !g4.board.CanPlaceTetromino g4.currentPiece then
              ({ g4 with gameOver := true }, none)
            else (g4, none)

/-- The `for { ... }` loop of `DropPiece` with fuel. The result is `none`
when the fuel runs out, `some (g, none)` when the loop leaves through `break`
and `some (g, some err)` when it leaves through `return err`. -/
def GameService.dropLoop : Nat → GameService → Option (GameService × Option Err)
  | 0, _ => none
  | fuel + 1, g =>
    match g.MovePiece { X := 0, Y := 1 } with
    | (g1, some err) =>
      if err.is .ErrInvalidMove then some (g1, none) else some (g1, some err)
    | (g1, none) => GameService.dropLoop fuel g1

/-- Go `func (g *GameService) DropPiece() error`, with fuel for its loop;
`none` when the fuel does not suffice. -/
def GameService.DropPiece (fuel : Nat) (g : GameService) (r : Fin 7) :
    Option (GameService × Option Err) :=
  if g.gameOver then some (g, some .ErrGameOver)
  else
    match g.dropLoop fuel with
    | none => none
    | some (g1, some err) => some (g1, some err)
    | some (g1, none) => some (g1.lockPiece r)

/-- Go `func (g *GameService) Update() error`. -/
def GameService.Update (g : GameService) (r : Fin 7) : GameService × Option Err :=
  if g.gameOver then (g, some .ErrGameOver)
  else
    match g.MovePiece { X := 0, Y := 1 } with
    | (g1, some err) =>
      if err.is .ErrInvalidMove then g1.lockPiece r else (g1, some err)
    | (g1, none) => (g1, none)

/-! ## Commands and reachable states -/

/-- The four commands of the service. `drop` carries the fuel given to the
loop of `DropPiece`; `drop` and `update` carry the variant drawn if the
command locks the piece and generates a new one. -/
inductive Command where
  | move (delta : Point)
  | rotate
  | drop (fuel : Nat) (r : Fin 7)
  | update (r : Fin 7)
  deriving DecidableEq, Repr

/-- One command on a service: the service after the call and the error
returned; `none` when the fuel of a `drop` does not suffice. -/
def GameService.exec (g : GameService) : Command → Option (GameService × Option Err)
  | .move delta => some (g.MovePiece delta)
  | .rotate => some g.RotatePiece
  | .drop fuel r => g.DropPiece fuel r
  | .update r => some (g.Update r)

/-- A sequence of commands, each issued whatever the previous one returned. -/
def GameService.run : GameService → List Command → Option GameService
  | g, [] => some g
  | g, c :: cs =>
    match g.exec c with
    | none => none
    | some (g1, _) => GameService.run g1 cs

/-- States reachable from `NewGameService` by the four commands. -/
def Reachable (g : GameService) : Prop :=
  ∃ (r1 r2 : Fin 7) (g0 : GameService) (cmds : List Command),
    NewGameService r1 r2 = .ok g0 ∧ g0.run cmds = some g

/-- The call `g.GetBoard().SetBlock(point, occupied)`: `GetBoard` returns the
pointer to the board of the service, so the write lands in the service. -/
def GameService.GetBoardSetBlock (g : GameService) (point : Point) (occupied : Bool) :
    GameService × Option Err :=
  match g.GetBoard.SetBlock point occupied with
  | (b1, err) => ({ g with board := b1 }, err)

/-! ## Derived definitions used in the statements -/

/-- The piece `t` with its anchor translated by `delta`, type and shape kept. -/
def Tetromino.translated (t : Tetromino) (delta : Point) : Tetromino :=
  { t with Position := { X := t.Position.X + delta.X, Y := t.Position.Y + delta.Y } }

/-- The piece that `NewTetromino` builds for the drawn variant `r` at the spawn
position: first rotation state of the variant. -/
def freshPiece (r : Fin 7) : Tetromino :=
  { Typ := (r.val : Int), Shape := ((tetrominoShapes (r.val : Int)).getD []).headD [],
    Position := spawnPosition, size := 4 }

/-- The service after the placement (on board `b1`), clearing and scoring
steps of `lockPiece`, before the game-over check. -/
def GameService.afterClear (g : GameService) (b1 : Board) : GameService :=
  if b1.GetCompletedLines.length > 0 then
    ({ g with board := (b1.ClearLines b1.GetCompletedLines).1 } : GameService).updateScore
      (b1.GetCompletedLines.length : Int)
  else { g with board := b1 }

/-- The piece `t` with its shape replaced by `shape`, type and anchor kept. -/
def Tetromino.withShape (t : Tetromino) (shape : List (List Bool)) : Tetromino :=
  { t with Shape := shape }

/-- The service that `NewGameService` returns when the two drawn variants are
`r1` and `r2`. -/
def initialService (r1 r2 : Fin 7) : GameService :=
  { board := { Grid := List.replicate 20 (List.replicate 10 false), Width := 10, Height := 20 },
    currentPiece := some (freshPiece r1), nextPiece := some (freshPiece r2),
    score := 0, lines := 0, level := 1, gameOver := false }

/-- What the specification asks of clearing: the grid of `b` with the rows
listed in `lines` removed, the other rows kept in order, and as many empty
rows as were removed put on top. -/
def Board.rowsRemoved (b : Board) (lines : List Int) : List (List Bool) :=
  let kept := (b.Grid.enum.filter fun p => decide ((p.1 : Int) ∉ lines)).map Prod.snd
  List.replicate (b.Grid.length - kept.length) (List.replicate b.Width.toNat false) ++ kept

/-- A 10x20 board whose rows 18 and 19 are full and whose row 17 holds the
single block (0, 17). -/
def twoFullRowsBoard : Board :=
  { Grid := List.replicate 17 (List.replicate 10 false) ++
      [true :: List.replicate 9 false, List.replicate 10 true, List.replicate 10 true],
    Width := 10, Height := 20 }

/-- Five square pieces dropped side by side on the empty board: columns 0-1,
2-3, 4-5, 6-7 and 8-9. The fifth drop completes rows 18 and 19 together. -/
def fiveSquares : List Command :=
  [.move ⟨-1, 0⟩, .move ⟨-1, 0⟩, .move ⟨-1, 0⟩, .move ⟨-1, 0⟩, .drop 20 1,
   .move ⟨-1, 0⟩, .move ⟨-1, 0⟩, .drop 20 1,
   .drop 20 1,
   .move ⟨1, 0⟩, .move ⟨1, 0⟩, .drop 20 1,
   .move ⟨1, 0⟩, .move ⟨1, 0⟩, .move ⟨1, 0⟩, .move ⟨1, 0⟩, .drop 20 1]

/-- The service after `fiveSquares`, all pieces being squares. -/
def fiveSquaresService : GameService :=
  { board := { Grid := List.replicate 19 (List.replicate 10 false) ++ [List.replicate 10 true],
               Width := 10, Height := 20 },
    currentPiece := some (freshPiece 1), nextPiece := some (freshPiece 1),
    score := 300, lines := 2, level := 1, gameOver := false }

/-- A fresh service (both pieces bars) after the caller wrote the block (0, 0)
through `GetBoard().SetBlock`. -/
def pokedService : GameService :=
  ((initialService 0 0).GetBoardSetBlock { X := 0, Y := 0 } true).1

/-- A service whose row 19 lacks only columns 3 to 6 and whose active piece, a
flat bar anchored at (3, 18), fills them when locked. -/
def lineService : GameService :=
  { board := { Grid := List.replicate 19 (List.replicate 10 false) ++
                 [[true, true, true, false, false, false, false, true, true, true]],
               Width := 10, Height := 20 },
    currentPiece := some { Typ := 0, Shape := (freshPiece 0).Shape, Position := { X := 3, Y := 18 },
                           size := 4 },
    nextPiece := some (freshPiece 2),
    score := 0, lines := 0, level := 1, gameOver := false }

/-- A service whose active piece, an upright bar anchored at (3, 0), rests on
the block (5, 4): locked there it occupies (5, 0). -/
def topLockService : GameService :=
  { board := ({ Grid := List.replicate 20 (List.replicate 10 false), Width := 10, Height := 20 } :
                Board).SetBlock { X := 5, Y := 4 } true |>.1,
    currentPiece := some { Typ := 0,
                           Shape := [[false, false, true, false], [false, false, true, false],
                                     [false, false, true, false], [false, false, true, false]],
                           Position := { X := 3, Y := 0 }, size := 4 },
    nextPiece := some (freshPiece 2),
    score := 0, lines := 0, level := 1, gameOver := false }

/-- The service `lineService` with nine lines already cleared one at a time
(score 900), still at level 1. -/
def nineLinesService : GameService := { lineService with lines := 9, score := 900 }

/-- The offsets `(x, y)` of the cells that `GetBlocks` visits and finds set, for
a piece of the given `size` and `shape`, in the order of its two loops. -/
def cellOffsets (size : Nat) (shape : List (List Bool)) : List (Nat × Nat) :=
  (List.range size).flatMap fun y =>
    (List.range size).filterMap fun x =>
      if y < shape.length ∧ x < (shape.getD y []).length ∧ (shape.getD y []).getD x false = true then
        some (x, y)
      else none

/-- `Rotate` called `n` times in a row; `none` as soon as one call fails. -/
def Tetromino.rotateN : Nat → Tetromino → Option Tetromino
  | 0, t => some t
  | n + 1, t =>
    match t.Rotate with
    | (t1, none) => Tetromino.rotateN n t1
    | (_, some _) => none

/-- The number of rotation states the specification gives each variant: 1 for
the square, 2 for the bar and the S and Z variants, 4 for T, J and L. -/
def cycleLength (ty : TetrominoType) : Nat :=
  if ty = TetrominoType.O then 1
  else if ty = TetrominoType.I ∨ ty = TetrominoType.S ∨ ty = TetrominoType.Z then 2
  else 4

/-- A call on a piece: `Move delta` or `Rotate`. -/
inductive PieceOp where
  | move (delta : Point)
  | rotate
  deriving DecidableEq, Repr

/-- A sequence of `Move` and `Rotate` calls on a piece; `none` as soon as a
`Rotate` fails. -/
def Tetromino.applyOps : Tetromino → List PieceOp → Option Tetromino
  | t, [] => some t
  | t, .move delta :: ops => Tetromino.applyOps (t.Move delta).1 ops
  | t, .rotate :: ops =>
    match t.Rotate with
    | (t1, none) => Tetromino.applyOps t1 ops
    | (_, some _) => none

/-- The set cells of a shape matrix as `(x, y)` pairs in row-major order, as
the specification describes what `GetBlocks` enumerates. -/
def trueCells (shape : List (List Bool)) : List (Nat × Nat) :=
  shape.enum.flatMap fun yr => (yr.2.enum.filter fun xc => xc.2).map fun xc => (xc.1, yr.1)

/-- A piece as `NewTetromino`, `Move` and `Rotate` leave it: `size` is 4 and
the shape is one of the registered states of its variant. -/
def Tetromino.Registered (t : Tetromino) : Prop :=
  t.size = 4 ∧ ∃ (shapes : List (List (List Bool))) (i : Nat),
    tetrominoShapes t.Typ = some shapes ∧ i < shapes.length ∧ t.Shape = shapes.getD i []

/-- What the claims ask of the cells of a registered shape: the cells
`GetBlocks` visits are the set cells in row-major order, they are four, pairwise
distinct, and lie in the 4x4 box. -/
def shapeCellsOk (shape : List (List Bool)) : Bool :=
  decide (cellOffsets 4 shape = trueCells shape) && decide ((cellOffsets 4 shape).length = 4) &&
    decide (cellOffsets 4 shape).Nodup &&
    (cellOffsets 4 shape).all fun o => decide (o.1 < 4) && decide (o.2 < 4)

/-- The total number of occupied cells of the grid. -/
def Board.occupiedCount (b : Board) : Nat :=
  (b.Grid.map fun row => row.count true).sum

/-- The 10x20 board with row 19 full and the single block (0, 18) in row 18. -/
def oneFullRowBoard : Board :=
  { Grid := List.replicate 18 (List.replicate 10 false) ++
      [true :: List.replicate 9 false, List.replicate 10 true],
    Width := 10, Height := 20 }

/-- A sequence of `SetBlock` calls on a board, whatever each returns. -/
def Board.applyWrites (b : Board) (writes : List (Point × Bool)) : Board :=
  writes.foldl (fun acc w => (acc.SetBlock w.1 w.2).1) b

/-- What holds of the pieces in every reachable state: the active piece is
present with a registered shape, the queued piece is a freshly built one, and
in a non-terminal state the active piece can be placed. -/
def GameService.PiecesOk (g : GameService) : Prop :=
  (∃ p, g.currentPiece = some p ∧ p.Registered) ∧
  (∃ t : Fin 7, g.nextPiece = some (freshPiece t)) ∧
  (g.gameOver = false → g.board.CanPlaceTetromino g.currentPiece = true)

/-- Nine square pieces dropped one on another in columns 4 and 5: the stack
reaches row 2 and the tenth piece cannot be placed at its spawn position. -/
def nineSquares : List Command := List.replicate 9 (.drop 20 1)

/-- The service after `nineSquares`, all pieces being squares. -/
def nineSquaresService : GameService :=
  ((initialService 1 1).run nineSquares).getD (initialService 1 1)

/-! ## keyboard.go and game_controller.go -/

/-- Sentinel errors of the package `input`, and wrapping. -/
inductive InputErr where
  | ErrInputCancelled
  | ErrInvalidInput
  | wrap (inner : InputErr)
  deriving DecidableEq, Repr

/-- Go `errors.Is(e, target)` on the errors of the package `input`. -/
def InputErr.is : InputErr → InputErr → Bool
  | .wrap inner, target => (InputErr.wrap inner == target) || InputErr.is inner target
  | e, target => e == target

/-- The map literal `commandMap` of `MapInputToCommand`, in source order. -/
def commandMap : List (String × String) :=
  [("a", "left"), ("A", "left"), ("d", "right"), ("D", "right"), ("s", "down"), ("S", "down"),
   ("w", "rotate"), ("W", "rotate"), (" ", "drop"), ("p", "pause"), ("P", "pause"),
   ("q", "quit"), ("Q", "quit"), ("r", "restart"), ("R", "restart"), ("left", "left"),
   ("right", "right"), ("down", "down"), ("rotate", "rotate"), ("drop", "drop"),
   ("pause", "pause"), ("quit", "quit"), ("restart", "restart")]

/-- Go `func MapInputToCommand(input string) (string, error)`: the returned
string and error; the keys of the literal are distinct, so the map lookup is
the lookup in the list. -/
def MapInputToCommand (input : String) : String × Option InputErr :=
  match commandMap.lookup input with
  | some command => (command, none)
  | none => ("", some (.wrap .ErrInvalidInput))

/-- The command vocabulary of the specification. -/
def commandVocabulary : List String :=
  ["left", "right", "down", "rotate", "drop", "pause", "quit", "restart"]

/-- Go arithmetic on `int64`, the type under `time.Duration`: the result is
taken modulo 2^64 into the range from -2^63 to 2^63 - 1. -/
def wrapInt64 (x : Int) : Int := (x + 9223372036854775808) % 18446744073709551616 - 9223372036854775808

/-- Go `time.Millisecond` as a `time.Duration`, a count of nanoseconds. -/
def Millisecond : Int := 1000000

/-- Go `type GameController struct`, with the drop timer left out (wall-clock
time) and `time.Duration` as a count of nanoseconds. -/
structure GameController where
  gameService : GameService
  dropInterval : Int
  isPaused : Bool
  deriving DecidableEq, Repr

/-- Go `func (gc *GameController) updateDropInterval()`. `time.Duration` is an
`int64` and Go `int` is taken as 64 bits wide: the conversion, the two
products and the difference wrap. The constants `1000 * time.Millisecond` and
`100 * time.Millisecond` are exact. -/
def GameController.updateDropInterval (gc : GameController) : GameController :=
  let level := gc.gameService.level
  let baseInterval := 1000 * Millisecond
  let reduction := wrapInt64 (wrapInt64 (wrapInt64 (level - 1) * 100) * Millisecond)
  let gc1 := { gc with dropInterval := wrapInt64 (baseInterval - reduction) }
  if gc1.dropInterval < 100 * Millisecond then { gc1 with dropInterval := 100 * Millisecond }
  else gc1

/-- A service whose board holds the single block (4, 3), right under the square
piece at its spawn position. -/
def blockedSquareService : GameService :=
  ((initialService 1 1).GetBoardSetBlock { X := 4, Y := 3 } true).1

/-- `Update` called again and again until a call locks the piece, that is until
the downward move of a call fails; `none` when the fuel runs out. The variant
`r` is the one drawn by the locking call. -/
def GameService.updatesUntilLock : Nat → GameService → Fin 7 → Option (GameService × Option Err)
  | 0, _, _ => none
  | fuel + 1, g, r =>
    match (g.MovePiece { X := 0, Y := 1 }).2 with
    | none => GameService.updatesUntilLock fuel (g.Update r).1 r
    | some _ => some (g.Update r)

/-- A service with the empty board whose active piece, a flat bar, sits at the
anchor (3, -2), one row above the grid, as after
`GetCurrentPiece().Move(Point(0, -2))` on a fresh service. -/
def barAboveService : GameService :=
  { initialService 0 0 with currentPiece := some ((freshPiece 0).translated { X := 0, Y := -2 }) }

/-- The number of successful downward `MovePiece` steps the loop of `DropPiece`
makes before a step returns an error and the loop is left; `none` when the
fuel runs out. -/
def GameService.dropSteps : Nat → GameService → Option Nat
  | 0, _ => none
  | fuel + 1, g =>
    match g.MovePiece { X := 0, Y := 1 } with
    | (_, some _) => some 0
    | (g1, none) => (GameService.dropSteps fuel g1).map fun n => n + 1

/-- The rows of `grid`, numbered from `s`, whose number is not listed in
`lines`, in order; `Board.rowsRemoved` keeps `keptRowsFrom 0`. -/
def keptRowsFrom (s : Nat) (grid : List (List Bool)) (lines : List Int) : List (List Bool) :=
  ((grid.enumFrom s).filter fun p => decide ((p.1 : Int) ∉ lines)).map Prod.snd

/-- A controller over a fresh service whose level has been set to `level`, the
interval not yet computed. -/
def controllerAtLevel (level : Int) : GameController :=
  { gameService := { initialService 0 0 with level := level }, dropInterval := 0, isPaused := false }

/-! ## Basic facts -/

theorem IsValidPosition_iff (b : Board) (p : Point) :
    b.IsValidPosition p = true ↔ 0 ≤ p.X ∧ p.X < b.Width ∧ 0 ≤ p.Y ∧ p.Y < b.Height := by
  simp [Board.IsValidPosition, and_assoc]

theorem MovePiece_gameOver (g : GameService) (delta : Point) (h : g.gameOver = true) :
    g.MovePiece delta = (g, some .ErrGameOver) := by
  simp [GameService.MovePiece, h]

theorem RotatePiece_gameOver (g : GameService) (h : g.gameOver = true) :
    g.RotatePiece = (g, some .ErrGameOver) := by
  simp [GameService.RotatePiece, h]

theorem DropPiece_gameOver (fuel : Nat) (g : GameService) (r : Fin 7) (h : g.gameOver = true) :
    g.DropPiece fuel r = some (g, some .ErrGameOver) := by
  simp [GameService.DropPiece, h]

theorem Update_gameOver (g : GameService) (r : Fin 7) (h : g.gameOver = true) :
    g.Update r = (g, some .ErrGameOver) := by
  simp [GameService.Update, h]

theorem exec_gameOver (g : GameService) (c : Command) (h : g.gameOver = true) :
    g.exec c = some (g, some .ErrGameOver) := by
  cases c with
  | move delta => simp [GameService.exec, MovePiece_gameOver g delta h]
  | rotate => simp [GameService.exec, RotatePiece_gameOver g h]
  | drop fuel r => simp [GameService.exec, DropPiece_gameOver fuel g r h]
  | update r => simp [GameService.exec, Update_gameOver g r h]

theorem run_gameOver (g : GameService) (cmds : List Command) (h : g.gameOver = true) :
    g.run cmds = some g := by
  induction cmds with
  | nil => rfl
  | cons c cs ih => simp [GameService.run, exec_gameOver g c h, ih]

theorem MovePiece_eq (g : GameService) (piece : Tetromino) (delta : Point)
    (hgo : g.gameOver = false) (hcur : g.currentPiece = some piece) :
    g.MovePiece delta =
      if g.board.CanPlaceTetromino
          (some (piece.translated delta)) = true
      then ({ g with currentPiece := some (piece.translated delta) }, none)
      else (g, some .ErrInvalidMove) := by
  cases g with
  | mk board cur nxt score lines level go =>
    simp only at hgo hcur
    subst hgo hcur
    simp only [GameService.MovePiece, Tetromino.Move, Point.Add, Tetromino.translated]
    by_cases hc : board.CanPlaceTetromino
        (some { piece with Position := ⟨piece.Position.X + delta.X, piece.Position.Y + delta.Y⟩ }) = true
    · simp [hc]
    · simp [hc]

/-- Claim C3: in a non-terminal state with an active piece, `MovePiece delta`
returns no error exactly when the piece translated by `delta` can be placed;
then the service is the old one with the piece at the old position plus
`delta`; otherwise it returns `ErrInvalidMove` and the whole service (position,
shape, type, board, next piece, counters, flag) is as before the call. -/
theorem C3_MovePiece_commit_or_rollback (g : GameService) (piece : Tetromino) (delta : Point)
    (hgo : g.gameOver = false) (hcur : g.currentPiece = some piece) :
    ((g.MovePiece delta).2 = none ↔
      g.board.CanPlaceTetromino
        (some (piece.translated delta)) = true) ∧
    (g.board.CanPlaceTetromino
        (some (piece.translated delta)) = true →
      g.MovePiece delta =
        ({ g with currentPiece := some (piece.translated delta) }, none)) ∧
    (g.board.CanPlaceTetromino
        (some (piece.translated delta)) = false →
      g.MovePiece delta = (g, some .ErrInvalidMove)) := by
  rw [MovePiece_eq g piece delta hgo hcur]
  by_cases hc : g.board.CanPlaceTetromino
      (some (piece.translated delta)) = true
  · simp [hc]
  · simp [hc]

/-- Claim C5: `CanPlaceTetromino` is true exactly when the piece is present and
every point of `GetBlocks` lies inside the grid and is unoccupied; it is false
for an absent piece. -/
theorem C5_CanPlaceTetromino_iff (b : Board) (tetromino : Option Tetromino) :
    b.CanPlaceTetromino tetromino = true ↔
      ∃ t, tetromino = some t ∧
        ∀ p ∈ t.GetBlocks, (0 ≤ p.X ∧ p.X < b.Width) ∧ (0 ≤ p.Y ∧ p.Y < b.Height) ∧
          b.cell p.Y p.X = false := by
  cases tetromino with
  | none => simp [Board.CanPlaceTetromino]
  | some t =>
    simp only [Board.CanPlaceTetromino, List.all_eq_true, Option.some.injEq, exists_eq_left']
    constructor
    · intro h p hp
      have hp1 := h p hp
      by_cases hv : b.IsValidPosition p = true
      · have hv2 := (IsValidPosition_iff b p).1 hv
        simp [Board.IsOccupied, hv] at hp1
        exact ⟨⟨hv2.1, hv2.2.1⟩, ⟨hv2.2.2.1, hv2.2.2.2⟩, hp1⟩
      · simp [hv] at hp1
    · intro h p hp
      obtain ⟨⟨h1, h2⟩, ⟨h3, h4⟩, h5⟩ := h p hp
      have hv : b.IsValidPosition p = true := (IsValidPosition_iff b p).2 ⟨h1, h2, h3, h4⟩
      simp [Board.IsOccupied, hv, h5]

/-- Claim C6: once the terminal flag is set, `MovePiece`, `RotatePiece`,
`DropPiece` (whatever its fuel) and `Update` return `ErrGameOver` and leave the
service unchanged; every sequence of commands runs to the same service, so the
flag stays set. -/
theorem C6_gameOver_absorbing (g : GameService) (h : g.gameOver = true) :
    (∀ delta, g.MovePiece delta = (g, some .ErrGameOver)) ∧
    g.RotatePiece = (g, some .ErrGameOver) ∧
    (∀ fuel r, g.DropPiece fuel r = some (g, some .ErrGameOver)) ∧
    (∀ r, g.Update r = (g, some .ErrGameOver)) ∧
    (∀ cmds, g.run cmds = some g) ∧
    (∀ cmds g1, g.run cmds = some g1 → g1.gameOver = true) := by
  refine ⟨fun d => MovePiece_gameOver g d h, RotatePiece_gameOver g h,
    fun fuel r => DropPiece_gameOver fuel g r h, fun r => Update_gameOver g r h,
    fun cmds => run_gameOver g cmds h, ?_⟩
  intro cmds g1 hrun
  rw [run_gameOver g cmds h] at hrun
  cases hrun
  exact h

theorem NewTetromino_fresh (r : Fin 7) :
    NewTetromino (r.val : Int) spawnPosition = .ok (freshPiece r) := by
  fin_cases r <;> rfl

theorem generateNextPiece_eq (g : GameService) (r : Fin 7) :
    g.generateNextPiece r = ({ g with nextPiece := some (freshPiece r) }, none) := by
  simp [GameService.generateNextPiece, NewTetromino_fresh]

theorem isLineFull_range (b : Board) (y : Int) (h : b.isLineFull y = true) :
    0 ≤ y ∧ y < b.Height := by
  unfold Board.isLineFull at h
  by_cases hy : y < 0 ∨ y ≥ b.Height
  · simp [hy] at h
  · push_neg at hy
    exact ⟨hy.1, hy.2⟩

theorem GetCompletedLines_range (b : Board) (y : Int) (h : y ∈ b.GetCompletedLines) :
    0 ≤ y ∧ y < b.Height := by
  unfold Board.GetCompletedLines at h
  exact isLineFull_range b y (List.mem_filter.1 h).2

theorem ClearLines_completed_err (b : Board) :
    (b.ClearLines b.GetCompletedLines).2 = none := by
  unfold Board.ClearLines
  split
  · rfl
  · split
    · rename_i x hx
      have hm := List.mem_of_find?_eq_some hx
      have hp := List.find?_some hx
      have hr := GetCompletedLines_range b _ hm
      simp at hp
      omega
    · rfl

@[simp]
theorem updateScore_board (g : GameService) (n : Int) :
    (g.updateScore n).board = g.board := by
  unfold GameService.updateScore; split <;> rfl

@[simp]
theorem updateScore_currentPiece (g : GameService) (n : Int) :
    (g.updateScore n).currentPiece = g.currentPiece := by
  unfold GameService.updateScore; split <;> rfl

@[simp]
theorem updateScore_nextPiece (g : GameService) (n : Int) :
    (g.updateScore n).nextPiece = g.nextPiece := by
  unfold GameService.updateScore; split <;> rfl

@[simp]
theorem updateScore_gameOver (g : GameService) (n : Int) :
    (g.updateScore n).gameOver = g.gameOver := by
  unfold GameService.updateScore; split <;> rfl

theorem lockPiece_eq (g : GameService) (r : Fin 7) (piece : Tetromino) (b1 : Board)
    (hcur : g.currentPiece = some piece)
    (hplace : g.board.PlaceTetromino (some piece) = (b1, none)) :
    g.lockPiece r =
      if (g.afterClear b1).board.IsGameOver = true then
        ({ g.afterClear b1 with gameOver := true }, none)
      else
        ({ g.afterClear b1 with
            currentPiece := g.nextPiece
            nextPiece := some (freshPiece r)
            gameOver := g.gameOver || !(g.afterClear b1).board.CanPlaceTetromino g.nextPiece },
          none) := by
  have hclr := ClearLines_completed_err b1
  rcases hcl : b1.ClearLines b1.GetCompletedLines with ⟨b2, e⟩
  rw [hcl] at hclr
  simp only at hclr
  subst hclr
  unfold GameService.lockPiece GameService.afterClear
  simp only [hcur, hplace, hcl, generateNextPiece_eq]
  by_cases hn : b1.GetCompletedLines.length > 0
  · simp only [hn, if_true, updateScore_board, updateScore_nextPiece, updateScore_gameOver]
    by_cases hgo : b2.IsGameOver = true
    · simp only [hgo, if_true]
    · simp only [hgo]
      by_cases hc : b2.CanPlaceTetromino g.nextPiece = true
      · simp [hc]
      · simp [hc]
  · simp only [hn, if_false]
    by_cases hgo : b1.IsGameOver = true
    · simp only [hgo, if_true]
    · simp only [hgo]
      by_cases hc : b1.CanPlaceTetromino g.nextPiece = true
      · simp [hc]
      · simp [hc]

theorem tdiv_ten_eq_floor (a : Int) (h : 0 ≤ a) : Int.tdiv a 10 = ⌊(a : ℚ) / 10⌋ := by
  rw [Int.tdiv_eq_ediv h (by norm_num)]
  have := Rat.floor_intCast_div_natCast a 10
  simpa using this.symm

theorem updateScore_fields (g : GameService) (n base : Int) (hb : baseScore n = some base) :
    (g.updateScore n).lines = g.lines + n ∧
    (g.updateScore n).level = Int.tdiv (g.lines + n) 10 + 1 ∧
    (g.updateScore n).score = g.score + base * (Int.tdiv (g.lines + n) 10 + 1) := by
  simp [GameService.updateScore, hb]

theorem lockPiece_counters (g : GameService) (r : Fin 7) (piece : Tetromino) (b1 : Board)
    (hcur : g.currentPiece = some piece)
    (hplace : g.board.PlaceTetromino (some piece) = (b1, none)) :
    (g.lockPiece r).2 = none ∧
    (g.lockPiece r).1.board = (g.afterClear b1).board ∧
    (g.lockPiece r).1.score = (g.afterClear b1).score ∧
    (g.lockPiece r).1.lines = (g.afterClear b1).lines ∧
    (g.lockPiece r).1.level = (g.afterClear b1).level := by
  rw [lockPiece_eq g r piece b1 hcur hplace]
  split <;> simp

theorem IsGameOver_iff (b : Board) :
    b.IsGameOver = true ↔ ∃ x : Int, 0 ≤ x ∧ x < b.Width ∧ b.cell 0 x = true := by
  unfold Board.IsGameOver
  rw [List.any_eq_true]
  constructor
  · rintro ⟨x, hx, hc⟩
    rw [List.mem_range] at hx
    exact ⟨(x : Int), by omega, by omega, hc⟩
  · rintro ⟨x, h0, h1, hc⟩
    refine ⟨x.toNat, ?_, ?_⟩
    · rw [List.mem_range]; omega
    · rw [Int.toNat_of_nonneg h0]; exact hc

/-- Claim C2: when `lockPiece` places the active piece and finds `n` completed
lines with `n` in 1..4, it succeeds and sets `lines` to `lines + n`, `level` to
`floor(lines' / 10) + 1` and `score` to `score + base(n) * level'`, with base
100, 300, 500, 800 and `level'` the level after this clear. The counter `lines`
is non-negative, as the data model has it. -/
theorem C2_lock_scoring (g : GameService) (r : Fin 7) (piece : Tetromino) (b1 : Board)
    (n : Nat) (base : Int)
    (hcur : g.currentPiece = some piece)
    (hplace : g.board.PlaceTetromino (some piece) = (b1, none))
    (hlen : b1.GetCompletedLines.length = n)
    (hbase : (n = 1 ∧ base = 100) ∨ (n = 2 ∧ base = 300) ∨ (n = 3 ∧ base = 500) ∨
      (n = 4 ∧ base = 800))
    (hlines : 0 ≤ g.lines) :
    (g.lockPiece r).2 = none ∧
    (g.lockPiece r).1.lines = g.lines + (n : Int) ∧
    (g.lockPiece r).1.level = ⌊((g.lines + (n : Int) : Int) : ℚ) / 10⌋ + 1 ∧
    (g.lockPiece r).1.score =
      g.score + base * (⌊((g.lines + (n : Int) : Int) : ℚ) / 10⌋ + 1) := by
  obtain ⟨he, _, hs, hl, hv⟩ := lockPiece_counters g r piece b1 hcur hplace
  have hpos : b1.GetCompletedLines.length > 0 := by omega
  have hb : baseScore (n : Int) = some base := by
    rcases hbase with ⟨h1, h2⟩ | ⟨h1, h2⟩ | ⟨h1, h2⟩ | ⟨h1, h2⟩ <;> subst h1 h2 <;> rfl
  have hf := updateScore_fields
    ({ g with board := (b1.ClearLines b1.GetCompletedLines).1 } : GameService) (n : Int) base hb
  have hac : g.afterClear b1 =
      ({ g with board := (b1.ClearLines b1.GetCompletedLines).1 } : GameService).updateScore
        (n : Int) := by
    unfold GameService.afterClear
    rw [if_pos hpos, hlen]
  rw [← tdiv_ten_eq_floor (g.lines + (n : Int)) (by omega)]
  rw [hs, hl, hv, hac]
  exact ⟨he, hf.1, hf.2.1, hf.2.2⟩

theorem rowEquals_iff (a b : List Bool) (hlen : a.length = b.length) :
    ((List.range a.length).all fun j => a.getD j false == b.getD j false) = true ↔ a = b := by
  rw [List.all_eq_true]
  constructor
  · intro h
    apply List.ext_getElem hlen
    intro j h1 h2
    have := h j (List.mem_range.2 h1)
    simpa [List.getD_eq_getElem, h1, h2] using this
  · intro h j _
    simp [h]

theorem shapeEquals_iff (t : Tetromino) (shape : List (List Bool)) :
    t.shapeEquals shape = true ↔ t.Shape = shape := by
  unfold Tetromino.shapeEquals
  by_cases hlen : t.Shape.length = shape.length
  · simp only [hlen, ne_eq, not_true_eq_false, if_false, List.all_eq_true, List.mem_range]
    constructor
    · intro h
      apply List.ext_getElem hlen
      intro i h1 h2
      have hi := h i (by omega)
      by_cases hr : (t.Shape.getD i []).length = (shape.getD i []).length
      · simp only [hr, ne_eq, not_true_eq_false, if_false] at hi
        have hi2 : ((List.range (t.Shape.getD i []).length).all fun j =>
            (t.Shape.getD i []).getD j false == (shape.getD i []).getD j false) = true := by
          rw [hr]; exact hi
        have := (rowEquals_iff _ _ hr).1 hi2
        simpa [List.getD_eq_getElem, h1, h2] using this
      · rw [if_pos hr] at hi
        cases hi
    · intro h i _
      subst h
      simp
  · simp only [ne_eq, hlen, not_false_eq_true, if_true]
    constructor
    · intro h; cases h
    · intro h; exact absurd (by rw [h]) hlen

theorem rotateScan_found (t : Tetromino) (shapes : List (List (List Bool)))
    (pre : List (List (List Bool))) (s : List (List Bool)) (post : List (List (List Bool)))
    (k : Nat) (hs : t.Shape = s) (hpre : ∀ x ∈ pre, t.Shape ≠ x) :
    t.rotateScan shapes k (pre ++ s :: post) =
      ({ t with Shape := shapes.getD ((k + pre.length + 1) % shapes.length) [] }, none) := by
  induction pre generalizing k with
  | nil =>
    have he : t.shapeEquals s = true := (shapeEquals_iff t s).2 hs
    simp [Tetromino.rotateScan, he]
  | cons x xs ih =>
    have hx : t.shapeEquals x = false := by
      have hne := hpre x (List.mem_cons_self x xs)
      cases hb : t.shapeEquals x with
      | false => rfl
      | true => exact absurd ((shapeEquals_iff t x).1 hb) hne
    have ih2 := ih (k + 1) (fun y hy => hpre y (List.mem_cons_of_mem x hy))
    simp only [List.cons_append, Tetromino.rotateScan, hx, List.length_cons, List.append_eq,
      Bool.false_eq_true, if_false]
    rw [ih2]
    have : k + 1 + xs.length + 1 = k + (xs.length + 1) + 1 := by omega
    simp [this]

theorem tetrominoShapes_nodup (ty : TetrominoType) (shapes : List (List (List Bool)))
    (htab : tetrominoShapes ty = some shapes) : shapes.Nodup := by
  unfold tetrominoShapes at htab
  split_ifs at htab <;> (injection htab with htab; subst htab; decide)

theorem Rotate_registered (t : Tetromino) (shapes : List (List (List Bool))) (i : Nat)
    (htab : tetrominoShapes t.Typ = some shapes) (hi : i < shapes.length)
    (hshape : t.Shape = shapes.getD i []) :
    t.Rotate = ({ t with Shape := shapes.getD ((i + 1) % shapes.length) [] }, none) := by
  unfold Tetromino.Rotate
  rw [htab]
  simp only
  by_cases hk : shapes.length ≤ 1
  · have hi0 : i = 0 := by omega
    have hl : shapes.length = 1 := by omega
    subst hi0
    rw [if_pos hk, hl]
    simp only [Nat.zero_add, Nat.mod_self]
    rw [← hshape]
  · simp only [hk, if_false]
    have hnd := tetrominoShapes_nodup t.Typ shapes htab
    have hsplit : shapes = shapes.take i ++ shapes.getD i [] :: shapes.drop (i + 1) := by
      rw [List.getD_eq_getElem shapes [] hi]
      simp
    have hpre : ∀ x ∈ shapes.take i, t.Shape ≠ x := by
      intro x hx heq
      rw [hsplit] at hnd
      have := (List.nodup_append.1 hnd).2.2
      exact this hx (by rw [← heq, hshape]; exact List.mem_cons_self _ _)
    have h := rotateScan_found t shapes (shapes.take i) (shapes.getD i []) (shapes.drop (i + 1)) 0
      hshape hpre
    rw [← hsplit] at h
    rw [h]
    have hlen : (shapes.take i).length = i := by
      rw [List.length_take]; omega
    simp [hlen]

theorem RotatePiece_eq (g : GameService) (piece : Tetromino) (shapes : List (List (List Bool)))
    (i : Nat) (hgo : g.gameOver = false) (hcur : g.currentPiece = some piece)
    (htab : tetrominoShapes piece.Typ = some shapes) (hi : i < shapes.length)
    (hshape : piece.Shape = shapes.getD i []) :
    g.RotatePiece =
      if g.board.CanPlaceTetromino
          (some (piece.withShape (shapes.getD ((i + 1) % shapes.length) []))) = true
      then ({ g with currentPiece := some (piece.withShape (shapes.getD ((i + 1) % shapes.length) [])) }, none)
      else (g, some .ErrInvalidMove) := by
  have hrot := Rotate_registered piece shapes i htab hi hshape
  generalize shapes.getD ((i + 1) % shapes.length) [] = ns at hrot ⊢
  cases g with
  | mk board cur nxt score lines level go =>
    simp only at hgo hcur
    subst hgo hcur
    simp only [GameService.RotatePiece, hrot, Tetromino.withShape]
    by_cases hc : board.CanPlaceTetromino (some { piece with Shape := ns }) = true
    · simp [hc]
    · simp [hc]

/-- Claim C4: in a non-terminal state whose active piece has the registered
rotation state number `i` of its variant as shape, `RotatePiece` returns no
error exactly when the piece with state `(i + 1) mod k` at the same anchor can
be placed; then only the shape of the active piece changes; otherwise it
returns `ErrInvalidMove` and the whole service, the shape included, is as
before the call. The anchor never changes. -/
theorem C4_RotatePiece_commit_or_rollback (g : GameService) (piece : Tetromino)
    (shapes : List (List (List Bool))) (i : Nat)
    (hgo : g.gameOver = false) (hcur : g.currentPiece = some piece)
    (htab : tetrominoShapes piece.Typ = some shapes) (hi : i < shapes.length)
    (hshape : piece.Shape = shapes.getD i []) :
    ((g.RotatePiece).2 = none ↔
      g.board.CanPlaceTetromino
        (some (piece.withShape (shapes.getD ((i + 1) % shapes.length) []))) = true) ∧
    (g.board.CanPlaceTetromino
        (some (piece.withShape (shapes.getD ((i + 1) % shapes.length) []))) = true →
      g.RotatePiece =
        ({ g with currentPiece := some (piece.withShape (shapes.getD ((i + 1) % shapes.length) [])) }, none)) ∧
    (g.board.CanPlaceTetromino
        (some (piece.withShape (shapes.getD ((i + 1) % shapes.length) []))) = false →
      g.RotatePiece = (g, some .ErrInvalidMove)) := by
  rw [RotatePiece_eq g piece shapes i hgo hcur htab hi hshape]
  generalize shapes.getD ((i + 1) % shapes.length) [] = ns
  by_cases hc : g.board.CanPlaceTetromino (some (piece.withShape ns)) = true
  · simp [hc]
  · simp [hc]

/-- Claim C7, amended: when a lock that placed the active piece leaves a row-0
cell occupied, the lock succeeds, `IsGameOver` of the service is true, and every
following `MovePiece`, `RotatePiece`, `DropPiece` and `Update` returns
`ErrGameOver` and leaves the service, its grid included, unchanged. -/
theorem C7_lock_row0_terminal (g : GameService) (r : Fin 7) (piece : Tetromino) (b1 : Board)
    (hcur : g.currentPiece = some piece)
    (hplace : g.board.PlaceTetromino (some piece) = (b1, none))
    (hrow : ∃ x : Int, 0 ≤ x ∧ x < (g.lockPiece r).1.board.Width ∧
      (g.lockPiece r).1.board.cell 0 x = true) :
    (g.lockPiece r).2 = none ∧
    (g.lockPiece r).1.IsGameOver = true ∧
    (∀ delta, (g.lockPiece r).1.MovePiece delta = ((g.lockPiece r).1, some .ErrGameOver)) ∧
    (g.lockPiece r).1.RotatePiece = ((g.lockPiece r).1, some .ErrGameOver) ∧
    (∀ fuel r2, (g.lockPiece r).1.DropPiece fuel r2 = some ((g.lockPiece r).1, some .ErrGameOver)) ∧
    (∀ r2, (g.lockPiece r).1.Update r2 = ((g.lockPiece r).1, some .ErrGameOver)) := by
  obtain ⟨he, hb, _, _, _⟩ := lockPiece_counters g r piece b1 hcur hplace
  have hover : (g.afterClear b1).board.IsGameOver = true := by
    rw [← hb]; exact (IsGameOver_iff _).2 hrow
  have hflag : (g.lockPiece r).1.gameOver = true := by
    rw [lockPiece_eq g r piece b1 hcur hplace, if_pos hover]
  exact ⟨he, hflag, fun d => MovePiece_gameOver _ d hflag, RotatePiece_gameOver _ hflag,
    fun fuel r2 => DropPiece_gameOver fuel _ r2 hflag, fun r2 => Update_gameOver _ r2 hflag⟩

/-- Claim C8: `Board.IsGameOver` is true exactly when some cell of row 0 is
occupied. After placing the piece and clearing completed lines, `lockPiece`
takes the terminal branch exactly when that predicate holds for the board: if
it holds, the result is the service after clearing with the flag set, success
is returned and `currentPiece` and `nextPiece` are as they were; if it does not
hold, `currentPiece` becomes the old `nextPiece` and a new `nextPiece` is
generated. -/
theorem C8_lock_gameOver_branch (b : Board) (g : GameService) (r : Fin 7) (piece : Tetromino)
    (b1 : Board) (hcur : g.currentPiece = some piece)
    (hplace : g.board.PlaceTetromino (some piece) = (b1, none)) :
    (b.IsGameOver = true ↔ ∃ x : Int, 0 ≤ x ∧ x < b.Width ∧ b.cell 0 x = true) ∧
    ((g.afterClear b1).board.IsGameOver = true →
      g.lockPiece r = ({ g.afterClear b1 with gameOver := true }, none) ∧
      (g.lockPiece r).1.currentPiece = g.currentPiece ∧
      (g.lockPiece r).1.nextPiece = g.nextPiece) ∧
    ((g.afterClear b1).board.IsGameOver = false →
      (g.lockPiece r).2 = none ∧
      (g.lockPiece r).1.currentPiece = g.nextPiece ∧
      (g.lockPiece r).1.nextPiece = some (freshPiece r) ∧
      (g.lockPiece r).1.gameOver =
        (g.gameOver || !(g.afterClear b1).board.CanPlaceTetromino g.nextPiece)) := by
  have hcp : (g.afterClear b1).currentPiece = g.currentPiece := by
    unfold GameService.afterClear; split <;> simp
  have hnp : (g.afterClear b1).nextPiece = g.nextPiece := by
    unfold GameService.afterClear; split <;> simp
  refine ⟨IsGameOver_iff b, ?_, ?_⟩
  · intro h
    rw [lockPiece_eq g r piece b1 hcur hplace, if_pos h]
    exact ⟨rfl, hcp, hnp⟩
  · intro h
    have h2 : ¬ (g.afterClear b1).board.IsGameOver = true := by simp [h]
    rw [lockPiece_eq g r piece b1 hcur hplace, if_neg h2]
    exact ⟨rfl, rfl, rfl, rfl⟩

theorem NewGameService_eq (r1 r2 : Fin 7) :
    NewGameService r1 r2 = .ok (initialService r1 r2) := by
  simp [NewGameService, NewBoard, BoardWidth, BoardHeight, GameService.spawnNewPiece,
    GameService.generateNextPiece, NewTetromino_fresh, initialService]

theorem MovePiece_frame (g : GameService) (delta : Point) :
    ∃ cp, (g.MovePiece delta).1 = { g with currentPiece := cp } := by
  unfold GameService.MovePiece
  split
  · exact ⟨g.currentPiece, rfl⟩
  · split
    · exact ⟨g.currentPiece, rfl⟩
    · simp only [Tetromino.Move]
      split <;> exact ⟨_, rfl⟩

theorem RotatePiece_frame (g : GameService) :
    ∃ cp, g.RotatePiece.1 = { g with currentPiece := cp } := by
  unfold GameService.RotatePiece
  split
  · exact ⟨g.currentPiece, rfl⟩
  · split
    · exact ⟨g.currentPiece, rfl⟩
    · split
      · exact ⟨_, rfl⟩
      · split <;> exact ⟨_, rfl⟩

theorem MovePiece_keeps_gameOver (g : GameService) (delta : Point) :
    (g.MovePiece delta).1.gameOver = g.gameOver := by
  obtain ⟨cp, h⟩ := MovePiece_frame g delta
  rw [h]

theorem dropLoop_preserves (P : GameService → Prop)
    (hm : ∀ g d, P g → P (g.MovePiece d).1) :
    ∀ (fuel : Nat) (g g1 : GameService) (e : Option Err),
      P g → g.dropLoop fuel = some (g1, e) → P g1 ∧ g1.gameOver = g.gameOver := by
  intro fuel
  induction fuel with
  | zero => intro g g1 e _ h; simp [GameService.dropLoop] at h
  | succ n ih =>
    intro g g1 e hP h
    have hP1 := hm g { X := 0, Y := 1 } hP
    have hgo := MovePiece_keeps_gameOver g { X := 0, Y := 1 }
    unfold GameService.dropLoop at h
    rcases hmv : g.MovePiece { X := 0, Y := 1 } with ⟨g2, e2⟩
    rw [hmv] at h hP1 hgo
    simp only at hP1 hgo
    cases e2 with
    | none =>
      simp only at h
      obtain ⟨h1, h2⟩ := ih g2 g1 e hP1 h
      exact ⟨h1, h2.trans hgo⟩
    | some err =>
      simp only at h
      split at h <;> (simp only [Option.some.injEq, Prod.mk.injEq] at h; obtain ⟨h1, _⟩ := h; subst h1; exact ⟨hP1, hgo⟩)

theorem exec_preserves (P : GameService → Prop)
    (hm : ∀ g d, P g → P (g.MovePiece d).1)
    (hr : ∀ g, P g → P g.RotatePiece.1)
    (hl : ∀ g r, P g → g.gameOver = false → P (g.lockPiece r).1)
    (g g1 : GameService) (c : Command) (e : Option Err)
    (hP : P g) (h : g.exec c = some (g1, e)) : P g1 := by
  cases c with
  | move delta =>
    simp only [GameService.exec, Option.some.injEq] at h
    have := hm g delta hP
    rw [h] at this; exact this
  | rotate =>
    simp only [GameService.exec, Option.some.injEq] at h
    have := hr g hP
    rw [h] at this; exact this
  | drop fuel r =>
    simp only [GameService.exec, GameService.DropPiece] at h
    by_cases hgo : g.gameOver = true
    · simp only [hgo, if_true, Option.some.injEq, Prod.mk.injEq] at h
      rw [← h.1]; exact hP
    · have hgo2 : g.gameOver = false := by simpa using hgo
      simp only [hgo2, Bool.false_eq_true, if_false] at h
      rcases hd : g.dropLoop fuel with _ | ⟨g2, e2⟩
      · rw [hd] at h; simp at h
      · rw [hd] at h
        obtain ⟨hP2, hgo3⟩ := dropLoop_preserves P hm fuel g g2 e2 hP hd
        cases e2 with
        | some err =>
          simp only [Option.some.injEq, Prod.mk.injEq] at h
          rw [← h.1]; exact hP2
        | none =>
          simp only [Option.some.injEq] at h
          have := hl g2 r hP2 (hgo3.trans hgo2)
          rw [h] at this; exact this
  | update r =>
    simp only [GameService.exec, GameService.Update, Option.some.injEq] at h
    by_cases hgo : g.gameOver = true
    · simp only [hgo, if_true, Prod.mk.injEq] at h
      rw [← h.1]; exact hP
    · have hgo2 : g.gameOver = false := by simpa using hgo
      simp only [hgo2, Bool.false_eq_true, if_false] at h
      have hP1 := hm g { X := 0, Y := 1 } hP
      have hgo3 := MovePiece_keeps_gameOver g { X := 0, Y := 1 }
      rcases hmv : g.MovePiece { X := 0, Y := 1 } with ⟨g2, e2⟩
      rw [hmv] at h hP1 hgo3
      simp only at hP1 hgo3
      cases e2 with
      | none =>
        simp only [Prod.mk.injEq] at h
        rw [← h.1]; exact hP1
      | some err =>
        simp only at h
        split at h
        · have := hl g2 r hP1 (hgo3.trans hgo2)
          rw [h] at this; exact this
        · simp only [Prod.mk.injEq] at h
          rw [← h.1]; exact hP1

theorem run_preserves (P : GameService → Prop)
    (hm : ∀ g d, P g → P (g.MovePiece d).1)
    (hr : ∀ g, P g → P g.RotatePiece.1)
    (hl : ∀ g r, P g → g.gameOver = false → P (g.lockPiece r).1) :
    ∀ (cmds : List Command) (g g1 : GameService), P g → g.run cmds = some g1 → P g1 := by
  intro cmds
  induction cmds with
  | nil =>
    intro g g1 hP h
    simp only [GameService.run, Option.some.injEq] at h
    rw [← h]; exact hP
  | cons c cs ih =>
    intro g g1 hP h
    unfold GameService.run at h
    rcases he : g.exec c with _ | ⟨g2, e2⟩
    · rw [he] at h; simp at h
    · rw [he] at h
      exact ih g2 g1 (exec_preserves P hm hr hl g g2 c e2 hP he) h

theorem Reachable_induction (P : GameService → Prop)
    (h0 : ∀ r1 r2, P (initialService r1 r2))
    (hm : ∀ g d, P g → P (g.MovePiece d).1)
    (hr : ∀ g, P g → P g.RotatePiece.1)
    (hl : ∀ g r, P g → g.gameOver = false → P (g.lockPiece r).1)
    (g : GameService) (hg : Reachable g) : P g := by
  obtain ⟨r1, r2, g0, cmds, hnew, hrun⟩ := hg
  rw [NewGameService_eq] at hnew
  cases hnew
  exact run_preserves P hm hr hl cmds _ g (h0 r1 r2) hrun

@[simp]
theorem afterClear_currentPiece (g : GameService) (b1 : Board) :
    (g.afterClear b1).currentPiece = g.currentPiece := by
  unfold GameService.afterClear; split <;> simp

@[simp]
theorem afterClear_nextPiece (g : GameService) (b1 : Board) :
    (g.afterClear b1).nextPiece = g.nextPiece := by
  unfold GameService.afterClear; split <;> simp

@[simp]
theorem afterClear_gameOver (g : GameService) (b1 : Board) :
    (g.afterClear b1).gameOver = g.gameOver := by
  unfold GameService.afterClear; split <;> simp

theorem lockPiece_nextPiece_fresh (g : GameService) (r : Fin 7)
    (h : ∃ t : Fin 7, g.nextPiece = some (freshPiece t)) :
    ∃ t : Fin 7, (g.lockPiece r).1.nextPiece = some (freshPiece t) := by
  cases hc : g.currentPiece with
  | none =>
    unfold GameService.lockPiece
    simp only [hc]
    exact h
  | some piece =>
    rcases hpl : g.board.PlaceTetromino (some piece) with ⟨b1, e⟩
    cases e with
    | some err =>
      unfold GameService.lockPiece
      simp only [hc, hpl]
      exact h
    | none =>
      rw [lockPiece_eq g r piece b1 hc hpl]
      split
      · simpa using h
      · exact ⟨r, rfl⟩

theorem Reachable_nextPiece (g : GameService) (hg : Reachable g) :
    ∃ t : Fin 7, g.nextPiece = some (freshPiece t) := by
  refine Reachable_induction (fun g => ∃ t : Fin 7, g.nextPiece = some (freshPiece t))
    ?_ ?_ ?_ ?_ g hg
  · intro r1 r2; exact ⟨r2, rfl⟩
  · intro g d h
    obtain ⟨cp, hcp⟩ := MovePiece_frame g d
    rw [hcp]; exact h
  · intro g h
    obtain ⟨cp, hcp⟩ := RotatePiece_frame g
    rw [hcp]; exact h
  · intro g r h _
    exact lockPiece_nextPiece_fresh g r h

/-- Claim C9: for a lock in a reachable non-terminal state that places the
active piece and leaves row 0 empty, the lock succeeds, the new `currentPiece`
is the previous `nextPiece`, which is the piece `NewTetromino` builds for some
variant at the spawn anchor (3, 0), the new `nextPiece` is the piece built for
the drawn variant, the flag is set exactly when the promoted piece cannot be
placed, and score, lines and level are those computed by the clear step. -/
theorem C9_lock_promotes_next (g : GameService) (r : Fin 7) (piece : Tetromino) (b1 : Board)
    (hreach : Reachable g) (hgo : g.gameOver = false)
    (hcur : g.currentPiece = some piece)
    (hplace : g.board.PlaceTetromino (some piece) = (b1, none))
    (hrow : ∀ x : Int, 0 ≤ x → x < (g.lockPiece r).1.board.Width →
      (g.lockPiece r).1.board.cell 0 x = false) :
    (g.lockPiece r).2 = none ∧
    (g.lockPiece r).1.currentPiece = g.nextPiece ∧
    (∃ t : Fin 7, g.nextPiece = some (freshPiece t) ∧
      NewTetromino (t.val : Int) { X := 3, Y := 0 } = .ok (freshPiece t)) ∧
    (g.lockPiece r).1.nextPiece = some (freshPiece r) ∧
    NewTetromino (r.val : Int) { X := 3, Y := 0 } = .ok (freshPiece r) ∧
    ((g.lockPiece r).1.gameOver = true ↔
      (g.lockPiece r).1.board.CanPlaceTetromino (g.lockPiece r).1.currentPiece = false) ∧
    (g.lockPiece r).1.score = (g.afterClear b1).score ∧
    (g.lockPiece r).1.lines = (g.afterClear b1).lines ∧
    (g.lockPiece r).1.level = (g.afterClear b1).level := by
  obtain ⟨he, hb, hs, hl, hv⟩ := lockPiece_counters g r piece b1 hcur hplace
  obtain ⟨t, ht⟩ := Reachable_nextPiece g hreach
  have hnot : ¬ (g.afterClear b1).board.IsGameOver = true := by
    intro hover
    rw [← hb] at hover
    obtain ⟨x, h0, h1, hc⟩ := (IsGameOver_iff _).1 hover
    rw [hrow x h0 h1] at hc
    cases hc
  have heq := lockPiece_eq g r piece b1 hcur hplace
  rw [if_neg hnot] at heq
  refine ⟨he, ?_, ⟨t, ht, NewTetromino_fresh t⟩, ?_, NewTetromino_fresh r, ?_, hs, hl, hv⟩
  · rw [heq]
  · rw [heq]
  · rw [heq]
    simp [hgo]

/-- Claim C1 (fails on the code): on the 10x20 board with rows 18 and 19 full and
the single block (0, 17) above them, `GetCompletedLines` returns `[18, 19]` and
`ClearLines [18, 19]` succeeds, but the grid it leaves is not the old grid with
rows 18 and 19 removed: the loop clears index 19 first, which moves the full
row 18 down to index 19, and then clears index 18, which by then holds the old
row 17. The result keeps a full row 19 and has lost the block of row 17, where
the claim asks for row 19 to hold that block. -/
theorem C1_ClearLines_ascending_keeps_full_row :
    twoFullRowsBoard.GetCompletedLines = [18, 19] ∧
    (twoFullRowsBoard.ClearLines [18, 19]).2 = none ∧
    (twoFullRowsBoard.ClearLines [18, 19]).1.Grid =
      List.replicate 19 (List.replicate 10 false) ++ [List.replicate 10 true] ∧
    twoFullRowsBoard.rowsRemoved [18, 19] =
      List.replicate 19 (List.replicate 10 false) ++ [true :: List.replicate 9 false] ∧
    (twoFullRowsBoard.ClearLines [18, 19]).1.Grid ≠ twoFullRowsBoard.rowsRemoved [18, 19] := by
  decide!

/-- Claim C10 (fails on the code): the service reached from `NewGameService` by
dropping five square pieces side by side is non-terminal and its board has the
complete row 19; and on the board with rows 18 and 19 full,
`GetCompletedLines` after `ClearLines(GetCompletedLines())` is `[19]`, not
empty. -/
theorem C10_full_row_survives_lock :
    Reachable fiveSquaresService ∧
    fiveSquaresService.gameOver = false ∧
    fiveSquaresService.board.GetCompletedLines = [19] ∧
    (twoFullRowsBoard.ClearLines twoFullRowsBoard.GetCompletedLines).1.GetCompletedLines = [19] := by
  refine ⟨⟨1, 1, initialService 1 1, fiveSquares, NewGameService_eq 1 1, ?_⟩, ?_, ?_, ?_⟩
  · decide!
  · decide!
  · decide!
  · decide!

theorem C2_lock_scoring_witness :
    lineService.currentPiece = some (freshPiece 0 |>.translated { X := 0, Y := 18 }) ∧
    (lineService.board.PlaceTetromino lineService.currentPiece).1.GetCompletedLines = [19] ∧
    (lineService.lockPiece 3).1.lines = 0 + ((1 : Nat) : Int) ∧
    (lineService.lockPiece 3).1.score = 0 + 100 * (⌊(((0 : Int) + ((1 : Nat) : Int) : Int) : ℚ) / 10⌋ + 1) :=
  have h := C2_lock_scoring lineService 3 (freshPiece 0 |>.translated { X := 0, Y := 18 })
    (lineService.board.PlaceTetromino lineService.currentPiece).1 1 100
    (by decide!) (by decide!) (by decide!) (Or.inl ⟨rfl, rfl⟩) (by decide!)
  ⟨by decide!, by decide!, h.2.1, h.2.2.2⟩

theorem C3_MovePiece_witness :
    (initialService 0 0).gameOver = false ∧
    (initialService 0 0).currentPiece = some (freshPiece 0) ∧
    (initialService 0 0).board.CanPlaceTetromino
      (some ((freshPiece 0).translated { X := 1, Y := 0 })) = true ∧
    (initialService 0 0).MovePiece { X := 1, Y := 0 } =
      ({ initialService 0 0 with
          currentPiece := some ((freshPiece 0).translated { X := 1, Y := 0 }) }, none) :=
  ⟨rfl, rfl, by decide!,
    (C3_MovePiece_commit_or_rollback (initialService 0 0) (freshPiece 0) { X := 1, Y := 0 }
      rfl rfl).2.1 (by decide!)⟩

theorem C4_RotatePiece_witness :
    (initialService 0 0).gameOver = false ∧
    (initialService 0 0).currentPiece = some (freshPiece 0) ∧
    tetrominoShapes (freshPiece 0).Typ = some
      [(freshPiece 0).Shape,
       [[false, false, true, false], [false, false, true, false],
        [false, false, true, false], [false, false, true, false]]] ∧
    (initialService 0 0).RotatePiece =
      ({ initialService 0 0 with
          currentPiece := some ((freshPiece 0).withShape
            [[false, false, true, false], [false, false, true, false],
             [false, false, true, false], [false, false, true, false]]) }, none) :=
  ⟨rfl, rfl, by decide!,
    (C4_RotatePiece_commit_or_rollback (initialService 0 0) (freshPiece 0)
      [(freshPiece 0).Shape,
       [[false, false, true, false], [false, false, true, false],
        [false, false, true, false], [false, false, true, false]]] 0
      rfl rfl (by decide!) (by decide) (by decide!)).2.1 (by decide!)⟩

theorem C6_gameOver_witness :
    ({ initialService 0 0 with gameOver := true } : GameService).gameOver = true ∧
    ({ initialService 0 0 with gameOver := true } : GameService).Update 0 =
      ({ initialService 0 0 with gameOver := true }, some .ErrGameOver) :=
  ⟨rfl, (C6_gameOver_absorbing { initialService 0 0 with gameOver := true } rfl).2.2.2.1 0⟩

/-- Claim C7 fails as stated: on a fresh service, after the block (0, 0) is
written through `GetBoard().SetBlock`, a row-0 cell is occupied but
`IsGameOver` of the service is false, `MovePiece`, `RotatePiece` and `Update`
succeed, and `DropPiece` succeeds and changes the grid. -/
theorem C7_direct_SetBlock_not_terminal :
    NewGameService 0 0 = .ok (initialService 0 0) ∧
    ((initialService 0 0).GetBoardSetBlock { X := 0, Y := 0 } true).2 = none ∧
    pokedService.board.cell 0 0 = true ∧
    pokedService.IsGameOver = false ∧
    (pokedService.MovePiece { X := 0, Y := 1 }).2 = none ∧
    pokedService.RotatePiece.2 = none ∧
    (pokedService.Update 0).2 = none ∧
    (∃ g1, pokedService.DropPiece 20 0 = some (g1, none) ∧ g1.board ≠ pokedService.board) := by
  refine ⟨NewGameService_eq 0 0, ?_, ?_, ?_, ?_, ?_, ?_, ?_⟩
  · decide!
  · decide!
  · decide!
  · decide!
  · decide!
  · decide!
  · refine ⟨((pokedService.DropPiece 20 0).getD (pokedService, none)).1, ?_, ?_⟩
    · decide!
    · decide!

theorem C7_lock_row0_witness :
    (topLockService.lockPiece 0).1.board.cell 0 5 = true ∧
    (topLockService.lockPiece 0).1.IsGameOver = true ∧
    (topLockService.lockPiece 0).1.Update 0 =
      ((topLockService.lockPiece 0).1, some .ErrGameOver) :=
  have h := C7_lock_row0_terminal topLockService 0
    { Typ := 0,
      Shape := [[false, false, true, false], [false, false, true, false],
                [false, false, true, false], [false, false, true, false]],
      Position := { X := 3, Y := 0 }, size := 4 }
    (topLockService.board.PlaceTetromino topLockService.currentPiece).1
    (by decide!) (by decide!) ⟨5, by decide, by decide!, by decide!⟩
  ⟨by decide!, h.2.1, h.2.2.2.2.2 0⟩

theorem C8_lock_gameOver_witness :
    (topLockService.afterClear
        (topLockService.board.PlaceTetromino topLockService.currentPiece).1).board.IsGameOver = true ∧
    (topLockService.lockPiece 0).1.currentPiece = topLockService.currentPiece ∧
    (topLockService.lockPiece 0).1.nextPiece = topLockService.nextPiece :=
  have h := C8_lock_gameOver_branch topLockService.board topLockService 0
    { Typ := 0,
      Shape := [[false, false, true, false], [false, false, true, false],
                [false, false, true, false], [false, false, true, false]],
      Position := { X := 3, Y := 0 }, size := 4 }
    (topLockService.board.PlaceTetromino topLockService.currentPiece).1
    (by decide!) (by decide!)
  ⟨by decide!, (h.2.1 (by decide!)).2⟩

theorem C9_lock_promotes_witness :
    Reachable (initialService 1 1) ∧
    (initialService 1 1).gameOver = false ∧
    ((initialService 1 1).lockPiece 2).1.currentPiece = some (freshPiece 1) ∧
    ((initialService 1 1).lockPiece 2).1.nextPiece = some (freshPiece 2) ∧
    ((initialService 1 1).lockPiece 2).1.gameOver = true :=
  have hr : Reachable (initialService 1 1) := ⟨1, 1, initialService 1 1, [], NewGameService_eq 1 1, rfl⟩
  have h := C9_lock_promotes_next (initialService 1 1) 2 (freshPiece 1)
    ((initialService 1 1).board.PlaceTetromino (some (freshPiece 1))).1
    hr rfl rfl (by decide!)
    (fun x h0 h1 => by
      have hw : ((initialService 1 1).lockPiece 2).1.board.Width = 10 := by decide!
      rw [hw] at h1
      interval_cases x <;> decide!)
  ⟨hr, rfl, h.2.1, h.2.2.2.1, by decide!⟩

theorem updateScore_counters (g : GameService) (n : Int) (hn : 0 ≤ n)
    (hs : 0 ≤ g.score) (hl : 0 ≤ g.lines) (hv : g.level = Int.tdiv g.lines 10 + 1) :
    (0 ≤ (g.updateScore n).score ∧ 0 ≤ (g.updateScore n).lines ∧
      (g.updateScore n).level = Int.tdiv (g.updateScore n).lines 10 + 1) ∧
    g.score ≤ (g.updateScore n).score ∧ g.lines ≤ (g.updateScore n).lines ∧
    g.level ≤ (g.updateScore n).level := by
  have h1 : Int.tdiv (g.lines + n) 10 = (g.lines + n) / 10 :=
    Int.tdiv_eq_ediv (by omega) (by norm_num)
  have h2 : Int.tdiv g.lines 10 = g.lines / 10 := Int.tdiv_eq_ediv hl (by norm_num)
  rw [h2] at hv
  unfold GameService.updateScore baseScore
  simp only
  split_ifs <;> simp only [h1] <;> refine ⟨⟨?_, ?_, ?_⟩, ?_, ?_, ?_⟩ <;>
    first | trivial | rfl | omega

theorem afterClear_counters (g : GameService) (b1 : Board)
    (hs : 0 ≤ g.score) (hl : 0 ≤ g.lines) (hv : g.level = Int.tdiv g.lines 10 + 1) :
    (0 ≤ (g.afterClear b1).score ∧ 0 ≤ (g.afterClear b1).lines ∧
      (g.afterClear b1).level = Int.tdiv (g.afterClear b1).lines 10 + 1) ∧
    g.score ≤ (g.afterClear b1).score ∧ g.lines ≤ (g.afterClear b1).lines ∧
    g.level ≤ (g.afterClear b1).level := by
  unfold GameService.afterClear
  split
  · exact updateScore_counters { g with board := (b1.ClearLines b1.GetCompletedLines).1 } _
      (by omega) hs hl hv
  · exact ⟨⟨hs, hl, hv⟩, le_refl _, le_refl _, le_refl _⟩

theorem lockPiece_counters_mono (g : GameService) (r : Fin 7)
    (hs : 0 ≤ g.score) (hl : 0 ≤ g.lines) (hv : g.level = Int.tdiv g.lines 10 + 1) :
    (0 ≤ (g.lockPiece r).1.score ∧ 0 ≤ (g.lockPiece r).1.lines ∧
      (g.lockPiece r).1.level = Int.tdiv (g.lockPiece r).1.lines 10 + 1) ∧
    g.score ≤ (g.lockPiece r).1.score ∧ g.lines ≤ (g.lockPiece r).1.lines ∧
    g.level ≤ (g.lockPiece r).1.level := by
  cases hc : g.currentPiece with
  | none =>
    unfold GameService.lockPiece
    simp only [hc]
    exact ⟨⟨hs, hl, hv⟩, le_refl _, le_refl _, le_refl _⟩
  | some piece =>
    rcases hpl : g.board.PlaceTetromino (some piece) with ⟨b1, e⟩
    cases e with
    | some err =>
      unfold GameService.lockPiece
      simp only [hc, hpl]
      exact ⟨⟨hs, hl, hv⟩, le_refl _, le_refl _, le_refl _⟩
    | none =>
      obtain ⟨_, _, h1, h2, h3⟩ := lockPiece_counters g r piece b1 hc hpl
      rw [h1, h2, h3]
      exact afterClear_counters g b1 hs hl hv

theorem exec_counters (g0 g g1 : GameService) (c : Command) (e : Option Err)
    (hP : (0 ≤ g.score ∧ 0 ≤ g.lines ∧ g.level = Int.tdiv g.lines 10 + 1) ∧
      g0.score ≤ g.score ∧ g0.lines ≤ g.lines ∧ g0.level ≤ g.level)
    (h : g.exec c = some (g1, e)) :
    (0 ≤ g1.score ∧ 0 ≤ g1.lines ∧ g1.level = Int.tdiv g1.lines 10 + 1) ∧
      g0.score ≤ g1.score ∧ g0.lines ≤ g1.lines ∧ g0.level ≤ g1.level := by
  refine exec_preserves
    (fun s => (0 ≤ s.score ∧ 0 ≤ s.lines ∧ s.level = Int.tdiv s.lines 10 + 1) ∧
      g0.score ≤ s.score ∧ g0.lines ≤ s.lines ∧ g0.level ≤ s.level)
    ?_ ?_ ?_ g g1 c e hP h
  · intro s d hs
    obtain ⟨cp, hcp⟩ := MovePiece_frame s d
    rw [hcp]; exact hs
  · intro s hs
    obtain ⟨cp, hcp⟩ := RotatePiece_frame s
    rw [hcp]; exact hs
  · intro s r hs _
    obtain ⟨hi, m1, m2, m3⟩ := lockPiece_counters_mono s r hs.1.1 hs.1.2.1 hs.1.2.2
    exact ⟨hi, le_trans hs.2.1 m1, le_trans hs.2.2.1 m2, le_trans hs.2.2.2 m3⟩

theorem Reachable_counters (g : GameService) (hg : Reachable g) :
    0 ≤ g.score ∧ 0 ≤ g.lines ∧ g.level = Int.tdiv g.lines 10 + 1 := by
  refine Reachable_induction
    (fun s => 0 ≤ s.score ∧ 0 ≤ s.lines ∧ s.level = Int.tdiv s.lines 10 + 1) ?_ ?_ ?_ ?_ g hg
  · intro r1 r2; exact ⟨le_refl _, le_refl _, rfl⟩
  · intro s d hs
    obtain ⟨cp, hcp⟩ := MovePiece_frame s d
    rw [hcp]; exact hs
  · intro s hs
    obtain ⟨cp, hcp⟩ := RotatePiece_frame s
    rw [hcp]; exact hs
  · intro s r hs _
    exact (lockPiece_counters_mono s r hs.1 hs.2.1 hs.2.2).1

/-- Claim C11: in every state reachable from `NewGameService` by the four
commands, `level = floor(lines / 10) + 1`, `score >= 0`, `lines >= 0` and
`level >= 1` (so 9 lines give level 1 and 10 lines give level 2), and no
command decreases score, lines or level. Go `int` is taken as unbounded. -/
theorem C11_counters_invariant (g : GameService) (hg : Reachable g) :
    (g.level = ⌊(g.lines : ℚ) / 10⌋ + 1 ∧ 0 ≤ g.score ∧ 0 ≤ g.lines ∧ 1 ≤ g.level) ∧
    (g.lines = 9 → g.level = 1) ∧ (g.lines = 10 → g.level = 2) ∧
    ∀ (c : Command) (g1 : GameService) (e : Option Err), g.exec c = some (g1, e) →
      g.score ≤ g1.score ∧ g.lines ≤ g1.lines ∧ g.level ≤ g1.level := by
  obtain ⟨hs, hl, hv⟩ := Reachable_counters g hg
  have h2 : Int.tdiv g.lines 10 = g.lines / 10 := Int.tdiv_eq_ediv hl (by norm_num)
  refine ⟨⟨?_, hs, hl, ?_⟩, ?_, ?_, ?_⟩
  · rw [← tdiv_ten_eq_floor g.lines hl]; exact hv
  · rw [hv, h2]; omega
  · intro h9; rw [hv, h2, h9]; rfl
  · intro h10; rw [hv, h2, h10]; rfl
  · intro c g1 e h
    exact (exec_counters g g g1 c e ⟨⟨hs, hl, hv⟩, le_refl _, le_refl _, le_refl _⟩ h).2

theorem C11_counters_witness :
    Reachable (initialService 0 0) ∧ (initialService 0 0).level = ⌊(((initialService 0 0).lines : Int) : ℚ) / 10⌋ + 1 :=
  have hr : Reachable (initialService 0 0) :=
    ⟨0, 0, initialService 0 0, [], NewGameService_eq 0 0, rfl⟩
  ⟨hr, (C11_counters_invariant (initialService 0 0) hr).1.1⟩

/-- Claim C12 fails as stated: in a service at level 1 with 9 lines, a lock that
completes exactly one line raises the score by 200, not by 100, because the
level is recomputed (to 2) before the base score is multiplied. -/
theorem C12_one_line_at_nine_scores_200 :
    nineLinesService.level = 1 ∧ nineLinesService.lines = 9 ∧
    (nineLinesService.board.PlaceTetromino nineLinesService.currentPiece).1.GetCompletedLines
      = [19] ∧
    (nineLinesService.lockPiece 3).2 = none ∧
    (nineLinesService.lockPiece 3).1.score = nineLinesService.score + 200 ∧
    (nineLinesService.lockPiece 3).1.score ≠ nineLinesService.score + 100 := by
  decide!

/-- Claim C12, amended: when a lock places the active piece and completes `n`
lines with `lines + n <= 9`, so that the level is 1 after the clear as well, the
score grows by exactly 100 for `n = 1` and by exactly 800 for `n = 4`. -/
theorem C12_level_one_scoring (g : GameService) (r : Fin 7) (piece : Tetromino) (b1 : Board)
    (n : Nat) (hcur : g.currentPiece = some piece)
    (hplace : g.board.PlaceTetromino (some piece) = (b1, none))
    (hlen : b1.GetCompletedLines.length = n)
    (hlines : 0 ≤ g.lines) (hafter : g.lines + (n : Int) ≤ 9) :
    (n = 1 → (g.lockPiece r).1.score = g.score + 100 ∧ (g.lockPiece r).1.level = 1) ∧
    (n = 4 → (g.lockPiece r).1.score = g.score + 800 ∧ (g.lockPiece r).1.level = 1) := by
  obtain ⟨_, _, hs, _, hv⟩ := lockPiece_counters g r piece b1 hcur hplace
  have hdiv : Int.tdiv (g.lines + (n : Int)) 10 = 0 := by
    rw [Int.tdiv_eq_ediv (by omega) (by norm_num)]; omega
  have hac : 0 < n → g.afterClear b1 =
      ({ g with board := (b1.ClearLines b1.GetCompletedLines).1 } : GameService).updateScore
        (n : Int) := by
    intro hpos
    unfold GameService.afterClear
    rw [if_pos (by omega), hlen]
  constructor
  · intro h1
    have hf := updateScore_fields
      ({ g with board := (b1.ClearLines b1.GetCompletedLines).1 } : GameService) (n : Int) 100
      (by subst h1; rfl)
    rw [hs, hv, hac (by omega), hf.2.2, hf.2.1]
    simp only [hdiv]
    constructor <;> norm_num
  · intro h4
    have hf := updateScore_fields
      ({ g with board := (b1.ClearLines b1.GetCompletedLines).1 } : GameService) (n : Int) 800
      (by subst h4; rfl)
    rw [hs, hv, hac (by omega), hf.2.2, hf.2.1]
    simp only [hdiv]
    constructor <;> norm_num

theorem C12_level_one_witness :
    lineService.lines + ((1 : Nat) : Int) ≤ 9 ∧
    (lineService.lockPiece 3).1.score = lineService.score + 100 :=
  have h := C12_level_one_scoring lineService 3 (freshPiece 0 |>.translated { X := 0, Y := 18 })
    (lineService.board.PlaceTetromino lineService.currentPiece).1 1
    (by decide!) (by decide!) (by decide!) (by decide!) (by decide!)
  ⟨by decide!, (h.1 rfl).1⟩

/-- Claim C14: in a non-terminal state with an active piece, if the piece one row
lower can be placed then `Update` succeeds and only the anchor of the active
piece changes, its `Y` growing by exactly 1; otherwise `Update` is exactly
`lockPiece` run on the unchanged service, and returns what it returns. -/
theorem C14_Update_step_or_lock (g : GameService) (r : Fin 7) (piece : Tetromino)
    (hgo : g.gameOver = false) (hcur : g.currentPiece = some piece) :
    (piece.translated { X := 0, Y := 1 }).Position =
      { X := piece.Position.X, Y := piece.Position.Y + 1 } ∧
    (piece.translated { X := 0, Y := 1 }).Shape = piece.Shape ∧
    (piece.translated { X := 0, Y := 1 }).Typ = piece.Typ ∧
    (g.board.CanPlaceTetromino (some (piece.translated { X := 0, Y := 1 })) = true →
      g.Update r = ({ g with currentPiece := some (piece.translated { X := 0, Y := 1 }) }, none)) ∧
    (g.board.CanPlaceTetromino (some (piece.translated { X := 0, Y := 1 })) = false →
      g.Update r = g.lockPiece r) := by
  have hmv := MovePiece_eq g piece { X := 0, Y := 1 } hgo hcur
  refine ⟨by simp [Tetromino.translated], rfl, rfl, ?_, ?_⟩
  · intro hc
    rw [if_pos hc] at hmv
    simp [GameService.Update, hgo, hmv]
  · intro hc
    rw [if_neg (by simp [hc])] at hmv
    simp [GameService.Update, hgo, hmv, Err.is]

theorem C14_Update_witness :
    (initialService 0 0).gameOver = false ∧
    (initialService 0 0).Update 2 =
      ({ initialService 0 0 with currentPiece := some ((freshPiece 0).translated { X := 0, Y := 1 }) }, none) :=
  ⟨rfl, (C14_Update_step_or_lock (initialService 0 0) 2 (freshPiece 0) rfl rfl).2.2.2.1
    (by decide!)⟩

theorem ClearLines_find_none (b : Board) (rows : List Int) :
    (rows.find? fun line => decide (line < 0) || decide (line ≥ b.Height)) = none ↔
      ∀ l ∈ rows, 0 ≤ l ∧ l < b.Height := by
  rw [List.find?_eq_none]
  constructor
  · intro h l hl
    have := h l hl
    simp at this
    omega
  · intro h l hl
    have := h l hl
    simp
    omega

/-- Claim C19: `ClearLines rows` returns an error exactly when `rows` is not empty
and holds an index outside `[0, Height)`; that error wraps `ErrOutOfBounds`, and
the board is returned unchanged, also when valid indices come before the bad
one. On the empty list it succeeds and leaves the board unchanged. -/
theorem C19_ClearLines_out_of_bounds (b : Board) (rows : List Int) :
    ((b.ClearLines rows).2 = some (.wrap .ErrOutOfBounds) ↔
      rows ≠ [] ∧ ∃ l ∈ rows, l < 0 ∨ b.Height ≤ l) ∧
    ((b.ClearLines rows).2 ≠ some (.wrap .ErrOutOfBounds) → (b.ClearLines rows).2 = none) ∧
    (Err.wrap .ErrOutOfBounds).is .ErrOutOfBounds = true ∧
    ((b.ClearLines rows).2 = some (.wrap .ErrOutOfBounds) → (b.ClearLines rows).1 = b) ∧
    b.ClearLines [] = (b, none) := by
  have hfn := ClearLines_find_none b rows
  refine ⟨?_, ?_, by decide, ?_, rfl⟩
  · unfold Board.ClearLines
    by_cases h0 : rows.length = 0
    · have : rows = [] := List.length_eq_zero.1 h0
      subst this
      simp
    · have hne : rows ≠ [] := fun h => h0 (by rw [h]; rfl)
      rw [if_neg h0]
      cases hf : rows.find? fun line => decide (line < 0) || decide (line ≥ b.Height) with
      | none =>
        have hall := hfn.1 hf
        constructor
        · intro h; cases h
        · rintro ⟨_, l, hl, hbad⟩
          have := hall l hl
          omega
      | some x =>
        simp only [true_iff]
        refine ⟨hne, ?_⟩
        by_contra hcon
        push_neg at hcon
        have : (rows.find? fun line => decide (line < 0) || decide (line ≥ b.Height)) = none :=
          hfn.2 (fun l hl => hcon l hl)
        rw [this] at hf
        cases hf
  · unfold Board.ClearLines
    split
    · intro _; rfl
    · split
      · intro h; exact absurd rfl h
      · intro _; rfl
  · unfold Board.ClearLines
    split
    · intro _; rfl
    · split
      · intro _; rfl
      · intro h; cases h

theorem GetCompletedLines_eq (b : Board) :
    b.GetCompletedLines =
      ((List.range b.Height.toNat).map Int.ofNat).filter fun y => b.isLineFull y := by
  unfold Board.GetCompletedLines
  simp [List.map_eq_flatMap]

/-- Claim C20: `GetCompletedLines` returns the row indices in strictly ascending
order, without duplicates, and an index `y` is returned exactly when
`0 <= y < Height` and every cell of row `y` (columns `0 <= x < Width`) is
occupied; so the result is empty exactly when no row is full. The function only
reads the board: it returns the list and nothing else. -/
theorem C20_GetCompletedLines_spec (b : Board) :
    b.GetCompletedLines.Pairwise (· < ·) ∧
    b.GetCompletedLines.Nodup ∧
    (∀ y : Int, y ∈ b.GetCompletedLines ↔
      (0 ≤ y ∧ y < b.Height) ∧ ∀ x : Int, 0 ≤ x → x < b.Width → b.cell y x = true) ∧
    (b.GetCompletedLines = [] ↔
      ¬ ∃ y : Int, (0 ≤ y ∧ y < b.Height) ∧
        ∀ x : Int, 0 ≤ x → x < b.Width → b.cell y x = true) := by
  have hsorted : b.GetCompletedLines.Pairwise (· < ·) := by
    rw [GetCompletedLines_eq]
    apply List.Pairwise.filter
    apply List.Pairwise.map _ _ (List.pairwise_lt_range b.Height.toNat)
    intro a c hac
    exact Int.ofNat_lt.2 hac
  have hmem : ∀ y : Int, y ∈ b.GetCompletedLines ↔
      (0 ≤ y ∧ y < b.Height) ∧ ∀ x : Int, 0 ≤ x → x < b.Width → b.cell y x = true := by
    intro y
    rw [GetCompletedLines_eq]
    unfold Board.isLineFull
    simp only [List.mem_filter, List.mem_map, List.mem_range, Int.ofNat_eq_coe]
    constructor
    · rintro ⟨⟨a, ha, rfl⟩, hfull⟩
      have hr : ¬ (((a : Int) < 0) ∨ ((a : Int) ≥ b.Height)) := by omega
      rw [if_neg hr, List.all_eq_true] at hfull
      refine ⟨by omega, ?_⟩
      intro x hx0 hx1
      have := hfull x.toNat (List.mem_range.2 (by omega))
      rwa [Int.toNat_of_nonneg hx0] at this
    · rintro ⟨⟨h0, h1⟩, hcells⟩
      refine ⟨⟨y.toNat, by omega, Int.toNat_of_nonneg h0⟩, ?_⟩
      have hr : ¬ ((y < 0) ∨ (y ≥ b.Height)) := by omega
      rw [if_neg hr, List.all_eq_true]
      intro x hx
      rw [List.mem_range] at hx
      exact hcells x (by omega) (by omega)
  refine ⟨hsorted, ?_, hmem, ?_⟩
  · exact hsorted.imp (fun h => ne_of_lt h)
  · rw [List.eq_nil_iff_forall_not_mem]
    constructor
    · rintro h ⟨y, hy⟩
      exact h y ((hmem y).2 hy)
    · intro h y hy
      exact h ⟨y, (hmem y).1 hy⟩

theorem GetBlocks_eq_map (t : Tetromino) :
    t.GetBlocks = (cellOffsets t.size.toNat t.Shape).map fun o =>
      ({ X := t.Position.X + (o.1 : Int), Y := t.Position.Y + (o.2 : Int) } : Point) := by
  unfold Tetromino.GetBlocks cellOffsets
  rw [List.map_flatMap]
  congr 1
  funext y
  rw [List.map_filterMap]
  congr 1
  funext x
  split <;> rfl

theorem GetBlocks_translated (t : Tetromino) (delta : Point) :
    (t.translated delta).GetBlocks =
      t.GetBlocks.map fun p => ({ X := p.X + delta.X, Y := p.Y + delta.Y } : Point) := by
  rw [GetBlocks_eq_map, GetBlocks_eq_map, List.map_map]
  simp only [Tetromino.translated]
  apply List.map_congr_left
  intro o _
  simp only [Function.comp, Point.mk.injEq]
  constructor <;> ring

theorem translated_zero (t : Tetromino) : t.translated { X := 0, Y := ((0 : Nat) : Int) } = t := by
  cases t
  simp [Tetromino.translated]

theorem translated_down_succ (t : Tetromino) (j : Nat) :
    (t.translated { X := 0, Y := 1 }).translated { X := 0, Y := (j : Int) } =
      t.translated { X := 0, Y := ((j + 1 : Nat) : Int) } := by
  cases t
  simp [Tetromino.translated]
  omega

theorem CanPlace_blocks (b : Board) (t : Tetromino) :
    b.CanPlaceTetromino (some t) = true ↔
      ∀ p ∈ t.GetBlocks, b.IsValidPosition p = true ∧ b.cell p.Y p.X = false := by
  simp only [Board.CanPlaceTetromino, List.all_eq_true]
  constructor
  · intro h p hp
    have hp1 := h p hp
    by_cases hv : b.IsValidPosition p = true
    · simp [Board.IsOccupied, hv] at hp1
      exact ⟨hv, hp1⟩
    · simp [hv] at hp1
  · intro h p hp
    obtain ⟨hv, hc⟩ := h p hp
    simp [Board.IsOccupied, hv, hc]

theorem CanPlace_translated_bound (b : Board) (t : Tetromino) (p : Point) (j : Nat)
    (hp : p ∈ t.GetBlocks)
    (hc : b.CanPlaceTetromino (some (t.translated { X := 0, Y := (j : Int) })) = true) :
    p.Y + (j : Int) < b.Height := by
  have hmem : ({ X := p.X + 0, Y := p.Y + (j : Int) } : Point) ∈
      (t.translated { X := 0, Y := (j : Int) }).GetBlocks := by
    rw [GetBlocks_translated]
    exact List.mem_map.2 ⟨p, hp, rfl⟩
  have hv := ((CanPlace_blocks b _).1 hc _ hmem).1
  exact ((IsValidPosition_iff b _).1 hv).2.2.2

theorem dropLoop_lands :
    ∀ (k : Nat) (g : GameService) (piece : Tetromino) (fuel : Nat),
      g.gameOver = false → g.currentPiece = some piece →
      (∀ j : Nat, j < k →
        g.board.CanPlaceTetromino
          (some (piece.translated { X := 0, Y := ((j + 1 : Nat) : Int) })) = true) →
      g.board.CanPlaceTetromino
        (some (piece.translated { X := 0, Y := ((k + 1 : Nat) : Int) })) = false →
      k < fuel →
      g.dropLoop fuel =
        some ({ g with currentPiece := some (piece.translated { X := 0, Y := (k : Int) }) }, none) := by
  intro k
  induction k with
  | zero =>
    intro g piece fuel hgo hcur _ hstop hfuel
    obtain ⟨f, rfl⟩ : ∃ f, fuel = f + 1 := ⟨fuel - 1, by omega⟩
    have hmv := MovePiece_eq g piece { X := 0, Y := 1 } hgo hcur
    have hstop1 : ¬ g.board.CanPlaceTetromino (some (piece.translated { X := 0, Y := 1 })) = true := by
      simpa using hstop
    rw [if_neg hstop1] at hmv
    unfold GameService.dropLoop
    rw [hmv]
    have hz := translated_zero piece
    simp only [Nat.cast_zero] at hz ⊢
    rw [hz, ← hcur]
    rfl
  | succ k ih =>
    intro g piece fuel hgo hcur hfree hstop hfuel
    obtain ⟨f, rfl⟩ : ∃ f, fuel = f + 1 := ⟨fuel - 1, by omega⟩
    have hmv := MovePiece_eq g piece { X := 0, Y := 1 } hgo hcur
    have hfirst : g.board.CanPlaceTetromino (some (piece.translated { X := 0, Y := 1 })) = true := by
      simpa using hfree 0 (by omega)
    rw [if_pos hfirst] at hmv
    unfold GameService.dropLoop
    rw [hmv]
    simp only
    have h := ih { g with currentPiece := some (piece.translated { X := 0, Y := 1 }) }
      (piece.translated { X := 0, Y := 1 }) f hgo rfl
      (fun j hj => by
        rw [translated_down_succ]
        exact hfree (j + 1) (by omega))
      (by rw [translated_down_succ]; exact hstop)
      (by omega)
    rw [h, translated_down_succ]

theorem SetBlock_dims (b : Board) (p : Point) (v : Bool) :
    (b.SetBlock p v).1.Width = b.Width ∧ (b.SetBlock p v).1.Height = b.Height := by
  unfold Board.SetBlock
  split <;> exact ⟨rfl, rfl⟩

theorem IsValidPosition_congr (b c : Board) (p : Point) (hw : c.Width = b.Width)
    (hh : c.Height = b.Height) : c.IsValidPosition p = b.IsValidPosition p := by
  unfold Board.IsValidPosition
  rw [hw, hh]

theorem placeBlocks_ok (blocks : List Point) :
    ∀ b : Board, (∀ p ∈ blocks, b.IsValidPosition p = true) →
      (b.placeBlocks blocks).2 = none ∧ (b.placeBlocks blocks).1.Width = b.Width ∧
      (b.placeBlocks blocks).1.Height = b.Height := by
  induction blocks with
  | nil => intro b _; exact ⟨rfl, rfl, rfl⟩
  | cons p rest ih =>
    intro b hall
    have hp := hall p (List.mem_cons_self p rest)
    have hset : b.SetBlock p true = ((b.SetBlock p true).1, none) := by
      unfold Board.SetBlock
      simp [hp]
    obtain ⟨hw, hh⟩ := SetBlock_dims b p true
    have hrest : ∀ q ∈ rest, (b.SetBlock p true).1.IsValidPosition q = true := by
      intro q hq
      rw [IsValidPosition_congr b _ q hw hh]
      exact hall q (List.mem_cons_of_mem p hq)
    obtain ⟨h1, h2, h3⟩ := ih (b.SetBlock p true).1 hrest
    unfold Board.placeBlocks
    rw [hset]
    simp only
    exact ⟨h1, h2.trans hw, h3.trans hh⟩

theorem PlaceTetromino_ok (b : Board) (t : Tetromino)
    (hc : b.CanPlaceTetromino (some t) = true) :
    b.PlaceTetromino (some t) = ((b.PlaceTetromino (some t)).1, none) := by
  have hall : ∀ p ∈ t.GetBlocks, b.IsValidPosition p = true :=
    fun p hp => ((CanPlace_blocks b t).1 hc p hp).1
  have h := (placeBlocks_ok t.GetBlocks b hall).1
  unfold Board.PlaceTetromino
  simp only [hc, Bool.not_true, Bool.false_eq_true, if_false]
  exact Prod.ext rfl h

theorem withShape_self (t : Tetromino) : t.withShape t.Shape = t := rfl

theorem rotateN_registered :
    ∀ (n : Nat) (t : Tetromino) (shapes : List (List (List Bool))) (i : Nat),
      tetrominoShapes t.Typ = some shapes → i < shapes.length → t.Shape = shapes.getD i [] →
      t.rotateN n = some (t.withShape (shapes.getD ((i + n) % shapes.length) [])) := by
  intro n
  induction n with
  | zero =>
    intro t shapes i _ hi hshape
    simp only [Tetromino.rotateN, Nat.add_zero, Nat.mod_eq_of_lt hi]
    rw [← hshape]
    rfl
  | succ n ih =>
    intro t shapes i htab hi hshape
    have hrot := Rotate_registered t shapes i htab hi hshape
    have hlt : (i + 1) % shapes.length < shapes.length := Nat.mod_lt _ (by omega)
    have h := ih (t.withShape (shapes.getD ((i + 1) % shapes.length) [])) shapes
      ((i + 1) % shapes.length) htab hlt rfl
    unfold Tetromino.rotateN
    rw [hrot]
    simp only
    have hidx : ((i + 1) % shapes.length + n) % shapes.length = (i + (n + 1)) % shapes.length := by
      rw [Nat.mod_add_mod]; congr 1; omega
    rw [hidx] at h
    exact h

theorem NewTetromino_ok (ty : TetrominoType) (pos : Point) (p0 : Tetromino)
    (hnew : NewTetromino ty pos = .ok p0) :
    ∃ shapes, tetrominoShapes ty = some shapes ∧ 0 < shapes.length ∧
      p0 = { Typ := ty, Shape := shapes.getD 0 [], Position := pos, size := 4 } := by
  unfold NewTetromino at hnew
  split at hnew
  · cases hnew
  · split at hnew
    · cases hnew
    · cases hnew
    · rename_i shape0 rest hs
      refine ⟨shape0 :: rest, hs, by simp, ?_⟩
      cases hnew
      rfl

theorem tetrominoShapes_length (ty : TetrominoType) (shapes : List (List (List Bool)))
    (htab : tetrominoShapes ty = some shapes) : shapes.length = cycleLength ty := by
  unfold tetrominoShapes at htab
  split_ifs at htab <;> (injection htab with htab; subst htab; subst_vars; rfl)

theorem tetrominoShapes_cells (ty : TetrominoType) (shapes : List (List (List Bool)))
    (htab : tetrominoShapes ty = some shapes) : ∀ s ∈ shapes, shapeCellsOk s = true := by
  unfold tetrominoShapes at htab
  split_ifs at htab <;> (injection htab with htab; subst htab; decide)

theorem getD_mem_of_lt (shapes : List (List (List Bool))) (i : Nat) (hi : i < shapes.length) :
    shapes.getD i [] ∈ shapes := by
  rw [List.getD_eq_getElem shapes [] hi]
  exact List.getElem_mem hi

theorem registered_cells (t : Tetromino) (hreg : t.Registered) : shapeCellsOk t.Shape = true := by
  obtain ⟨_, shapes, i, htab, hi, hshape⟩ := hreg
  rw [hshape]
  exact tetrominoShapes_cells t.Typ shapes htab _ (getD_mem_of_lt shapes i hi)

theorem registered_blocks (t : Tetromino) (hreg : t.Registered) :
    t.GetBlocks = (trueCells t.Shape).map (fun c =>
      ({ X := t.Position.X + (c.1 : Int), Y := t.Position.Y + (c.2 : Int) } : Point)) ∧
    t.GetBlocks.length = 4 ∧ t.GetBlocks.Nodup ∧
    ∀ q ∈ t.GetBlocks, (t.Position.X ≤ q.X ∧ q.X < t.Position.X + 4) ∧
      (t.Position.Y ≤ q.Y ∧ q.Y < t.Position.Y + 4) := by
  have hok := registered_cells t hreg
  have hsize : t.size.toNat = 4 := by rw [hreg.1]; rfl
  simp only [shapeCellsOk, Bool.and_eq_true, decide_eq_true_eq, List.all_eq_true] at hok
  obtain ⟨⟨⟨h1, h2⟩, h3⟩, h4⟩ := hok
  have hmap := GetBlocks_eq_map t
  rw [hsize] at hmap
  refine ⟨by rw [hmap, h1], by rw [hmap, List.length_map, h2], ?_, ?_⟩
  · rw [hmap]
    apply List.Nodup.map _ h3
    intro a c hac
    simp only [Point.mk.injEq] at hac
    exact Prod.ext (by omega) (by omega)
  · intro q hq
    rw [hmap, List.mem_map] at hq
    obtain ⟨o, ho, rfl⟩ := hq
    have := h4 o ho
    simp only
    omega

theorem Move_registered (t : Tetromino) (delta : Point) (hreg : t.Registered) :
    (t.Move delta).2 = none ∧ (t.Move delta).1.Registered := by
  exact ⟨rfl, hreg⟩

theorem Rotate_keeps_registered (t : Tetromino) (hreg : t.Registered) :
    t.Rotate.2 = none ∧ t.Rotate.1.Registered := by
  obtain ⟨hsize, shapes, i, htab, hi, hshape⟩ := hreg
  rw [Rotate_registered t shapes i htab hi hshape]
  exact ⟨rfl, hsize, shapes, (i + 1) % shapes.length, htab, Nat.mod_lt _ (by omega), rfl⟩

theorem NewTetromino_registered (ty : TetrominoType) (pos : Point) (p0 : Tetromino)
    (hnew : NewTetromino ty pos = .ok p0) : p0.Registered := by
  obtain ⟨shapes, htab, hpos, rfl⟩ := NewTetromino_ok ty pos p0 hnew
  exact ⟨rfl, shapes, 0, htab, hpos, rfl⟩

theorem applyOps_registered (ops : List PieceOp) :
    ∀ t : Tetromino, t.Registered → ∃ p, t.applyOps ops = some p ∧ p.Registered := by
  induction ops with
  | nil => intro t ht; exact ⟨t, rfl, ht⟩
  | cons op rest ih =>
    intro t ht
    cases op with
    | move delta =>
      obtain ⟨p, hp, hr⟩ := ih (t.Move delta).1 (Move_registered t delta ht).2
      exact ⟨p, by simpa [Tetromino.applyOps] using hp, hr⟩
    | rotate =>
      obtain ⟨he, hr1⟩ := Rotate_keeps_registered t ht
      obtain ⟨p, hp, hr⟩ := ih t.Rotate.1 hr1
      refine ⟨p, ?_, hr⟩
      unfold Tetromino.applyOps
      rcases hrot : t.Rotate with ⟨t1, e⟩
      rw [hrot] at he hp
      simp only at he hp
      subst he
      exact hp

/-- Claim C15: for a piece just built by `NewTetromino`, the registered states of
its variant are pairwise distinct and `k` in number, with `k = 1` for O, `2` for
I, S, Z and `4` for T, J, L; `j` calls of `Rotate` all succeed and leave the
shape at state `j mod k` with anchor and type unchanged; after `k` calls the
piece is the original one, and after `0 < j < k` calls the shape differs from
the original; on the square a single `Rotate` succeeds and changes nothing. -/
theorem C15_rotation_cycle (ty : TetrominoType) (pos : Point) (p0 : Tetromino)
    (hnew : NewTetromino ty pos = .ok p0) :
    ∃ shapes : List (List (List Bool)),
      tetrominoShapes ty = some shapes ∧ shapes.Nodup ∧ shapes.length = cycleLength ty ∧
      (∀ j : Nat, ∃ pj, p0.rotateN j = some pj ∧
        pj.Shape = shapes.getD (j % cycleLength ty) [] ∧ pj.Position = pos ∧ pj.Typ = ty) ∧
      p0.rotateN (cycleLength ty) = some p0 ∧
      (∀ j : Nat, 0 < j → j < cycleLength ty →
        ∃ pj, p0.rotateN j = some pj ∧ pj.Shape ≠ p0.Shape) ∧
      (ty = TetrominoType.O → p0.Rotate = (p0, none)) := by
  obtain ⟨shapes, htab, hpos, rfl⟩ := NewTetromino_ok ty pos p0 hnew
  have hlen := tetrominoShapes_length ty shapes htab
  have hnd := tetrominoShapes_nodup ty shapes htab
  have hrn : ∀ j : Nat,
      ({ Typ := ty, Shape := shapes.getD 0 [], Position := pos, size := 4 } : Tetromino).rotateN j =
        some (({ Typ := ty, Shape := shapes.getD 0 [], Position := pos, size := 4 } :
          Tetromino).withShape (shapes.getD ((0 + j) % shapes.length) [])) :=
    fun j => rotateN_registered j _ shapes 0 htab hpos rfl
  refine ⟨shapes, htab, hnd, hlen, ?_, ?_, ?_, ?_⟩
  · intro j
    refine ⟨_, hrn j, ?_, rfl, rfl⟩
    simp only [Tetromino.withShape, Nat.zero_add, hlen]
  · rw [← hlen, hrn shapes.length]
    simp only [Nat.zero_add, Nat.mod_self]
    rfl
  · intro j hj0 hjk
    rw [← hlen] at hjk
    refine ⟨_, hrn j, ?_⟩
    simp only [Tetromino.withShape, Nat.zero_add, Nat.mod_eq_of_lt hjk]
    rw [List.getD_eq_getElem shapes [] hjk, List.getD_eq_getElem shapes [] hpos]
    intro heq
    have := (List.Nodup.getElem_inj_iff hnd).1 heq
    omega
  · intro hO
    have h1 : shapes.length = 1 := by rw [hlen, hO]; rfl
    have hrot := Rotate_registered
      ({ Typ := ty, Shape := shapes.getD 0 [], Position := pos, size := 4 } : Tetromino)
      shapes 0 htab hpos rfl
    rw [hrot]
    simp only [h1, Nat.zero_add, Nat.mod_self]

theorem C15_rotation_cycle_witness :
    (∃ p0, NewTetromino TetrominoType.T { X := 3, Y := 0 } = .ok p0) ∧
    (freshPiece 2).rotateN (cycleLength TetrominoType.T) = some (freshPiece 2) :=
  have h := C15_rotation_cycle TetrominoType.T { X := 3, Y := 0 } (freshPiece 2) rfl
  ⟨⟨freshPiece 2, rfl⟩, h.elim fun _ hs => hs.2.2.2.2.1⟩

/-- Claim C16: for a piece with `size` 4 (as `NewTetromino` sets it) whose variant
has `k` registered states and whose shape is state `i`, `Rotate` succeeds, the
new shape is state `(i + 1) mod k`, anchor, type and size are unchanged, and
`GetBlocks` returns as many points as before (four). This holds for `k > 1`, as
claimed, and for the single-state variant as well. -/
theorem C16_Rotate_advances (t : Tetromino) (shapes : List (List (List Bool))) (i : Nat)
    (htab : tetrominoShapes t.Typ = some shapes)
    (hi : i < shapes.length) (hshape : t.Shape = shapes.getD i []) (hsize : t.size = 4) :
    t.Rotate.2 = none ∧
    t.Rotate.1.Shape = shapes.getD ((i + 1) % shapes.length) [] ∧
    t.Rotate.1.Position = t.Position ∧ t.Rotate.1.Typ = t.Typ ∧ t.Rotate.1.size = t.size ∧
    t.Rotate.1.GetBlocks.length = t.GetBlocks.length ∧ t.GetBlocks.length = 4 := by
  have hreg : t.Registered := ⟨hsize, shapes, i, htab, hi, hshape⟩
  have hreg1 := (Rotate_keeps_registered t hreg).2
  have hb := (registered_blocks t hreg).2.1
  have hb1 := (registered_blocks _ hreg1).2.1
  rw [hb1, hb]
  rw [Rotate_registered t shapes i htab hi hshape]
  exact ⟨rfl, rfl, rfl, rfl, rfl, rfl, rfl⟩

theorem C16_Rotate_advances_witness :
    tetrominoShapes (freshPiece 2).Typ = some ((tetrominoShapes 2).getD []) ∧
    (freshPiece 2).Rotate.1.Shape = ((tetrominoShapes 2).getD []).getD 1 [] ∧
    (freshPiece 2).Rotate.1.GetBlocks.length = (freshPiece 2).GetBlocks.length :=
  have h := C16_Rotate_advances (freshPiece 2) ((tetrominoShapes 2).getD []) 0
    (by decide!) (by decide!) (by decide!) rfl
  ⟨by decide!, h.2.1, h.2.2.2.2.2.1⟩

/-- Claim C17: a piece built by `NewTetromino` and then changed by any sequence of
`Move` and `Rotate` calls (none of which fails) has `GetBlocks` equal to the
list of `Position + (x, y)` over the set cells `(x, y)` of its current shape in
row-major order; that list has exactly 4 points, pairwise distinct, each within
`Position.X <= X < Position.X + 4` and `Position.Y <= Y < Position.Y + 4`. -/
theorem C17_GetBlocks_four_cells (ty : TetrominoType) (pos : Point) (p0 : Tetromino)
    (ops : List PieceOp) (hnew : NewTetromino ty pos = .ok p0) :
    ∃ p : Tetromino, p0.applyOps ops = some p ∧
      p.GetBlocks = (trueCells p.Shape).map (fun c =>
        ({ X := p.Position.X + (c.1 : Int), Y := p.Position.Y + (c.2 : Int) } : Point)) ∧
      p.GetBlocks.length = 4 ∧ p.GetBlocks.Nodup ∧
      ∀ q ∈ p.GetBlocks, (p.Position.X ≤ q.X ∧ q.X < p.Position.X + 4) ∧
        (p.Position.Y ≤ q.Y ∧ q.Y < p.Position.Y + 4) := by
  obtain ⟨p, hp, hreg⟩ := applyOps_registered ops p0 (NewTetromino_registered ty pos p0 hnew)
  exact ⟨p, hp, registered_blocks p hreg⟩

theorem C17_GetBlocks_witness :
    (∃ p0, NewTetromino TetrominoType.L { X := 3, Y := 0 } = .ok p0) ∧
    ∃ p : Tetromino, (freshPiece 6).applyOps [.rotate, .move { X := -2, Y := 5 }] = some p ∧
      p.GetBlocks.length = 4 :=
  have h := C17_GetBlocks_four_cells TetrominoType.L { X := 3, Y := 0 } (freshPiece 6)
    [.rotate, .move { X := -2, Y := 5 }] rfl
  ⟨⟨freshPiece 6, rfl⟩, h.imp fun _ hp => ⟨hp.1, hp.2.2.1⟩⟩

theorem copySlice_same_length (dst src : List Bool) (h : dst.length = src.length) :
    copySlice dst src = src := by
  unfold copySlice
  rw [List.take_of_length_le (by omega), List.drop_of_length_le (by omega), List.append_nil]

theorem shiftRows_eq (w : Nat) :
    ∀ (k : Nat) (grid : List (List Bool)), (∀ row ∈ grid, row.length = w) → k < grid.length →
      shiftRows grid k = grid.getD 0 [] :: (grid.take k ++ grid.drop (k + 1)) := by
  intro k
  induction k with
  | zero =>
    intro grid _ hk
    cases grid with
    | nil => simp at hk
    | cons r rest => simp [shiftRows]
  | succ k ih =>
    intro grid hw hk
    have hk0 : k < grid.length := by omega
    have hrowk : (grid.getD k []).length = w := by
      rw [List.getD_eq_getElem grid [] hk0]; exact hw _ (List.getElem_mem hk0)
    have hrowk1 : (grid.getD (k + 1) []).length = w := by
      rw [List.getD_eq_getElem grid [] hk]; exact hw _ (List.getElem_mem hk)
    have hcopy : copySlice (grid.getD (k + 1) []) (grid.getD k []) = grid.getD k [] :=
      copySlice_same_length _ _ (by omega)
    unfold shiftRows
    rw [hcopy]
    have hw2 : ∀ row ∈ grid.set (k + 1) (grid.getD k []), row.length = w := by
      intro row hrow
      rcases List.mem_or_eq_of_mem_set hrow with h | h
      · exact hw row h
      · rw [h]; exact hrowk
    have hlen : k < (grid.set (k + 1) (grid.getD k [])).length := by
      rw [List.length_set]; omega
    rw [ih _ hw2 hlen]
    have h0 : (grid.set (k + 1) (grid.getD k [])).getD 0 [] = grid.getD 0 [] := by
      simp [List.getD_eq_getElem?_getD, List.getElem?_set_ne]
    have ht : (grid.set (k + 1) (grid.getD k [])).take k = grid.take k :=
      List.take_set_of_lt _ _ (by omega)
    have hd : (grid.set (k + 1) (grid.getD k [])).drop (k + 1) =
        grid.getD k [] :: grid.drop (k + 2) := by
      rw [List.set_eq_take_cons_drop _ hk]
      rw [List.drop_left' (by rw [List.length_take]; omega)]
    rw [h0, ht, hd]
    have hts : grid.take (k + 1) = grid.take k ++ [grid.getD k []] := by
      rw [List.getD_eq_getElem grid [] hk0, ← List.take_concat_get grid k hk0,
        List.concat_eq_append]
    rw [hts, List.append_assoc]
    rfl

theorem clearTopRow_fold (row : List Bool) (rest : List (List Bool)) :
    ∀ n : Nat, n ≤ row.length →
      (List.range n).foldl (fun g x => g.set 0 ((g.getD 0 []).set x false)) (row :: rest) =
        (List.replicate n false ++ row.drop n) :: rest := by
  intro n
  induction n with
  | zero => intro _; simp
  | succ n ih =>
    intro hn
    rw [List.range_succ, List.foldl_append, ih (by omega)]
    simp only [List.foldl_cons, List.foldl_nil, List.set_cons_zero, List.getD_cons_zero]
    congr 1
    rw [List.set_eq_take_cons_drop _ (by simp; omega)]
    rw [List.take_left' (by simp)]
    have hd : List.drop (n + 1) (List.replicate n false ++ List.drop n row) =
        List.drop (n + 1) row := by
      rw [List.drop_append_eq_append_drop, List.drop_of_length_le (by simp), List.nil_append,
        List.length_replicate, List.drop_drop]
      congr 1
      omega
    rw [hd, List.replicate_succ', List.append_assoc]
    rfl


theorem clearLine_grid (b : Board) (k : Int) (hwf : b.WF) (hk0 : 0 ≤ k) (hk1 : k < b.Height) :
    (b.clearLine k).Grid =
      List.replicate b.Width.toNat false :: (b.Grid.take k.toNat ++ b.Grid.drop (k.toNat + 1)) := by
  obtain ⟨_, _, hlen, hrows⟩ := hwf
  have hk : k.toNat < b.Grid.length := by omega
  have h0 : 0 < b.Grid.length := by omega
  have hrow0 : (b.Grid.getD 0 []).length = b.Width.toNat := by
    rw [List.getD_eq_getElem b.Grid [] h0]; exact hrows _ (List.getElem_mem h0)
  unfold Board.clearLine clearTopRow
  simp only
  rw [shiftRows_eq b.Width.toNat k.toNat b.Grid hrows hk]
  rw [clearTopRow_fold _ _ b.Width.toNat (by omega)]
  rw [List.drop_of_length_le (by omega), List.append_nil]

theorem ClearLines_single (b : Board) (k : Int) (hk0 : 0 ≤ k) (hk1 : k < b.Height) :
    b.ClearLines [k] = (b.clearLine k, none) := by
  have hf : ([k].find? fun line => decide (line < 0) || decide (line ≥ b.Height)) = none := by
    rw [ClearLines_find_none]
    intro l hl
    rw [List.mem_singleton] at hl
    subst hl
    exact ⟨hk0, hk1⟩
  unfold Board.ClearLines
  rw [if_neg (by simp), hf]
  rfl

theorem full_row_count (b : Board) (k : Int) (hwf : b.WF) (hfull : b.isLineFull k = true) :
    (b.Grid.getD k.toNat []).count true = b.Width.toNat := by
  obtain ⟨hk0, hk1⟩ := isLineFull_range b k hfull
  obtain ⟨_, _, hlen, hrows⟩ := hwf
  have hk : k.toNat < b.Grid.length := by omega
  have hrow : (b.Grid.getD k.toNat []).length = b.Width.toNat := by
    rw [List.getD_eq_getElem b.Grid [] hk]; exact hrows _ (List.getElem_mem hk)
  unfold Board.isLineFull at hfull
  rw [if_neg (by omega), List.all_eq_true] at hfull
  rw [← hrow, List.count_eq_length]
  intro c hc
  obtain ⟨i, hi, rfl⟩ := List.getElem_of_mem hc
  have := hfull i (List.mem_range.2 (by omega))
  unfold Board.cell at this
  simp only [Int.toNat_ofNat] at this
  rw [List.getD_eq_getElem _ false hi] at this
  exact this.symm

/-- Claim C18: on a board whose grid has `Height` rows of `Width` cells, for every
row index `0 <= k < Height`, `ClearLines [k]` succeeds and keeps `Width` and
`Height`; the new grid is an empty row followed by the old rows without row
`k`, so new row `y` is old row `y - 1` for `1 <= y <= k`, row 0 is empty, and
the rows below `k` are unchanged; when row `k` was full, the number of occupied
cells drops by exactly `Width`. -/
theorem C18_ClearLines_single_row (b : Board) (k : Int) (hwf : b.WF)
    (hk0 : 0 ≤ k) (hk1 : k < b.Height) :
    (b.ClearLines [k]).2 = none ∧
    (b.ClearLines [k]).1.Width = b.Width ∧ (b.ClearLines [k]).1.Height = b.Height ∧
    (b.ClearLines [k]).1.Grid =
      List.replicate b.Width.toNat false :: (b.Grid.take k.toNat ++ b.Grid.drop (k.toNat + 1)) ∧
    (∀ y : Nat, 1 ≤ y → (y : Int) ≤ k →
      (b.ClearLines [k]).1.Grid.getD y [] = b.Grid.getD (y - 1) []) ∧
    (b.ClearLines [k]).1.Grid.getD 0 [] = List.replicate b.Width.toNat false ∧
    (∀ x : Int, (b.ClearLines [k]).1.cell 0 x = false) ∧
    (∀ y : Nat, k < (y : Int) → (y : Int) < b.Height →
      (b.ClearLines [k]).1.Grid.getD y [] = b.Grid.getD y []) ∧
    (b.isLineFull k = true →
      b.occupiedCount = (b.ClearLines [k]).1.occupiedCount + b.Width.toNat) := by
  have hgrid := clearLine_grid b k hwf hk0 hk1
  have hlen := hwf.2.2.1
  have hkl : k.toNat < b.Grid.length := by omega
  rw [ClearLines_single b k hk0 hk1]
  refine ⟨rfl, rfl, rfl, hgrid, ?_, ?_, ?_, ?_, ?_⟩
  · intro y hy1 hyk
    simp only [hgrid]
    obtain ⟨z, rfl⟩ : ∃ z, y = z + 1 := ⟨y - 1, by omega⟩
    have hz : z < k.toNat := by omega
    simp only [List.getD_cons_succ, Nat.add_sub_cancel]
    rw [List.getD_eq_getElem?_getD, List.getD_eq_getElem?_getD,
      List.getElem?_append_left (by rw [List.length_take]; omega), List.getElem?_take_of_lt hz]
  · simp only [hgrid, List.getD_cons_zero]
  · intro x
    unfold Board.cell
    simp only [hgrid, Int.toNat_zero, List.getD_cons_zero]
    rw [List.getD_eq_getElem?_getD]
    cases h : (List.replicate b.Width.toNat false)[x.toNat]? with
    | none => rfl
    | some c =>
      have := List.getElem?_mem h
      rw [List.mem_replicate] at this
      simp [this.2]
  · intro y hky hyh
    simp only [hgrid]
    obtain ⟨z, rfl⟩ : ∃ z, y = z + 1 := ⟨y - 1, by omega⟩
    simp only [List.getD_cons_succ]
    rw [List.getD_eq_getElem?_getD, List.getD_eq_getElem?_getD,
      List.getElem?_append_right (by rw [List.length_take]; omega), List.getElem?_drop]
    congr 2
    rw [List.length_take]
    omega
  · intro hfull
    have hc := full_row_count b k hwf hfull
    unfold Board.occupiedCount
    simp only [hgrid]
    have hsplit : b.Grid = b.Grid.take k.toNat ++ b.Grid.getD k.toNat [] :: b.Grid.drop (k.toNat + 1) := by
      rw [List.getD_eq_getElem b.Grid [] hkl]
      simp
    conv_lhs => rw [hsplit]
    simp only [List.map_append, List.map_cons, List.sum_append, List.sum_cons, hc,
      List.count_replicate]
    simp
    omega

theorem C18_ClearLines_single_witness :
    oneFullRowBoard.WF ∧ oneFullRowBoard.isLineFull 19 = true ∧
    (oneFullRowBoard.ClearLines [19]).1.Grid =
      List.replicate 19 (List.replicate 10 false) ++ [true :: List.replicate 9 false] ∧
    oneFullRowBoard.occupiedCount = (oneFullRowBoard.ClearLines [19]).1.occupiedCount + 10 :=
  have hwf : oneFullRowBoard.WF := by
    refine ⟨by decide, by decide, by decide, ?_⟩
    decide
  have h := C18_ClearLines_single_row oneFullRowBoard 19 hwf (by decide) (by decide)
  ⟨hwf, by decide!, by decide!, h.2.2.2.2.2.2.2.2 (by decide!)⟩

/-- Claim C26: `NewTetromino variant position` returns an error exactly when
`variant` is outside `0..6`, and that error wraps `ErrInvalidTetrominoType`;
for a variant in `0..6` it returns the piece with that type and position, size
4, and the first registered rotation state of the variant as shape. -/
theorem C26_NewTetromino_result (ty : Int) (pos : Point) :
    ((∃ e, NewTetromino ty pos = .error e) ↔ ty < 0 ∨ 6 < ty) ∧
    (∀ e, NewTetromino ty pos = .error e → e = .wrap .ErrInvalidTetrominoType) ∧
    (Err.wrap .ErrInvalidTetrominoType).is .ErrInvalidTetrominoType = true ∧
    (0 ≤ ty ∧ ty ≤ 6 → ∃ shapes, tetrominoShapes ty = some shapes ∧ 0 < shapes.length ∧
      NewTetromino ty pos =
        .ok { Typ := ty, Shape := shapes.getD 0 [], Position := pos, size := 4 }) := by
  have hin : 0 ≤ ty ∧ ty ≤ 6 → ∃ shapes, tetrominoShapes ty = some shapes ∧ 0 < shapes.length ∧
      NewTetromino ty pos =
        .ok { Typ := ty, Shape := shapes.getD 0 [], Position := pos, size := 4 } := by
    rintro ⟨h0, h6⟩
    interval_cases ty <;> exact ⟨_, rfl, by decide, rfl⟩
  have hout : ty < 0 ∨ 6 < ty → NewTetromino ty pos = .error (.wrap .ErrInvalidTetrominoType) := by
    intro h
    have hc : ty < TetrominoType.I ∨ ty > TetrominoType.L := by
      unfold TetrominoType.I TetrominoType.L
      omega
    unfold NewTetromino
    rw [if_pos hc]
  refine ⟨⟨?_, fun h => ⟨_, hout h⟩⟩, ?_, by decide, hin⟩
  · rintro ⟨e, he⟩
    by_contra hcon
    obtain ⟨shapes, _, _, hok⟩ := hin (by omega)
    rw [hok] at he
    cases he
  · intro e he
    by_cases hr : ty < 0 ∨ 6 < ty
    · rw [hout hr] at he
      cases he
      rfl
    · obtain ⟨shapes, _, _, hok⟩ := hin (by omega)
      rw [hok] at he
      cases he

/-- Claim C27: `Move delta` never fails and sets `Position` to
`Position.Add delta = (X + delta.X, Y + delta.Y)` for every `delta`, with no
check against any board, leaving type, shape and size unchanged; adding the
point (0, 0) leaves a point unchanged. -/
theorem C27_Move_translates (t : Tetromino) (delta p : Point) :
    (t.Move delta).2 = none ∧
    (t.Move delta).1.Position = t.Position.Add delta ∧
    t.Position.Add delta = { X := t.Position.X + delta.X, Y := t.Position.Y + delta.Y } ∧
    (t.Move delta).1.Typ = t.Typ ∧ (t.Move delta).1.Shape = t.Shape ∧
    (t.Move delta).1.size = t.size ∧
    p.Add { X := 0, Y := 0 } = p := by
  refine ⟨rfl, rfl, rfl, rfl, rfl, rfl, ?_⟩
  cases p
  simp [Point.Add]

/-- Claim C28: `NewBoard width height` returns an error exactly when
`width <= 0` or `height <= 0`, and that error wraps `ErrInvalidBoardSize`;
otherwise it returns a board with that `Width` and `Height` whose grid has
exactly `height` rows of exactly `width` cells, all unoccupied. -/
theorem C28_NewBoard_result (width height : Int) :
    ((∃ e, NewBoard width height = .error e) ↔ width ≤ 0 ∨ height ≤ 0) ∧
    (∀ e, NewBoard width height = .error e → e = .wrap .ErrInvalidBoardSize) ∧
    (Err.wrap .ErrInvalidBoardSize).is .ErrInvalidBoardSize = true ∧
    (0 < width ∧ 0 < height → ∃ b, NewBoard width height = .ok b ∧
      b.Width = width ∧ b.Height = height ∧ (b.Grid.length : Int) = height ∧
      (∀ row ∈ b.Grid, (row.length : Int) = width ∧ ∀ c ∈ row, c = false) ∧
      ∀ y x : Int, b.cell y x = false) := by
  refine ⟨?_, ?_, by decide, ?_⟩
  · unfold NewBoard
    by_cases h : width ≤ 0 ∨ height ≤ 0
    · simp [h]
    · simp [h]
  · intro e he
    unfold NewBoard at he
    split at he
    · cases he; rfl
    · cases he
  · rintro ⟨hw, hh⟩
    refine ⟨_, by unfold NewBoard; rw [if_neg (by omega)], rfl, rfl, ?_, ?_, ?_⟩
    · simp only [List.length_replicate]; omega
    · intro row hrow
      rw [List.mem_replicate] at hrow
      rw [hrow.2]
      refine ⟨by simp only [List.length_replicate]; omega, ?_⟩
      intro c hc
      exact (List.mem_replicate.1 hc).2
    · intro y x
      unfold Board.cell
      simp only [List.getD_eq_getElem?_getD, List.getElem?_replicate]
      split
      · simp only [Option.getD_some, List.getElem?_replicate]
        split <;> rfl
      · rfl

/-- Claim C29: `IsValidPosition p` is true exactly when `0 <= p.X < Width` and
`0 <= p.Y < Height`; `IsOccupied p` and `SetBlock p v` return an error, which
wraps `ErrOutOfBounds`, exactly when `IsValidPosition p` is false; and a failing
`SetBlock` returns the board unchanged. -/
theorem C29_bounds_checks (b : Board) (p : Point) (v : Bool) :
    (b.IsValidPosition p = true ↔ (0 ≤ p.X ∧ p.X < b.Width) ∧ (0 ≤ p.Y ∧ p.Y < b.Height)) ∧
    ((b.IsOccupied p).2 = some (.wrap .ErrOutOfBounds) ↔ b.IsValidPosition p = false) ∧
    (b.IsValidPosition p = true → (b.IsOccupied p) = (b.cell p.Y p.X, none)) ∧
    ((b.SetBlock p v).2 = some (.wrap .ErrOutOfBounds) ↔ b.IsValidPosition p = false) ∧
    (b.IsValidPosition p = true → (b.SetBlock p v).2 = none) ∧
    (b.IsValidPosition p = false → (b.SetBlock p v).1 = b) ∧
    (Err.wrap .ErrOutOfBounds).is .ErrOutOfBounds = true := by
  refine ⟨?_, ?_, ?_, ?_, ?_, ?_, by decide⟩
  · rw [IsValidPosition_iff]; tauto
  · unfold Board.IsOccupied
    cases h : b.IsValidPosition p <;> simp
  · intro h
    unfold Board.IsOccupied
    simp [h]
  · unfold Board.SetBlock
    cases h : b.IsValidPosition p <;> simp
  · intro h
    unfold Board.SetBlock
    simp [h]
  · intro h
    unfold Board.SetBlock
    simp [h]

theorem SetBlock_valid_eq (b : Board) (p : Point) (v : Bool) (hv : b.IsValidPosition p = true) :
    b.SetBlock p v =
      ({ b with Grid := b.Grid.set p.Y.toNat ((b.Grid.getD p.Y.toNat []).set p.X.toNat v) }, none) := by
  unfold Board.SetBlock
  simp [hv]

theorem SetBlock_WF (b : Board) (p : Point) (v : Bool) (hwf : b.WF) : (b.SetBlock p v).1.WF := by
  unfold Board.SetBlock
  split
  · exact hwf
  · obtain ⟨hw, hh, hlen, hrows⟩ := hwf
    refine ⟨hw, hh, by simp only [List.length_set]; exact hlen, ?_⟩
    intro row hrow
    rcases List.mem_or_eq_of_mem_set hrow with h | h
    · exact hrows row h
    · rw [h, List.length_set]
      by_cases hy : p.Y.toNat < b.Grid.length
      · rw [List.getD_eq_getElem b.Grid [] hy]; exact hrows _ (List.getElem_mem hy)
      · exfalso
        have := List.length_set b.Grid p.Y.toNat ((b.Grid.getD p.Y.toNat []).set p.X.toNat v)
        rw [List.set_eq_of_length_le (by omega)] at hrow
        rw [h] at hrow
        have hl := hrows _ hrow
        rw [List.getD_eq_default _ _ (by omega)] at hl
        simp at hl
        omega

theorem SetBlock_cell (b : Board) (p q : Point) (v : Bool) (hwf : b.WF)
    (hp : b.IsValidPosition p = true) (hq : b.IsValidPosition q = true) :
    (b.SetBlock p v).1.cell q.Y q.X = if q = p then v else b.cell q.Y q.X := by
  obtain ⟨hp0, hp1, hp2, hp3⟩ := (IsValidPosition_iff b p).1 hp
  obtain ⟨hq0, hq1, hq2, hq3⟩ := (IsValidPosition_iff b q).1 hq
  obtain ⟨_, _, hlen, hrows⟩ := hwf
  have hpy : p.Y.toNat < b.Grid.length := by omega
  have hrowp : (b.Grid.getD p.Y.toNat []).length = b.Width.toNat := by
    rw [List.getD_eq_getElem b.Grid [] hpy]; exact hrows _ (List.getElem_mem hpy)
  rw [SetBlock_valid_eq b p v hp]
  unfold Board.cell
  simp only [List.getD_eq_getElem?_getD]
  by_cases hy : q.Y = p.Y
  · rw [hy, List.getElem?_set_self hpy]
    simp only [Option.getD_some]
    by_cases hx : q.X = p.X
    · have hqp : q = p := by cases q; cases p; simp_all
      rw [if_pos hqp, hx, List.getElem?_set_self (by rw [← List.getD_eq_getElem?_getD, hrowp]; omega)]
      rfl
    · have hqp : ¬ q = p := fun h => hx (by rw [h])
      rw [if_neg hqp, List.getElem?_set_ne (by omega)]
  · have hqp : ¬ q = p := fun h => hy (by rw [h])
    rw [if_neg hqp, List.getElem?_set_ne (by omega)]

theorem row_set_count (row : List Bool) (x : Nat) (hx : x < row.length)
    (hfalse : row.getD x false = false) :
    (row.set x true).count true = row.count true + 1 := by
  rw [List.getD_eq_getElem row false hx] at hfalse
  have hsplit : row = row.take x ++ row[x] :: row.drop (x + 1) := by simp
  rw [List.set_eq_take_cons_drop _ hx]
  conv_rhs => rw [hsplit]
  rw [hfalse]
  simp only [List.count_append, List.count_cons]
  simp
  omega

theorem grid_set_count (grid : List (List Bool)) (y : Nat) (hy : y < grid.length)
    (row : List Bool) :
    ((grid.set y row).map fun r => r.count true).sum + (grid.getD y []).count true =
      (grid.map fun r => r.count true).sum + row.count true := by
  rw [List.getD_eq_getElem grid [] hy]
  have hsplit : grid = grid.take y ++ grid[y] :: grid.drop (y + 1) := by simp
  rw [List.set_eq_take_cons_drop _ hy]
  conv_rhs => rw [hsplit]
  simp only [List.map_append, List.map_cons, List.sum_append, List.sum_cons]
  omega

theorem SetBlock_count (b : Board) (p : Point) (hwf : b.WF)
    (hp : b.IsValidPosition p = true) (hfree : b.cell p.Y p.X = false) :
    (b.SetBlock p true).1.occupiedCount = b.occupiedCount + 1 := by
  obtain ⟨hp0, hp1, hp2, hp3⟩ := (IsValidPosition_iff b p).1 hp
  obtain ⟨_, _, hlen, hrows⟩ := hwf
  have hpy : p.Y.toNat < b.Grid.length := by omega
  have hrowp : (b.Grid.getD p.Y.toNat []).length = b.Width.toNat := by
    rw [List.getD_eq_getElem b.Grid [] hpy]; exact hrows _ (List.getElem_mem hpy)
  rw [SetBlock_valid_eq b p true hp]
  unfold Board.occupiedCount
  simp only
  have h1 := grid_set_count b.Grid p.Y.toNat hpy ((b.Grid.getD p.Y.toNat []).set p.X.toNat true)
  have h2 := row_set_count (b.Grid.getD p.Y.toNat []) p.X.toNat (by omega) hfree
  omega

theorem placeBlocks_spec (blocks : List Point) :
    ∀ b : Board, b.WF →
      (∀ p ∈ blocks, b.IsValidPosition p = true ∧ b.cell p.Y p.X = false) → blocks.Nodup →
      (b.placeBlocks blocks).2 = none ∧ (b.placeBlocks blocks).1.WF ∧
      (b.placeBlocks blocks).1.Width = b.Width ∧ (b.placeBlocks blocks).1.Height = b.Height ∧
      (∀ q : Point, b.IsValidPosition q = true →
        (b.placeBlocks blocks).1.cell q.Y q.X = if q ∈ blocks then true else b.cell q.Y q.X) ∧
      (b.placeBlocks blocks).1.occupiedCount = b.occupiedCount + blocks.length := by
  induction blocks with
  | nil =>
    intro b hwf _ _
    exact ⟨rfl, hwf, rfl, rfl, fun q _ => by simp [Board.placeBlocks], rfl⟩
  | cons p rest ih =>
    intro b hwf hall hnd
    obtain ⟨hpv, hpf⟩ := hall p (List.mem_cons_self p rest)
    obtain ⟨hpnot, hnd2⟩ := List.nodup_cons.1 hnd
    obtain ⟨hw, hh⟩ := SetBlock_dims b p true
    have hwf1 := SetBlock_WF b p true hwf
    have hset : b.SetBlock p true = ((b.SetBlock p true).1, none) := by
      rw [SetBlock_valid_eq b p true hpv]
    have hrest : ∀ q ∈ rest, (b.SetBlock p true).1.IsValidPosition q = true ∧
        (b.SetBlock p true).1.cell q.Y q.X = false := by
      intro q hq
      obtain ⟨hqv, hqf⟩ := hall q (List.mem_cons_of_mem p hq)
      refine ⟨by rw [IsValidPosition_congr b _ q hw hh]; exact hqv, ?_⟩
      rw [SetBlock_cell b p q true hwf hpv hqv, if_neg (fun h : q = p => hpnot (by rw [← h]; exact hq))]
      exact hqf
    obtain ⟨h1, h2, h3, h4, h5, h6⟩ := ih (b.SetBlock p true).1 hwf1 hrest hnd2
    have hpb : b.placeBlocks (p :: rest) = (b.SetBlock p true).1.placeBlocks rest := by
      conv_lhs => unfold Board.placeBlocks
      rw [hset]
    rw [hpb]
    refine ⟨h1, h2, h3.trans hw, h4.trans hh, ?_, ?_⟩
    · intro q hqv
      have hqv1 : (b.SetBlock p true).1.IsValidPosition q = true := by
        rw [IsValidPosition_congr b _ q hw hh]; exact hqv
      rw [h5 q hqv1, SetBlock_cell b p q true hwf hpv hqv]
      by_cases hqr : q ∈ rest
      · simp [hqr]
      · by_cases hqp : q = p
        · simp [hqp]
        · simp [hqr, hqp]
    · rw [h6, SetBlock_count b p hwf hpv hpf, List.length_cons]
      omega

theorem NewBoard_WF (width height : Int) (b : Board) (hnew : NewBoard width height = .ok b) :
    b.WF ∧ b.Width = width ∧ b.Height = height := by
  unfold NewBoard at hnew
  split at hnew
  · cases hnew
  · rename_i h
    cases hnew
    refine ⟨⟨by simp only; omega, by simp only; omega, by simp, ?_⟩, rfl, rfl⟩
    intro row hrow
    rw [(List.mem_replicate.1 hrow).2, List.length_replicate]

theorem applyWrites_WF (writes : List (Point × Bool)) :
    ∀ b : Board, b.WF → (b.applyWrites writes).WF ∧
      (b.applyWrites writes).Width = b.Width ∧ (b.applyWrites writes).Height = b.Height := by
  induction writes with
  | nil => intro b h; exact ⟨h, rfl, rfl⟩
  | cons w rest ih =>
    intro b h
    obtain ⟨h1, h2, h3⟩ := ih (b.SetBlock w.1 w.2).1 (SetBlock_WF b w.1 w.2 h)
    obtain ⟨hw, hh⟩ := SetBlock_dims b w.1 w.2
    exact ⟨h1, h2.trans hw, h3.trans hh⟩

/-- Claim C30: on a board built by `NewBoard` (and then changed by any sequence
of `SetBlock` calls), for every valid position `p` and value `v`, `SetBlock p v`
succeeds; afterwards `IsOccupied p` returns `v`, `IsOccupied q` returns what it
returned before for every other valid position `q`, and `Width`, `Height`, the
number of rows and the length of every row are unchanged. -/
theorem C30_SetBlock_then_IsOccupied (width height : Int) (b0 : Board)
    (writes : List (Point × Bool)) (p : Point) (v : Bool)
    (hnew : NewBoard width height = .ok b0)
    (hp : (b0.applyWrites writes).IsValidPosition p = true) :
    ((b0.applyWrites writes).SetBlock p v).2 = none ∧
    ((b0.applyWrites writes).SetBlock p v).1.IsOccupied p = (v, none) ∧
    (∀ q : Point, (b0.applyWrites writes).IsValidPosition q = true → q ≠ p →
      ((b0.applyWrites writes).SetBlock p v).1.IsOccupied q =
        (b0.applyWrites writes).IsOccupied q) ∧
    ((b0.applyWrites writes).SetBlock p v).1.Width = width ∧
    ((b0.applyWrites writes).SetBlock p v).1.Height = height ∧
    ((b0.applyWrites writes).SetBlock p v).1.Grid.length = (b0.applyWrites writes).Grid.length ∧
    (∀ y : Nat, (((b0.applyWrites writes).SetBlock p v).1.Grid.getD y []).length =
      ((b0.applyWrites writes).Grid.getD y []).length) := by
  obtain ⟨hwf0, hw0, hh0⟩ := NewBoard_WF width height b0 hnew
  obtain ⟨hwf, hw1, hh1⟩ := applyWrites_WF writes b0 hwf0
  generalize b0.applyWrites writes = b at hp hwf hw1 hh1 ⊢
  obtain ⟨hw, hh⟩ := SetBlock_dims b p v
  have hwf2 := SetBlock_WF b p v hwf
  have hvalid : ∀ q, (b.SetBlock p v).1.IsValidPosition q = b.IsValidPosition q :=
    fun q => IsValidPosition_congr b _ q hw hh
  refine ⟨?_, ?_, ?_, by rw [hw, hw1, hw0], by rw [hh, hh1, hh0], ?_, ?_⟩
  · rw [SetBlock_valid_eq b p v hp]
  · unfold Board.IsOccupied
    rw [hvalid p, hp, SetBlock_cell b p p v hwf hp hp]
    simp
  · intro q hq hne
    unfold Board.IsOccupied
    rw [hvalid q, hq, SetBlock_cell b p q v hwf hp hq, if_neg hne]
  · rw [hwf2.2.2.1, hwf.2.2.1, hh]
  · intro y
    by_cases hy : y < b.Grid.length
    · have hy2 : y < (b.SetBlock p v).1.Grid.length := by
        rw [hwf2.2.2.1, hh, ← hwf.2.2.1]; exact hy
      rw [List.getD_eq_getElem _ [] hy, List.getD_eq_getElem _ [] hy2,
        hwf.2.2.2 _ (List.getElem_mem hy), hwf2.2.2.2 _ (List.getElem_mem hy2), hw]
    · have hy2 : ¬ y < (b.SetBlock p v).1.Grid.length := by
        rw [hwf2.2.2.1, hh, ← hwf.2.2.1]; exact hy
      rw [List.getD_eq_default _ _ (by omega), List.getD_eq_default _ _ (by omega)]

theorem C30_SetBlock_witness :
    (∃ b0, NewBoard 10 20 = .ok b0) ∧
    (((Board.mk (List.replicate 20 (List.replicate 10 false)) 10 20).applyWrites []).SetBlock
      { X := 5, Y := 0 } true).1.IsOccupied { X := 5, Y := 0 } = (true, none) :=
  have h := C30_SetBlock_then_IsOccupied 10 20
    (Board.mk (List.replicate 20 (List.replicate 10 false)) 10 20) [] { X := 5, Y := 0 } true
    rfl (by decide!)
  ⟨⟨_, rfl⟩, h.2.1⟩

/-- Claim C21 fails as stated: for the absent piece `CanPlaceTetromino` is false
and `PlaceTetromino` fails, but with the error of its nil guard, which is not
`ErrBlockOccupied` and does not wrap it. -/
theorem C21_nil_piece_other_error :
    twoFullRowsBoard.CanPlaceTetromino none = false ∧
    (twoFullRowsBoard.PlaceTetromino none).2 = some .ErrNilTetromino ∧
    Err.ErrNilTetromino.is .ErrBlockOccupied = false ∧
    (twoFullRowsBoard.PlaceTetromino none).1 = twoFullRowsBoard := by
  decide!

/-- Claim C21, amended: if `CanPlaceTetromino piece` is false then
`PlaceTetromino piece` fails and returns the board unchanged; for a present
piece the error wraps `ErrBlockOccupied`, for the absent piece it is the error
of the nil guard. -/
theorem C21_Place_rejected (b : Board) (piece : Option Tetromino)
    (hc : b.CanPlaceTetromino piece = false) :
    (b.PlaceTetromino piece).1 = b ∧
    (∃ e, (b.PlaceTetromino piece).2 = some e) ∧
    (∀ t, piece = some t → (b.PlaceTetromino piece).2 = some (.wrap .ErrBlockOccupied)) ∧
    (Err.wrap .ErrBlockOccupied).is .ErrBlockOccupied = true ∧
    (piece = none → (b.PlaceTetromino piece).2 = some .ErrNilTetromino) := by
  cases piece with
  | none =>
    refine ⟨rfl, ⟨_, rfl⟩, ?_, by decide, fun _ => rfl⟩
    intro t ht; cases ht
  | some t =>
    have hpl : b.PlaceTetromino (some t) = (b, some (.wrap .ErrBlockOccupied)) := by
      unfold Board.PlaceTetromino
      simp [hc]
    rw [hpl]
    refine ⟨rfl, ⟨_, rfl⟩, fun _ _ => rfl, by decide, ?_⟩
    intro h; cases h

theorem C21_Place_rejected_witness :
    twoFullRowsBoard.CanPlaceTetromino (some ((freshPiece 1).translated { X := 0, Y := 17 })) = false ∧
    (twoFullRowsBoard.PlaceTetromino (some ((freshPiece 1).translated { X := 0, Y := 17 }))).1 =
      twoFullRowsBoard :=
  ⟨by decide!,
    (C21_Place_rejected twoFullRowsBoard (some ((freshPiece 1).translated { X := 0, Y := 17 }))
      (by decide!)).1⟩

/-- Claim C22: on a board whose grid has `Height` rows of `Width` cells, for a
piece whose shape is a registered state (size 4) and which can be placed,
`PlaceTetromino` succeeds and keeps `Width` and `Height`; afterwards every
point of `GetBlocks` is occupied, every other valid cell has the value it had,
the number of occupied cells has grown by exactly 4, and the piece can no
longer be placed. -/
theorem C22_Place_marks_blocks (b : Board) (t : Tetromino) (hwf : b.WF)
    (hreg : t.Registered) (hc : b.CanPlaceTetromino (some t) = true) :
    (b.PlaceTetromino (some t)).2 = none ∧
    (b.PlaceTetromino (some t)).1.Width = b.Width ∧
    (b.PlaceTetromino (some t)).1.Height = b.Height ∧
    (∀ p ∈ t.GetBlocks, (b.PlaceTetromino (some t)).1.cell p.Y p.X = true) ∧
    (∀ q : Point, b.IsValidPosition q = true → q ∉ t.GetBlocks →
      (b.PlaceTetromino (some t)).1.cell q.Y q.X = b.cell q.Y q.X) ∧
    (b.PlaceTetromino (some t)).1.occupiedCount = b.occupiedCount + 4 ∧
    (b.PlaceTetromino (some t)).1.CanPlaceTetromino (some t) = false := by
  obtain ⟨_, hlen4, hnd, _⟩ := registered_blocks t hreg
  have hall := (CanPlace_blocks b t).1 hc
  obtain ⟨h1, h2, h3, h4, h5, h6⟩ := placeBlocks_spec t.GetBlocks b hwf hall hnd
  have hpl : b.PlaceTetromino (some t) = b.placeBlocks t.GetBlocks := by
    unfold Board.PlaceTetromino
    simp [hc]
  rw [hpl]
  have hocc : ∀ p ∈ t.GetBlocks, (b.placeBlocks t.GetBlocks).1.cell p.Y p.X = true := by
    intro p hp
    rw [h5 p (hall p hp).1, if_pos hp]
  refine ⟨h1, h3, h4, hocc, ?_, by rw [h6, hlen4], ?_⟩
  · intro q hq hnot
    rw [h5 q hq, if_neg hnot]
  · cases hcan : (b.placeBlocks t.GetBlocks).1.CanPlaceTetromino (some t) with
    | false => rfl
    | true =>
      exfalso
      have hne : t.GetBlocks ≠ [] := by
        intro h; rw [h] at hlen4; simp at hlen4
      obtain ⟨p, hp⟩ := List.exists_mem_of_ne_nil _ hne
      have hfree := ((CanPlace_blocks _ t).1 hcan p hp).2
      rw [hocc p hp] at hfree
      cases hfree

theorem C22_Place_marks_witness :
    (initialService 2 2).board.WF ∧
    (initialService 2 2).board.CanPlaceTetromino (some (freshPiece 2)) = true ∧
    ((initialService 2 2).board.PlaceTetromino (some (freshPiece 2))).1.occupiedCount =
      (initialService 2 2).board.occupiedCount + 4 :=
  have hwf : (initialService 2 2).board.WF := (NewBoard_WF 10 20 _ rfl).1
  have h := C22_Place_marks_blocks (initialService 2 2).board (freshPiece 2) hwf
    (NewTetromino_registered 2 spawnPosition (freshPiece 2) rfl) (by decide!)
  ⟨hwf, by decide!, h.2.2.2.2.2.1⟩

theorem rotateScan_result (t : Tetromino) (shapes : List (List (List Bool))) :
    ∀ (rest : List (List (List Bool))) (k : Nat),
      (t.Shape ∈ rest → (t.rotateScan shapes k rest).2 = none) ∧
      (t.Shape ∉ rest → t.rotateScan shapes k rest = (t, some (.wrap .ErrRotationFailed))) := by
  intro rest
  induction rest with
  | nil =>
    intro k
    exact ⟨fun h => (by cases h), fun _ => rfl⟩
  | cons s rest ih =>
    intro k
    by_cases hs : t.Shape = s
    · have he : t.shapeEquals s = true := (shapeEquals_iff t s).2 hs
      refine ⟨fun _ => ?_, fun h => absurd (by rw [hs]; exact List.mem_cons_self s rest) h⟩
      simp [Tetromino.rotateScan, he]
    · have he : t.shapeEquals s = false := by
        cases hb : t.shapeEquals s with
        | false => rfl
        | true => exact absurd ((shapeEquals_iff t s).1 hb) hs
      have hstep : t.rotateScan shapes k (s :: rest) = t.rotateScan shapes (k + 1) rest := by
        simp [Tetromino.rotateScan, he]
      rw [hstep]
      refine ⟨fun h => ?_, fun h => ?_⟩
      · rcases List.mem_cons.1 h with h1 | h1
        · exact absurd h1 hs
        · exact (ih (k + 1)).1 h1
      · exact (ih (k + 1)).2 (fun h1 => h (List.mem_cons_of_mem s h1))

/-- Claim C25: `Rotate` returns an error, which wraps `ErrRotationFailed`, exactly
when the variant of the piece has no registered shape table, or the table has
more than one state and the current shape equals none of them; a failing
`Rotate` leaves the piece unchanged; and for a piece built by `NewTetromino`
and changed by any sequence of `Move` and `Rotate` calls, no `Rotate` of the
sequence fails and neither does a further one. -/
theorem C25_Rotate_failure (t : Tetromino) :
    (t.Rotate.2 = some (.wrap .ErrRotationFailed) ↔
      tetrominoShapes t.Typ = none ∨
        ∃ shapes, tetrominoShapes t.Typ = some shapes ∧ 1 < shapes.length ∧ t.Shape ∉ shapes) ∧
    (t.Rotate.2 ≠ some (.wrap .ErrRotationFailed) → t.Rotate.2 = none) ∧
    (Err.wrap .ErrRotationFailed).is .ErrRotationFailed = true ∧
    (t.Rotate.2 ≠ none → t.Rotate.1 = t) ∧
    (∀ (ty : Int) (pos : Point) (p0 : Tetromino) (ops : List PieceOp),
      NewTetromino ty pos = .ok p0 → ∃ p, p0.applyOps ops = some p ∧ p.Rotate.2 = none) := by
  have hlast : ∀ (ty : Int) (pos : Point) (p0 : Tetromino) (ops : List PieceOp),
      NewTetromino ty pos = .ok p0 → ∃ p, p0.applyOps ops = some p ∧ p.Rotate.2 = none := by
    intro ty pos p0 ops hnew
    obtain ⟨p, hp, hreg⟩ := applyOps_registered ops p0 (NewTetromino_registered ty pos p0 hnew)
    exact ⟨p, hp, (Rotate_keeps_registered p hreg).1⟩
  cases htab : tetrominoShapes t.Typ with
  | none =>
    have hrot : t.Rotate = (t, some (.wrap .ErrRotationFailed)) := by
      unfold Tetromino.Rotate
      rw [htab]
    rw [hrot]
    refine ⟨by simp, fun h => absurd rfl h, by decide, fun _ => rfl, hlast⟩
  | some shapes =>
    by_cases hk : shapes.length ≤ 1
    · have hrot : t.Rotate = (t, none) := by
        unfold Tetromino.Rotate
        rw [htab]
        simp [hk]
      rw [hrot]
      refine ⟨?_, fun _ => rfl, by decide, fun h => absurd rfl h, hlast⟩
      constructor
      · intro h; cases h
      · rintro (h | ⟨s2, hs2, hlen, _⟩)
        · cases h
        · cases hs2; omega
    · have hrot : t.Rotate = t.rotateScan shapes 0 shapes := by
        unfold Tetromino.Rotate
        rw [htab]
        simp [hk]
      obtain ⟨hfound, hmiss⟩ := rotateScan_result t shapes shapes 0
      rw [hrot]
      by_cases hmem : t.Shape ∈ shapes
      · have hnone := hfound hmem
        rw [hnone]
        refine ⟨?_, fun _ => rfl, by decide, fun h => absurd rfl h, hlast⟩
        constructor
        · intro h; cases h
        · rintro (h | ⟨s2, hs2, _, hnot⟩)
          · cases h
          · cases hs2; exact absurd hmem hnot
      · rw [hmiss hmem]
        refine ⟨?_, fun h => absurd rfl h, by decide, fun _ => rfl, hlast⟩
        constructor
        · intro _; exact Or.inr ⟨shapes, rfl, by omega, hmem⟩
        · intro _; rfl

theorem freshPiece_registered (r : Fin 7) : (freshPiece r).Registered :=
  NewTetromino_registered (r.val : Int) spawnPosition (freshPiece r) (NewTetromino_fresh r)

theorem translated_registered (t : Tetromino) (delta : Point) (h : t.Registered) :
    (t.translated delta).Registered := h

theorem freshPiece_placeable_on_empty :
    ∀ r : Fin 7, (Board.mk (List.replicate 20 (List.replicate 10 false)) 10 20).CanPlaceTetromino
      (some (freshPiece r)) = true := by
  decide!

theorem PiecesOk_init (r1 r2 : Fin 7) : (initialService r1 r2).PiecesOk :=
  ⟨⟨freshPiece r1, rfl, freshPiece_registered r1⟩, ⟨r2, rfl⟩,
    fun _ => freshPiece_placeable_on_empty r1⟩

theorem PiecesOk_move (g : GameService) (delta : Point) (h : g.PiecesOk) :
    (g.MovePiece delta).1.PiecesOk := by
  cases hgo : g.gameOver with
  | true => rw [MovePiece_gameOver g delta hgo]; exact h
  | false =>
    obtain ⟨⟨piece, hcur, hreg⟩, hnext, hplace⟩ := h
    rw [MovePiece_eq g piece delta hgo hcur]
    split
    · rename_i hc
      exact ⟨⟨_, rfl, translated_registered piece delta hreg⟩, hnext, fun _ => hc⟩
    · exact ⟨⟨piece, hcur, hreg⟩, hnext, hplace⟩

theorem PiecesOk_rotate (g : GameService) (h : g.PiecesOk) : g.RotatePiece.1.PiecesOk := by
  cases hgo : g.gameOver with
  | true => rw [RotatePiece_gameOver g hgo]; exact h
  | false =>
    obtain ⟨⟨piece, hcur, hreg⟩, hnext, hplace⟩ := h
    obtain ⟨hsize, shapes, i, htab, hi, hshape⟩ := hreg
    rw [RotatePiece_eq g piece shapes i hgo hcur htab hi hshape]
    split
    · rename_i hc
      exact ⟨⟨_, rfl, hsize, shapes, (i + 1) % shapes.length, htab,
        Nat.mod_lt _ (by omega), rfl⟩, hnext, fun _ => hc⟩
    · exact ⟨⟨piece, hcur, hsize, shapes, i, htab, hi, hshape⟩, hnext, hplace⟩

theorem lockPiece_ok (g : GameService) (r : Fin 7) (h : g.PiecesOk) (hgo : g.gameOver = false) :
    (g.lockPiece r).2 = none ∧ (g.lockPiece r).1.PiecesOk := by
  obtain ⟨⟨piece, hcur, hreg⟩, ⟨t, hnext⟩, hplace⟩ := h
  have hc := hplace hgo
  rw [hcur] at hc
  have hpl := PlaceTetromino_ok g.board piece hc
  have heq := lockPiece_eq g r piece _ hcur hpl
  refine ⟨(lockPiece_counters g r piece _ hcur hpl).1, ?_⟩
  rw [heq]
  split
  · refine ⟨⟨piece, by simp [hcur], hreg⟩, ⟨t, by simp [hnext]⟩, fun hfalse => ?_⟩
    simp at hfalse
  · refine ⟨⟨freshPiece t, by simp [hnext], freshPiece_registered t⟩, ⟨r, rfl⟩, fun hfalse => ?_⟩
    simp only [hgo, Bool.false_or, Bool.not_eq_false'] at hfalse
    exact hfalse

theorem Reachable_PiecesOk (g : GameService) (hg : Reachable g) : g.PiecesOk :=
  Reachable_induction GameService.PiecesOk PiecesOk_init PiecesOk_move PiecesOk_rotate
    (fun s r hs hgo => (lockPiece_ok s r hs hgo).2) g hg

/-- Claim C23 fails as stated: the service reached from `NewGameService` by
dropping nine square pieces on one another is terminal, and its `currentPiece`,
the promoted piece at the spawn position, cannot be placed on its board. -/
theorem C23_blocked_piece_after_block_out :
    Reachable nineSquaresService ∧
    nineSquaresService.gameOver = true ∧
    nineSquaresService.currentPiece = some (freshPiece 1) ∧
    nineSquaresService.board.CanPlaceTetromino nineSquaresService.currentPiece = false := by
  refine ⟨⟨1, 1, initialService 1 1, nineSquares, NewGameService_eq 1 1, ?_⟩, ?_, ?_, ?_⟩
  · decide!
  · decide!
  · decide!
  · decide!

/-- Claim C23, amended: in every state reachable from `NewGameService` by the
four commands, `currentPiece` is present, and in every such state that is not
terminal it can be placed on the current board. -/
theorem C23_current_piece_placeable (g : GameService) (hg : Reachable g) :
    (∃ p, g.currentPiece = some p) ∧
    (g.gameOver = false → g.board.CanPlaceTetromino g.currentPiece = true) := by
  obtain ⟨⟨p, hp, _⟩, _, hplace⟩ := Reachable_PiecesOk g hg
  exact ⟨⟨p, hp⟩, hplace⟩

theorem C23_current_piece_witness :
    Reachable (initialService 4 5) ∧
    (initialService 4 5).board.CanPlaceTetromino (initialService 4 5).currentPiece = true :=
  have hr : Reachable (initialService 4 5) :=
    ⟨4, 5, initialService 4 5, [], NewGameService_eq 4 5, rfl⟩
  ⟨hr, (C23_current_piece_placeable (initialService 4 5) hr).2 rfl⟩

theorem landing_exists (b : Board) (piece : Tetromino) (hblocks : piece.GetBlocks ≠ []) :
    ∃ k : Nat,
      (∀ j : Nat, j < k →
        b.CanPlaceTetromino (some (piece.translated { X := 0, Y := ((j + 1 : Nat) : Int) })) = true) ∧
      b.CanPlaceTetromino (some (piece.translated { X := 0, Y := ((k + 1 : Nat) : Int) })) = false := by
  obtain ⟨p, hp⟩ := List.exists_mem_of_ne_nil _ hblocks
  have hex : ∃ j : Nat, ¬ b.CanPlaceTetromino
      (some (piece.translated { X := 0, Y := ((j + 1 : Nat) : Int) })) = true := by
    refine ⟨(b.Height - p.Y).toNat, ?_⟩
    intro hc
    have := CanPlace_translated_bound b piece p _ hp hc
    push_cast at this
    omega
  classical
  refine ⟨Nat.find hex, ?_, ?_⟩
  · intro j hj
    have := Nat.find_min hex hj
    simpa using this
  · have := Nat.find_spec hex
    simpa using this

theorem dropLoop_no_error :
    ∀ (fuel : Nat) (g g1 : GameService) (e1 : Option Err),
      g.gameOver = false → (∃ p, g.currentPiece = some p) →
      g.dropLoop fuel = some (g1, e1) → e1 = none := by
  intro fuel
  induction fuel with
  | zero => intro g g1 e1 _ _ h; simp [GameService.dropLoop] at h
  | succ n ih =>
    intro g g1 e1 hgo hcur h
    obtain ⟨piece, hp⟩ := hcur
    have hmv := MovePiece_eq g piece { X := 0, Y := 1 } hgo hp
    unfold GameService.dropLoop at h
    by_cases hc : g.board.CanPlaceTetromino (some (piece.translated { X := 0, Y := 1 })) = true
    · rw [if_pos hc] at hmv
      rw [hmv] at h
      exact ih { g with currentPiece := some (piece.translated { X := 0, Y := 1 }) } g1 e1 hgo
        ⟨piece.translated { X := 0, Y := 1 }, rfl⟩ h
    · rw [if_neg hc] at hmv
      rw [hmv] at h
      simp only [Err.is, beq_self_eq_true, if_true, Option.some.injEq, Prod.mk.injEq] at h
      exact h.2.symm

theorem Update_ok (g : GameService) (r : Fin 7) (h : g.PiecesOk) (hgo : g.gameOver = false) :
    (g.Update r).2 = none := by
  have hlock := (lockPiece_ok g r h hgo).1
  obtain ⟨⟨piece, hcur, _⟩, _, _⟩ := h
  have hmv := MovePiece_eq g piece { X := 0, Y := 1 } hgo hcur
  unfold GameService.Update
  rw [hmv]
  by_cases hc : g.board.CanPlaceTetromino (some (piece.translated { X := 0, Y := 1 })) = true
  · simp [hgo, hc]
  · simp only [hgo, Bool.false_eq_true, if_false, if_neg hc, Err.is, beq_self_eq_true, if_true]
    exact hlock

/-- Claim C24: in every non-terminal state reachable from `NewGameService` by the
four commands, the active and the queued piece are present, the active piece
can be placed, so `PlaceTetromino` of it returns no error, and `ClearLines` of
the completed lines of any board returns no error; `Update` returns no error;
`DropPiece` returns no error whenever it returns, and it does return with every
fuel above some bound. -/
theorem C24_no_error_when_active (g : GameService) (hg : Reachable g)
    (hgo : g.gameOver = false) :
    (∃ p, g.currentPiece = some p) ∧ (∃ q, g.nextPiece = some q) ∧
    g.board.CanPlaceTetromino g.currentPiece = true ∧
    (g.board.PlaceTetromino g.currentPiece).2 = none ∧
    (∀ b : Board, (b.ClearLines b.GetCompletedLines).2 = none) ∧
    (∀ r : Fin 7, (g.Update r).2 = none) ∧
    (∀ r : Fin 7, ∃ k : Nat, ∀ fuel : Nat, k < fuel → ∃ g1, g.DropPiece fuel r = some (g1, none)) ∧
    (∀ (r : Fin 7) (fuel : Nat) (g1 : GameService) (e : Option Err),
      g.DropPiece fuel r = some (g1, e) → e = none) := by
  have hok := Reachable_PiecesOk g hg
  obtain ⟨⟨piece, hcur, hreg⟩, ⟨t, hnext⟩, hplace⟩ := Reachable_PiecesOk g hg
  have hc := hplace hgo
  have hc2 : g.board.CanPlaceTetromino (some piece) = true := by rw [← hcur]; exact hc
  have hpl := PlaceTetromino_ok g.board piece hc2
  refine ⟨⟨piece, hcur⟩, ⟨_, hnext⟩, hc, ?_, ClearLines_completed_err,
    fun r => Update_ok g r hok hgo, ?_, ?_⟩
  · rw [hcur, hpl]
  · intro r
    have hne : piece.GetBlocks ≠ [] := by
      intro h
      have := (registered_blocks piece hreg).2.1
      rw [h] at this
      simp at this
    obtain ⟨k, hfree, hstop⟩ := landing_exists g.board piece hne
    refine ⟨k, fun fuel hfuel => ?_⟩
    have hd := dropLoop_lands k g piece fuel hgo hcur hfree hstop hfuel
    have hdp := dropLoop_preserves GameService.PiecesOk PiecesOk_move fuel g _ none hok hd
    have hlock := lockPiece_ok _ r hdp.1 (hdp.2.trans hgo)
    refine ⟨(({ g with currentPiece := some (piece.translated { X := 0, Y := (k : Int) }) } :
      GameService).lockPiece r).1, ?_⟩
    unfold GameService.DropPiece
    rw [hd, if_neg (by rw [hgo]; exact Bool.false_ne_true)]
    exact congrArg some (Prod.ext rfl hlock.1)
  · intro r fuel g1 e h
    unfold GameService.DropPiece at h
    simp only [hgo, Bool.false_eq_true, if_false] at h
    rcases hd : g.dropLoop fuel with _ | ⟨g2, e2⟩
    · rw [hd] at h; simp at h
    · rw [hd] at h
      have he2 := dropLoop_no_error fuel g g2 e2 hgo ⟨piece, hcur⟩ hd
      subst he2
      have hdp := dropLoop_preserves GameService.PiecesOk PiecesOk_move fuel g g2 none hok hd
      have hlock := lockPiece_ok g2 r hdp.1 (hdp.2.trans hgo)
      simp only [Option.some.injEq] at h
      rw [h] at hlock
      exact hlock.1

theorem C24_no_error_witness :
    Reachable (initialService 3 3) ∧ (initialService 3 3).gameOver = false ∧
    ((initialService 3 3).Update 0).2 = none :=
  have hr : Reachable (initialService 3 3) :=
    ⟨3, 3, initialService 3 3, [], NewGameService_eq 3 3, rfl⟩
  ⟨hr, rfl, (C24_no_error_when_active (initialService 3 3) hr rfl).2.2.2.2.2.1 0⟩

/-- Claim C31: for every pair of drawn variants `NewGameService` succeeds; the
service has score 0, lines 0, level 1, the flag false, a 10x20 board with every
cell empty, and the current and the next piece are the pieces `NewTetromino`
builds for the drawn variants at (3, 0), that is at `BoardWidth/2 - 2` in row
0, in the first rotation state; and in every reachable state the queued piece,
hence every piece a lock promotes or generates, is such a piece. -/
theorem C31_NewGameService_initial (r1 r2 : Fin 7) :
    (∃ g, NewGameService r1 r2 = .ok g ∧
      g.score = 0 ∧ g.lines = 0 ∧ g.level = 1 ∧ g.gameOver = false ∧
      g.board.Width = 10 ∧ g.board.Height = 20 ∧
      g.board.Grid = List.replicate 20 (List.replicate 10 false) ∧
      (∀ y x : Int, g.board.cell y x = false) ∧
      g.currentPiece = some (freshPiece r1) ∧ g.nextPiece = some (freshPiece r2)) ∧
    spawnPosition = { X := 3, Y := 0 } ∧
    (∀ t : Fin 7, NewTetromino (t.val : Int) { X := 3, Y := 0 } = .ok (freshPiece t) ∧
      (freshPiece t).Position = { X := 3, Y := 0 } ∧
      ∃ shapes, tetrominoShapes (t.val : Int) = some shapes ∧
        (freshPiece t).Shape = shapes.getD 0 []) ∧
    (∀ g : GameService, Reachable g → ∃ t : Fin 7, g.nextPiece = some (freshPiece t)) ∧
    (∀ (g : GameService) (r : Fin 7), Reachable g → g.gameOver = false →
      (g.lockPiece r).1.currentPiece = g.currentPiece ∧ (g.lockPiece r).1.nextPiece = g.nextPiece ∨
      (g.lockPiece r).1.currentPiece = g.nextPiece ∧
        (g.lockPiece r).1.nextPiece = some (freshPiece r)) := by
  refine ⟨⟨initialService r1 r2, NewGameService_eq r1 r2, rfl, rfl, rfl, rfl, rfl, rfl, rfl, ?_,
    rfl, rfl⟩, rfl, ?_, Reachable_nextPiece, ?_⟩
  · intro y x
    unfold Board.cell initialService
    simp only [List.getD_eq_getElem?_getD, List.getElem?_replicate]
    split
    · simp only [Option.getD_some, List.getElem?_replicate]
      split <;> rfl
    · rfl
  · intro t
    refine ⟨NewTetromino_fresh t, rfl, ?_⟩
    obtain ⟨shapes, htab, _, hp⟩ := NewTetromino_ok _ _ _ (NewTetromino_fresh t)
    exact ⟨shapes, htab, by rw [hp]⟩
  · intro g r hg hgo
    obtain ⟨⟨piece, hcur, _⟩, _, hplace⟩ := Reachable_PiecesOk g hg
    have hc : g.board.CanPlaceTetromino (some piece) = true := by rw [← hcur]; exact hplace hgo
    have hpl := PlaceTetromino_ok g.board piece hc
    rw [lockPiece_eq g r piece _ hcur hpl]
    split
    · left; exact ⟨by simp, by simp⟩
    · right; exact ⟨rfl, rfl⟩

/-- Claim C33: on a freshly constructed service, whatever the two drawn variants,
each of `MovePiece (1,0)`, `MovePiece (-1,0)`, `MovePiece (0,1)` and
`RotatePiece` issued as the first command succeeds, the moves leaving the
piece at the spawn position plus the delta, while `MovePiece (-10,0)` and
`MovePiece (10,0)` return `ErrInvalidMove` and leave the service, the position
included, as it was. -/
theorem C33_first_command :
    ∀ r1 r2 : Fin 7,
      (initialService r1 r2).MovePiece { X := 1, Y := 0 } =
        ({ initialService r1 r2 with currentPiece := some { freshPiece r1 with Position := { X := 4, Y := 0 } } }, none) ∧
      (initialService r1 r2).MovePiece { X := -1, Y := 0 } =
        ({ initialService r1 r2 with currentPiece := some { freshPiece r1 with Position := { X := 2, Y := 0 } } }, none) ∧
      (initialService r1 r2).MovePiece { X := 0, Y := 1 } =
        ({ initialService r1 r2 with currentPiece := some { freshPiece r1 with Position := { X := 3, Y := 1 } } }, none) ∧
      (initialService r1 r2).RotatePiece.2 = none ∧
      (initialService r1 r2).MovePiece { X := -10, Y := 0 } =
        (initialService r1 r2, some .ErrInvalidMove) ∧
      (initialService r1 r2).MovePiece { X := 10, Y := 0 } =
        (initialService r1 r2, some .ErrInvalidMove) := by
  decide!

/-- Claim C39: for a line count `n >= 0` outside 1..4 (such as 5 or more complete
rows) and a service with `lines >= 0`, `updateScore n` leaves the score, the
board, the pieces and the flag unchanged, sets `lines` to `lines + n` and
`level` to `floor((lines + n) / 10) + 1`. -/
theorem C39_updateScore_no_base (g : GameService) (n : Int)
    (hn : n ≠ 1 ∧ n ≠ 2 ∧ n ≠ 3 ∧ n ≠ 4) (hn0 : 0 ≤ n) (hlines : 0 ≤ g.lines) :
    g.updateScore n =
      { g with lines := g.lines + n, level := ⌊((g.lines + n : Int) : ℚ) / 10⌋ + 1 } ∧
    (g.updateScore n).score = g.score := by
  have hb : baseScore n = none := by
    unfold baseScore
    simp [hn.1, hn.2.1, hn.2.2.1, hn.2.2.2]
  have hu : g.updateScore n =
      { g with lines := g.lines + n, level := Int.tdiv (g.lines + n) 10 + 1 } := by
    unfold GameService.updateScore
    simp only [hb]
  rw [hu, tdiv_ten_eq_floor (g.lines + n) (by omega)]
  exact ⟨rfl, rfl⟩

theorem C39_updateScore_witness :
    (5 : Int) ≠ 1 ∧ (nineLinesService.updateScore 5).score = nineLinesService.score ∧
    (nineLinesService.updateScore 5).lines = 14 ∧ (nineLinesService.updateScore 5).level = 2 :=
  have h := C39_updateScore_no_base nineLinesService 5 (by decide) (by decide) (by decide!)
  ⟨by decide, h.2, by decide!, by decide!⟩

/-- Claim C40: in a non-terminal state with an active piece, `MovePiece delta`
succeeds as soon as the piece translated by `delta` can be placed, whatever the
size and direction of `delta`: on a fresh service the upward move (0, -1)
succeeds; and on the board with the single block (4, 3) under the square piece
at its spawn position, the piece one row lower cannot be placed, yet
`MovePiece (0, 3)` succeeds and puts the piece below that block. -/
theorem C40_MovePiece_checks_destination_only :
    (∀ (g : GameService) (piece : Tetromino) (delta : Point),
      g.gameOver = false → g.currentPiece = some piece →
      g.board.CanPlaceTetromino (some (piece.translated delta)) = true →
      g.MovePiece delta = ({ g with currentPiece := some (piece.translated delta) }, none)) ∧
    (initialService 1 1).MovePiece { X := 0, Y := -1 } =
      ({ initialService 1 1 with currentPiece := some { freshPiece 1 with Position := { X := 3, Y := -1 } } }, none) ∧
    blockedSquareService.gameOver = false ∧
    blockedSquareService.currentPiece = some (freshPiece 1) ∧
    blockedSquareService.board.cell 3 4 = true ∧
    blockedSquareService.board.CanPlaceTetromino
      (some ((freshPiece 1).translated { X := 0, Y := 1 })) = false ∧
    (blockedSquareService.MovePiece { X := 0, Y := 1 }).2 = some .ErrInvalidMove ∧
    blockedSquareService.MovePiece { X := 0, Y := 3 } =
      ({ blockedSquareService with currentPiece := some { freshPiece 1 with Position := { X := 3, Y := 3 } } }, none) := by
  refine ⟨?_, by decide!, by decide!, by decide!, by decide!, by decide!, by decide!, by decide!⟩
  intro g piece delta hgo hcur hc
  rw [MovePiece_eq g piece delta hgo hcur, if_pos hc]

/-- Claim C34: `MapInputToCommand` returns a command of the vocabulary and no
error for exactly the 23 keys of its table, and the empty string with an error
wrapping `ErrInvalidInput` for every other string (the empty string, digits, tab
and newline among them); the lower-case key, the upper-case key and the name of
a command map to that command, the space maps to `drop`, and every command
name maps to itself. -/
theorem C34_MapInputToCommand_table :
    (commandMap.map Prod.fst).length = 23 ∧ (commandMap.map Prod.fst).Nodup ∧
    (∀ input : String, input ∈ commandMap.map Prod.fst →
      (MapInputToCommand input).2 = none ∧ (MapInputToCommand input).1 ∈ commandVocabulary) ∧
    (∀ input : String, input ∉ commandMap.map Prod.fst →
      MapInputToCommand input = ("", some (.wrap .ErrInvalidInput))) ∧
    (InputErr.wrap .ErrInvalidInput).is .ErrInvalidInput = true ∧
    (∀ input ∈ ["", "1", "0", "\t", "\n", "x", "space"],
      MapInputToCommand input = ("", some (.wrap .ErrInvalidInput))) ∧
    (∀ row ∈ [("a", "A", "left"), ("d", "D", "right"), ("s", "S", "down"), ("w", "W", "rotate"),
        ("p", "P", "pause"), ("q", "Q", "quit"), ("r", "R", "restart")],
      MapInputToCommand row.1 = (row.2.2, none) ∧ MapInputToCommand row.2.1 = (row.2.2, none) ∧
        MapInputToCommand row.2.2 = (row.2.2, none)) ∧
    MapInputToCommand " " = ("drop", none) ∧
    (∀ name ∈ commandVocabulary, MapInputToCommand name = (name, none)) := by
  refine ⟨by decide, by decide, ?_, ?_, by decide, by decide, by decide, by decide, by decide⟩
  · intro input hin
    have hall : ∀ k ∈ commandMap.map Prod.fst,
        (MapInputToCommand k).2 = none ∧ (MapInputToCommand k).1 ∈ commandVocabulary := by
      decide
    exact hall input hin
  · intro input hnot
    have hlk : commandMap.lookup input = none := by
      rw [List.lookup_eq_none_iff]
      intro p hp
      rw [bne_iff_ne]
      intro heq
      apply hnot
      rw [List.mem_map]
      exact ⟨p, hp, heq.symm⟩
    unfold MapInputToCommand
    rw [hlk]

theorem lockPiece_row0 (g : GameService) (r : Fin 7) (h : g.PiecesOk) (hgo : g.gameOver = false)
    (hafter : (g.lockPiece r).1.gameOver = false) : (g.lockPiece r).1.board.IsGameOver = false := by
  obtain ⟨⟨piece, hcur, _⟩, _, hplace⟩ := h
  have hc : g.board.CanPlaceTetromino (some piece) = true := by rw [← hcur]; exact hplace hgo
  have hpl := PlaceTetromino_ok g.board piece hc
  rw [lockPiece_eq g r piece _ hcur hpl] at hafter ⊢
  split at hafter
  · simp at hafter
  · rename_i hno
    rw [if_neg hno]
    simpa using hno

theorem Reachable_row0 (g : GameService) (hg : Reachable g) :
    g.PiecesOk ∧ (g.gameOver = false → g.board.IsGameOver = false) := by
  refine Reachable_induction
    (fun s => s.PiecesOk ∧ (s.gameOver = false → s.board.IsGameOver = false)) ?_ ?_ ?_ ?_ g hg
  · intro r1 r2
    exact ⟨PiecesOk_init r1 r2, fun _ => (by decide! : (Board.mk (List.replicate 20 (List.replicate 10 false)) 10 20).IsGameOver = false)⟩
  · intro s d hs
    refine ⟨PiecesOk_move s d hs.1, ?_⟩
    obtain ⟨cp, hcp⟩ := MovePiece_frame s d
    rw [hcp]; exact hs.2
  · intro s hs
    refine ⟨PiecesOk_rotate s hs.1, ?_⟩
    obtain ⟨cp, hcp⟩ := RotatePiece_frame s
    rw [hcp]; exact hs.2
  · intro s r hs hgo
    exact ⟨(lockPiece_ok s r hs.1 hgo).2, fun hafter => lockPiece_row0 s r hs.1 hgo hafter⟩

/-- Claim C38: in every non-terminal state reachable from `NewGameService` by the
four commands, every cell of row 0 of the board (columns `0 <= x < Width`) is
empty. -/
theorem C38_row0_empty_when_active (g : GameService) (hg : Reachable g)
    (hgo : g.gameOver = false) :
    g.board.IsGameOver = false ∧
    ∀ x : Int, 0 ≤ x → x < g.board.Width → g.board.cell 0 x = false := by
  have h := (Reachable_row0 g hg).2 hgo
  refine ⟨h, fun x h0 h1 => ?_⟩
  cases hc : g.board.cell 0 x with
  | false => rfl
  | true =>
    have := (IsGameOver_iff g.board).2 ⟨x, h0, h1, hc⟩
    rw [h] at this
    cases this

theorem C38_row0_empty_witness :
    Reachable fiveSquaresService ∧ fiveSquaresService.gameOver = false ∧
    fiveSquaresService.board.cell 0 4 = false :=
  have hr : Reachable fiveSquaresService :=
    ⟨1, 1, initialService 1 1, fiveSquares, NewGameService_eq 1 1, by decide!⟩
  ⟨hr, rfl, (C38_row0_empty_when_active fiveSquaresService hr rfl).2 4 (by decide) (by decide)⟩

theorem updatesUntilLock_lands :
    ∀ (k : Nat) (g : GameService) (piece : Tetromino) (fuel : Nat) (r : Fin 7),
      g.gameOver = false → g.currentPiece = some piece →
      (∀ j : Nat, j < k →
        g.board.CanPlaceTetromino
          (some (piece.translated { X := 0, Y := ((j + 1 : Nat) : Int) })) = true) →
      g.board.CanPlaceTetromino
        (some (piece.translated { X := 0, Y := ((k + 1 : Nat) : Int) })) = false →
      k < fuel →
      g.updatesUntilLock fuel r =
        some (({ g with currentPiece := some (piece.translated { X := 0, Y := (k : Int) }) } :
          GameService).lockPiece r) := by
  intro k
  induction k with
  | zero =>
    intro g piece fuel r hgo hcur _ hstop hfuel
    obtain ⟨f, rfl⟩ : ∃ f, fuel = f + 1 := ⟨fuel - 1, by omega⟩
    have hmv := MovePiece_eq g piece { X := 0, Y := 1 } hgo hcur
    have hstop1 : ¬ g.board.CanPlaceTetromino (some (piece.translated { X := 0, Y := 1 })) = true := by
      simpa using hstop
    rw [if_neg hstop1] at hmv
    have hup : g.Update r = g.lockPiece r := by
      unfold GameService.Update
      rw [hmv, if_neg (by rw [hgo]; exact Bool.false_ne_true)]
      rfl
    unfold GameService.updatesUntilLock
    rw [hmv, hup]
    have hz := translated_zero piece
    simp only [Nat.cast_zero] at hz ⊢
    rw [hz, ← hcur]
  | succ k ih =>
    intro g piece fuel r hgo hcur hfree hstop hfuel
    obtain ⟨f, rfl⟩ : ∃ f, fuel = f + 1 := ⟨fuel - 1, by omega⟩
    have hmv := MovePiece_eq g piece { X := 0, Y := 1 } hgo hcur
    have hfirst : g.board.CanPlaceTetromino (some (piece.translated { X := 0, Y := 1 })) = true := by
      simpa using hfree 0 (by omega)
    rw [if_pos hfirst] at hmv
    have hup : g.Update r =
        ({ g with currentPiece := some (piece.translated { X := 0, Y := 1 }) }, none) := by
      unfold GameService.Update
      rw [hmv, if_neg (by rw [hgo]; exact Bool.false_ne_true)]
    unfold GameService.updatesUntilLock
    rw [hmv, hup]
    simp only
    have h := ih { g with currentPiece := some (piece.translated { X := 0, Y := 1 }) }
      (piece.translated { X := 0, Y := 1 }) f r hgo rfl
      (fun j hj => by
        rw [translated_down_succ]
        exact hfree (j + 1) (by omega))
      (by rw [translated_down_succ]; exact hstop)
      (by omega)
    rw [h, translated_down_succ]

/-- Claim C37: in every non-terminal reachable state, for the variant `r` drawn
by the lock, there is a bound such that with any fuel above it `DropPiece`
returns exactly what the repeated `Update` calls, up to and including the first
one that locks the piece, return: the same error and the same service (board,
pieces, score, lines, level and flag). -/
theorem C37_DropPiece_equals_Updates (g : GameService) (r : Fin 7) (hg : Reachable g)
    (hgo : g.gameOver = false) :
    ∃ k : Nat, ∀ fuel : Nat, k < fuel →
      ∃ res : GameService × Option Err,
        g.DropPiece fuel r = some res ∧ g.updatesUntilLock fuel r = some res := by
  obtain ⟨⟨piece, hcur, hreg⟩, _, _⟩ := Reachable_PiecesOk g hg
  have hne : piece.GetBlocks ≠ [] := by
    intro h
    have := (registered_blocks piece hreg).2.1
    rw [h] at this
    simp at this
  obtain ⟨k, hfree, hstop⟩ := landing_exists g.board piece hne
  refine ⟨k, fun fuel hfuel => ⟨_, ?_, updatesUntilLock_lands k g piece fuel r hgo hcur hfree hstop hfuel⟩⟩
  have hd := dropLoop_lands k g piece fuel hgo hcur hfree hstop hfuel
  unfold GameService.DropPiece
  rw [hd, if_neg (by rw [hgo]; exact Bool.false_ne_true)]

theorem C37_DropPiece_equals_witness :
    Reachable (initialService 6 6) ∧ (initialService 6 6).gameOver = false ∧
    ∃ k : Nat, ∀ fuel : Nat, k < fuel →
      ∃ res : GameService × Option Err,
        (initialService 6 6).DropPiece fuel 2 = some res ∧
          (initialService 6 6).updatesUntilLock fuel 2 = some res :=
  have hr : Reachable (initialService 6 6) :=
    ⟨6, 6, initialService 6 6, [], NewGameService_eq 6 6, rfl⟩
  ⟨hr, rfl, C37_DropPiece_equals_Updates (initialService 6 6) 2 hr rfl⟩

theorem dropSteps_lands :
    ∀ (k : Nat) (g : GameService) (piece : Tetromino) (fuel : Nat),
      g.gameOver = false → g.currentPiece = some piece →
      (∀ j : Nat, j < k →
        g.board.CanPlaceTetromino
          (some (piece.translated { X := 0, Y := ((j + 1 : Nat) : Int) })) = true) →
      g.board.CanPlaceTetromino
        (some (piece.translated { X := 0, Y := ((k + 1 : Nat) : Int) })) = false →
      k < fuel →
      g.dropSteps fuel = some k := by
  intro k
  induction k with
  | zero =>
    intro g piece fuel hgo hcur _ hstop hfuel
    obtain ⟨f, rfl⟩ : ∃ f, fuel = f + 1 := ⟨fuel - 1, by omega⟩
    have hmv := MovePiece_eq g piece { X := 0, Y := 1 } hgo hcur
    have hstop1 : ¬ g.board.CanPlaceTetromino (some (piece.translated { X := 0, Y := 1 })) = true := by
      simpa using hstop
    rw [if_neg hstop1] at hmv
    unfold GameService.dropSteps
    rw [hmv]
  | succ k ih =>
    intro g piece fuel hgo hcur hfree hstop hfuel
    obtain ⟨f, rfl⟩ : ∃ f, fuel = f + 1 := ⟨fuel - 1, by omega⟩
    have hmv := MovePiece_eq g piece { X := 0, Y := 1 } hgo hcur
    have hfirst : g.board.CanPlaceTetromino (some (piece.translated { X := 0, Y := 1 })) = true := by
      simpa using hfree 0 (by omega)
    rw [if_pos hfirst] at hmv
    unfold GameService.dropSteps
    rw [hmv]
    simp only
    have h := ih { g with currentPiece := some (piece.translated { X := 0, Y := 1 }) }
      (piece.translated { X := 0, Y := 1 }) f hgo rfl
      (fun j hj => by
        rw [translated_down_succ]
        exact hfree (j + 1) (by omega))
      (by rw [translated_down_succ]; exact hstop)
      (by omega)
    rw [h]
    rfl

theorem CanPlace_translated_lower (b : Board) (t : Tetromino) (p : Point) (j : Nat)
    (hp : p ∈ t.GetBlocks)
    (hc : b.CanPlaceTetromino (some (t.translated { X := 0, Y := (j : Int) })) = true) :
    0 ≤ p.Y + (j : Int) := by
  have hmem : ({ X := p.X + 0, Y := p.Y + (j : Int) } : Point) ∈
      (t.translated { X := 0, Y := (j : Int) }).GetBlocks := by
    rw [GetBlocks_translated]
    exact List.mem_map.2 ⟨p, hp, rfl⟩
  have hv := ((CanPlace_blocks b _).1 hc _ hmem).1
  exact ((IsValidPosition_iff b _).1 hv).2.2.1

/-- Claim C32, counterexample: on the empty 10x20 board the flat bar held one
row above the grid (a piece with four blocks) makes exactly twenty successful
downward steps in the loop of `DropPiece` before the twenty-first fails, and
twenty is the height of the board, not fewer. -/
theorem C32_bar_above_makes_Height_steps :
    barAboveService.gameOver = false ∧
    (barAboveService.currentPiece.map fun p => p.GetBlocks.length) = some 4 ∧
    barAboveService.board.Height = 20 ∧
    barAboveService.dropSteps 21 = some 20 ∧
    (barAboveService.DropPiece 21 0).isSome = true := by
  decide!

/-- Claim C32, amended: for every service whose active piece has at least one
block, the loop of `DropPiece` leaves after a number of successful downward
steps that is at most the height of the board, and fewer than the height
whenever the piece is placeable where it starts; with any fuel above that
number `DropPiece` returns. -/
theorem C32_DropPiece_terminates (g : GameService) (piece : Tetromino) (r : Fin 7)
    (hcur : g.currentPiece = some piece) (hblocks : piece.GetBlocks ≠ []) :
    ∃ k : Nat, k ≤ g.board.Height.toNat ∧
      (g.board.CanPlaceTetromino (some piece) = true → k < g.board.Height.toNat) ∧
      ∀ fuel : Nat, k < fuel →
        g.dropSteps fuel = some k ∧ (g.DropPiece fuel r).isSome = true := by
  obtain ⟨p, hp⟩ := List.exists_mem_of_ne_nil _ hblocks
  have hstart : g.board.CanPlaceTetromino (some piece) = true → 0 ≤ p.Y ∧ p.Y < g.board.Height := by
    intro hc
    have hz := translated_zero piece
    have h1 := CanPlace_translated_lower g.board piece p 0 hp (by
      simp only [Nat.cast_zero] at hz ⊢; rw [hz]; exact hc)
    have h2 := CanPlace_translated_bound g.board piece p 0 hp (by
      simp only [Nat.cast_zero] at hz ⊢; rw [hz]; exact hc)
    simp only [Nat.cast_zero, add_zero] at h1 h2
    exact ⟨h1, h2⟩
  cases hgo : g.gameOver with
  | true =>
    refine ⟨0, Nat.zero_le _, fun hc => ?_, fun fuel hfuel => ?_⟩
    · have := hstart hc
      omega
    · obtain ⟨f, rfl⟩ : ∃ f, fuel = f + 1 := ⟨fuel - 1, by omega⟩
      refine ⟨?_, ?_⟩
      · unfold GameService.dropSteps
        rw [MovePiece_gameOver g _ hgo]
      · unfold GameService.DropPiece
        rw [hgo]
        rfl
  | false =>
    obtain ⟨k, hfree, hstop⟩ := landing_exists g.board piece hblocks
    have hk : k ≤ g.board.Height.toNat ∧
        (g.board.CanPlaceTetromino (some piece) = true → k < g.board.Height.toNat) := by
      cases k with
      | zero =>
        refine ⟨Nat.zero_le _, fun hc => ?_⟩
        have := hstart hc
        omega
      | succ n =>
        have hlast := CanPlace_translated_bound g.board piece p (n + 1) hp (hfree n (by omega))
        have hfirst := CanPlace_translated_lower g.board piece p (0 + 1) hp (hfree 0 (by omega))
        push_cast at hlast hfirst
        refine ⟨by omega, fun hc => ?_⟩
        have := hstart hc
        omega
    refine ⟨k, hk.1, hk.2, fun fuel hfuel => ⟨dropSteps_lands k g piece fuel hgo hcur hfree hstop hfuel, ?_⟩⟩
    have hd := dropLoop_lands k g piece fuel hgo hcur hfree hstop hfuel
    unfold GameService.DropPiece
    rw [hd, if_neg (by rw [hgo]; exact Bool.false_ne_true)]
    rfl

theorem C32_DropPiece_terminates_witness :
    (initialService 0 3).currentPiece = some (freshPiece 0) ∧ (freshPiece 0).GetBlocks ≠ [] ∧
    ∃ k : Nat, k ≤ (initialService 0 3).board.Height.toNat ∧
      ((initialService 0 3).board.CanPlaceTetromino (some (freshPiece 0)) = true →
        k < (initialService 0 3).board.Height.toNat) ∧
      ∀ fuel : Nat, k < fuel →
        (initialService 0 3).dropSteps fuel = some k ∧
          ((initialService 0 3).DropPiece fuel 5).isSome = true :=
  ⟨rfl, by decide, C32_DropPiece_terminates (initialService 0 3) (freshPiece 0) 5 rfl (by decide)⟩

theorem keptRowsFrom_cons (s : Nat) (x : List Bool) (grid : List (List Bool)) (lines : List Int) :
    keptRowsFrom s (x :: grid) lines =
      if (s : Int) ∈ lines then keptRowsFrom (s + 1) grid lines
      else x :: keptRowsFrom (s + 1) grid lines := by
  unfold keptRowsFrom
  rw [List.enumFrom_cons, List.filter_cons]
  by_cases h : (s : Int) ∈ lines
  · simp [h]
  · simp [h]

theorem keptRowsFrom_append (lines : List Int) :
    ∀ (g1 g2 : List (List Bool)) (s : Nat),
      keptRowsFrom s (g1 ++ g2) lines =
        keptRowsFrom s g1 lines ++ keptRowsFrom (s + g1.length) g2 lines := by
  intro g1
  induction g1 with
  | nil => intro g2 s; simp [keptRowsFrom]
  | cons x g1 ih =>
    intro g2 s
    rw [List.cons_append, keptRowsFrom_cons, keptRowsFrom_cons, ih g2 (s + 1)]
    have hs : s + 1 + g1.length = s + (x :: g1).length := by simp; omega
    rw [hs]
    split
    · rfl
    · rfl

theorem keptRowsFrom_congr (l1 l2 : List Int) :
    ∀ (grid : List (List Bool)) (s : Nat),
      (∀ i : Nat, s ≤ i → i < s + grid.length → ((i : Int) ∈ l1 ↔ (i : Int) ∈ l2)) →
      keptRowsFrom s grid l1 = keptRowsFrom s grid l2 := by
  intro grid
  induction grid with
  | nil => intro s _; rfl
  | cons x grid ih =>
    intro s h
    rw [keptRowsFrom_cons, keptRowsFrom_cons]
    have h0 := h s (le_refl _) (by simp)
    have ht := ih (s + 1) (fun i hi1 hi2 => h i (by omega) (by simp at hi2 ⊢; omega))
    rw [ht]
    by_cases hm : (s : Int) ∈ l1
    · rw [if_pos hm, if_pos (h0.1 hm)]
    · rw [if_neg hm, if_neg (fun h2 => hm (h0.2 h2))]

theorem keptRowsFrom_all (lines : List Int) :
    ∀ (grid : List (List Bool)) (s : Nat),
      (∀ i : Nat, s ≤ i → i < s + grid.length → (i : Int) ∉ lines) →
      keptRowsFrom s grid lines = grid := by
  intro grid
  induction grid with
  | nil => intro s _; rfl
  | cons x grid ih =>
    intro s h
    rw [keptRowsFrom_cons, if_neg (h s (le_refl _) (by simp)),
      ih (s + 1) (fun i hi1 hi2 => h i (by omega) (by simp at hi2 ⊢; omega))]

theorem keptRowsFrom_shift (e x : List Bool) (g1 g2 : List (List Bool)) (rest : List Int)
    (h : ∀ l ∈ rest, (g1.length : Int) < l) :
    keptRowsFrom 0 (e :: (g1 ++ g2)) rest =
      e :: keptRowsFrom 0 (g1 ++ x :: g2) ((g1.length : Int) :: rest) := by
  have h0 : ((0 : Nat) : Int) ∉ rest := by
    intro hm
    have := h _ hm
    omega
  rw [keptRowsFrom_cons, if_neg h0, keptRowsFrom_append, keptRowsFrom_append]
  rw [keptRowsFrom_all rest g1 (0 + 1) (by
    intro i _ hi2 hm
    have := h _ hm
    omega)]
  rw [keptRowsFrom_all ((g1.length : Int) :: rest) g1 0 (by
    intro i _ hi2 hm
    rw [List.mem_cons] at hm
    rcases hm with hm | hm
    · omega
    · have := h _ hm
      omega)]
  rw [keptRowsFrom_cons, if_pos (by simp)]
  have hs : 0 + 1 + g1.length = 0 + g1.length + 1 := by omega
  rw [hs]
  congr 2
  apply keptRowsFrom_congr
  intro i hi1 _
  rw [List.mem_cons]
  constructor
  · intro hm; exact Or.inr hm
  · intro hm
    rcases hm with hm | hm
    · omega
    · exact hm

theorem clearLine_WF (b : Board) (k : Int) (hwf : b.WF) (hk0 : 0 ≤ k) (hk1 : k < b.Height) :
    (b.clearLine k).WF := by
  have hg := clearLine_grid b k hwf hk0 hk1
  obtain ⟨hw, hh, hlen, hrows⟩ := hwf
  refine ⟨hw, hh, ?_, ?_⟩
  · rw [hg]
    simp only [List.length_cons, List.length_append, List.length_take, List.length_drop]
    show _ = b.Height.toNat
    omega
  · intro row hrow
    rw [hg] at hrow
    show row.length = b.Width.toNat
    rw [List.mem_cons, List.mem_append] at hrow
    rcases hrow with rfl | hrow | hrow
    · simp
    · exact hrows _ (List.mem_of_mem_take hrow)
    · exact hrows _ (List.mem_of_mem_drop hrow)

theorem foldl_clearLine_ascending :
    ∀ (asc : List Int) (b : Board), b.WF → (∀ l ∈ asc, 0 ≤ l ∧ l < b.Height) →
      asc.Pairwise (fun x y => x < y) →
      (asc.foldl (fun acc lineIndex => acc.clearLine lineIndex) b).WF ∧
      asc.foldl (fun acc lineIndex => acc.clearLine lineIndex) b =
        { b with Grid := List.replicate asc.length (List.replicate b.Width.toNat false) ++
            keptRowsFrom 0 b.Grid asc } := by
  intro asc
  induction asc with
  | nil =>
    intro b hwf _ _
    refine ⟨hwf, ?_⟩
    simp only [List.foldl_nil, List.length_nil, List.replicate_zero, List.nil_append]
    rw [keptRowsFrom_all [] b.Grid 0 (fun _ _ _ hm => by simp at hm)]
  | cons a rest ih =>
    intro b hwf hvalid hasc
    obtain ⟨ha0, ha1⟩ := hvalid a (List.mem_cons_self _ _)
    rw [List.pairwise_cons] at hasc
    have hwf1 := clearLine_WF b a hwf ha0 ha1
    have hg := clearLine_grid b a hwf ha0 ha1
    obtain ⟨hres, heq⟩ := ih (b.clearLine a) hwf1
      (fun l hl => hvalid l (List.mem_cons_of_mem _ hl)) hasc.2
    rw [List.foldl_cons]
    refine ⟨hres, ?_⟩
    rw [heq]
    have hn : a.toNat < b.Grid.length := by
      obtain ⟨_, _, hlen, _⟩ := hwf
      omega
    have hshift := keptRowsFrom_shift (List.replicate b.Width.toNat false) (b.Grid.get ⟨a.toNat, hn⟩)
      (b.Grid.take a.toNat) (b.Grid.drop (a.toNat + 1)) rest (by
        intro l hl
        have := hasc.1 l hl
        rw [List.length_take]
        omega)
    have hlt : (b.Grid.take a.toNat).length = a.toNat := by
      rw [List.length_take]; omega
    have hsplit : b.Grid.take a.toNat ++ b.Grid.get ⟨a.toNat, hn⟩ :: b.Grid.drop (a.toNat + 1) =
        b.Grid := by
      rw [List.get_eq_getElem, ← List.drop_eq_getElem_cons hn, List.take_append_drop]
    rw [hsplit, hlt, Int.toNat_of_nonneg ha0] at hshift
    show Board.mk _ b.Width b.Height = Board.mk _ b.Width b.Height
    congr 1
    rw [hg, hshift]
    show List.replicate rest.length (List.replicate b.Width.toNat false) ++ _ = _
    rw [List.length_cons, List.replicate_succ', List.append_assoc, List.singleton_append]

/-- Claim C36: on a board with `Height` rows of `Width` cells, `ClearLines`
called with valid row indices in strictly descending order returns no error
and leaves the grid with exactly the listed rows removed: the other rows keep
their order below as many empty rows as were listed. -/
theorem C36_ClearLines_descending (b : Board) (lines : List Int) (hwf : b.WF)
    (hvalid : ∀ l ∈ lines, 0 ≤ l ∧ l < b.Height)
    (hdesc : lines.Pairwise fun x y => y < x) :
    b.ClearLines lines = ({ b with Grid := b.rowsRemoved lines }, none) ∧
    b.rowsRemoved lines =
      List.replicate lines.length (List.replicate b.Width.toNat false) ++
        (b.Grid.enum.filter fun p => decide ((p.1 : Int) ∉ lines)).map Prod.snd := by
  obtain ⟨hres, heq⟩ := foldl_clearLine_ascending lines.reverse b hwf
    (fun l hl => hvalid l (List.mem_reverse.1 hl)) (List.pairwise_reverse.2 hdesc)
  have hk : keptRowsFrom 0 b.Grid lines.reverse =
      (b.Grid.enum.filter fun p => decide ((p.1 : Int) ∉ lines)).map Prod.snd := by
    rw [keptRowsFrom_congr lines.reverse lines b.Grid 0 (fun _ _ _ => List.mem_reverse)]
    rfl
  rw [List.length_reverse, hk] at heq
  have hlen : b.Grid.length = lines.length +
      ((b.Grid.enum.filter fun p => decide ((p.1 : Int) ∉ lines)).map Prod.snd).length := by
    have h1 := hres.2.2.1
    rw [heq] at h1
    simp only [List.length_append, List.length_replicate] at h1
    have h2 := hwf.2.2.1
    have h3 : (lines.reverse.foldl (fun acc lineIndex => acc.clearLine lineIndex) b).Height =
        b.Height := by rw [heq]
    omega
  have hrem : b.rowsRemoved lines =
      List.replicate lines.length (List.replicate b.Width.toNat false) ++
        (b.Grid.enum.filter fun p => decide ((p.1 : Int) ∉ lines)).map Prod.snd := by
    unfold Board.rowsRemoved
    simp only
    congr 2
    omega
  refine ⟨?_, hrem⟩
  rw [hrem]
  unfold Board.ClearLines
  by_cases hl : lines.length = 0
  · rw [if_pos hl]
    have hnil : lines = [] := List.length_eq_zero.1 hl
    subst hnil
    simp only [List.reverse_nil, List.foldl_nil] at heq
    exact congrArg (fun x => (x, (none : Option Err))) heq
  · rw [if_neg hl, (ClearLines_find_none b lines).2 hvalid]
    exact congrArg (fun x => (x, (none : Option Err))) heq

theorem C36_ClearLines_descending_witness :
    twoFullRowsBoard.WF ∧ (∀ l ∈ [(19 : Int), 18], 0 ≤ l ∧ l < twoFullRowsBoard.Height) ∧
    [(19 : Int), 18].Pairwise (fun x y => y < x) ∧
    twoFullRowsBoard.ClearLines [19, 18] =
      ({ twoFullRowsBoard with Grid := twoFullRowsBoard.rowsRemoved [19, 18] }, none) ∧
    twoFullRowsBoard.rowsRemoved [19, 18] =
      List.replicate [(19 : Int), 18].length (List.replicate twoFullRowsBoard.Width.toNat false) ++
        (twoFullRowsBoard.Grid.enum.filter fun p => decide ((p.1 : Int) ∉ [(19 : Int), 18])).map
          Prod.snd :=
  have hwf : twoFullRowsBoard.WF := by
    refine ⟨by decide, by decide, by decide, ?_⟩
    decide
  have hv : ∀ l ∈ [(19 : Int), 18], 0 ≤ l ∧ l < twoFullRowsBoard.Height := by decide
  have hd : [(19 : Int), 18].Pairwise (fun x y => y < x) := by decide
  ⟨hwf, hv, hd, C36_ClearLines_descending twoFullRowsBoard [19, 18] hwf hv hd⟩

theorem wrapInt64_id (x : Int) (h0 : -9223372036854775808 ≤ x) (h1 : x ≤ 9223372036854775807) :
    wrapInt64 x = x := by
  unfold wrapInt64
  omega

theorem updateDropInterval_in_range (c : GameController) (h1 : 1 ≤ c.gameService.level)
    (h2 : c.gameService.level ≤ 92233720379) :
    c.updateDropInterval.dropInterval =
      max (100 * Millisecond) (1000 * Millisecond - 100 * Millisecond * (c.gameService.level - 1)) := by
  by_cases h3 : c.gameService.level ≤ 92233720369
  · unfold GameController.updateDropInterval Millisecond
    simp only
    rw [wrapInt64_id (c.gameService.level - 1) (by omega) (by omega),
      wrapInt64_id ((c.gameService.level - 1) * 100) (by omega) (by omega),
      wrapInt64_id ((c.gameService.level - 1) * 100 * 1000000) (by omega) (by omega),
      wrapInt64_id (1000 * 1000000 - (c.gameService.level - 1) * 100 * 1000000) (by omega) (by omega)]
    split <;> simp only <;> omega
  · have h4 : 92233720370 ≤ c.gameService.level := by omega
    unfold GameController.updateDropInterval wrapInt64 Millisecond
    simp only
    generalize c.gameService.level = L at h1 h2 h3 h4 ⊢
    split <;> rename_i hlt <;> simp only <;> interval_cases L <;> omega

/-- Claim C35, counterexample: at level 92233720380 the `int64` product
`(level - 1) * 100 * time.Millisecond` wraps to a negative duration, and
`updateDropInterval` sets the interval to 9223372036809551616 ns: above
1000 ms, above the interval of level 10, and not the 100 ms floor. -/
theorem C35_interval_wraps_at_high_level :
    (1 : Int) ≤ (controllerAtLevel 92233720380).gameService.level ∧
    (controllerAtLevel 92233720380).updateDropInterval.dropInterval = 9223372036809551616 ∧
    ¬ (controllerAtLevel 92233720380).updateDropInterval.dropInterval ≤ 1000 * Millisecond ∧
    (controllerAtLevel 10).updateDropInterval.dropInterval = 100 * Millisecond ∧
    (controllerAtLevel 10).gameService.level ≤ (controllerAtLevel 92233720380).gameService.level ∧
    ¬ (controllerAtLevel 92233720380).updateDropInterval.dropInterval ≤
      (controllerAtLevel 10).updateDropInterval.dropInterval := by
  decide

/-- Claim C35, amended: for every level `L` with `1 <= L <= 92233720379`, that
is below the first level at which the wrapping of the `int64` duration shows,
`updateDropInterval` sets the drop interval to
`max(100 ms, 1000 ms - 100 ms * (L - 1))`; the interval lies between 100 ms and
1000 ms, does not grow when the level grows within that range, and is 100 ms
for every level from 10 upward; the service and the pause flag are untouched. -/
theorem C35_drop_interval (gc : GameController) (hlevel : 1 ≤ gc.gameService.level)
    (hmax : gc.gameService.level ≤ 92233720379) :
    gc.updateDropInterval.dropInterval =
      max (100 * Millisecond) (1000 * Millisecond - 100 * Millisecond * (gc.gameService.level - 1)) ∧
    (100 * Millisecond ≤ gc.updateDropInterval.dropInterval ∧
      gc.updateDropInterval.dropInterval ≤ 1000 * Millisecond) ∧
    (∀ gc2 : GameController, gc.gameService.level ≤ gc2.gameService.level →
      gc2.gameService.level ≤ 92233720379 →
      gc2.updateDropInterval.dropInterval ≤ gc.updateDropInterval.dropInterval) ∧
    (10 ≤ gc.gameService.level → gc.updateDropInterval.dropInterval = 100 * Millisecond) ∧
    gc.updateDropInterval.gameService = gc.gameService ∧
    gc.updateDropInterval.isPaused = gc.isPaused := by
  have hval := updateDropInterval_in_range gc hlevel hmax
  refine ⟨hval, ?_, ?_, ?_, ?_, ?_⟩
  · rw [hval]; unfold Millisecond; omega
  · intro gc2 hle hmax2
    rw [hval, updateDropInterval_in_range gc2 (by omega) hmax2]; unfold Millisecond; omega
  · intro h10
    rw [hval]; unfold Millisecond; omega
  · unfold GameController.updateDropInterval
    simp only
    split <;> rfl
  · unfold GameController.updateDropInterval
    simp only
    split <;> rfl

theorem C35_drop_interval_witness :
    (1 : Int) ≤ (controllerAtLevel 5).gameService.level ∧
    (controllerAtLevel 5).gameService.level ≤ 92233720379 ∧
    (controllerAtLevel 5).updateDropInterval.dropInterval = 600 * Millisecond ∧
    (controllerAtLevel 12).updateDropInterval.dropInterval ≤
      (controllerAtLevel 5).updateDropInterval.dropInterval :=
  have h := C35_drop_interval (controllerAtLevel 5) (by decide) (by decide)
  ⟨by decide, by decide, h.1.trans (by decide), h.2.2.1 (controllerAtLevel 12) (by decide) (by decide)⟩

theorem placeBlocks_cells (blocks : List Point) :
    ∀ b : Board, b.WF → (∀ p ∈ blocks, b.IsValidPosition p = true) →
      ∀ q : Point, b.IsValidPosition q = true →
        (b.placeBlocks blocks).1.cell q.Y q.X = if q ∈ blocks then true else b.cell q.Y q.X := by
  induction blocks with
  | nil => intro b _ _ q _; simp [Board.placeBlocks]
  | cons p rest ih =>
    intro b hwf hall q hqv
    have hpv := hall p (List.mem_cons_self p rest)
    obtain ⟨hw, hh⟩ := SetBlock_dims b p true
    have hset : b.SetBlock p true = ((b.SetBlock p true).1, none) := by
      rw [SetBlock_valid_eq b p true hpv]
    have hpb : b.placeBlocks (p :: rest) = (b.SetBlock p true).1.placeBlocks rest := by
      conv_lhs => unfold Board.placeBlocks
      rw [hset]
    have hqv1 : (b.SetBlock p true).1.IsValidPosition q = true := by
      rw [IsValidPosition_congr b _ q hw hh]; exact hqv
    have hrest : ∀ x ∈ rest, (b.SetBlock p true).1.IsValidPosition x = true := by
      intro x hx
      rw [IsValidPosition_congr b _ x hw hh]
      exact hall x (List.mem_cons_of_mem p hx)
    rw [hpb, ih (b.SetBlock p true).1 (SetBlock_WF b p true hwf) hrest q hqv1,
      SetBlock_cell b p q true hwf hpv hqv]
    by_cases hqr : q ∈ rest
    · simp [hqr]
    · by_cases hqp : q = p
      · simp [hqp]
      · simp [hqr, hqp]

theorem afterClear_board (g : GameService) (b1 : Board) :
    (g.afterClear b1).board =
      if b1.GetCompletedLines.length > 0 then (b1.ClearLines b1.GetCompletedLines).1 else b1 := by
  unfold GameService.afterClear
  split <;> simp

theorem lockPiece_board (g : GameService) (r : Fin 7) (piece : Tetromino) (b1 : Board)
    (hcur : g.currentPiece = some piece)
    (hplace : g.board.PlaceTetromino (some piece) = (b1, none)) :
    (g.lockPiece r).1.board =
      (if b1.GetCompletedLines.length > 0 then (b1.ClearLines b1.GetCompletedLines).1 else b1) ∧
    (g.lockPiece r).2 = none := by
  rw [lockPiece_eq g r piece b1 hcur hplace]
  split
  · exact ⟨afterClear_board g b1, rfl⟩
  · exact ⟨afterClear_board g b1, rfl⟩

/-- Claim C13: in a non-terminal state on a board with `Height` rows of `Width`
cells, whose active piece can be placed and has at least one block (as every
piece built by `NewTetromino` has), there is a number `k` of rows such that the
piece can be placed at every offset `0, ..., k` below its anchor and not at
offset `k + 1`. With any fuel above `k`, `DropPiece` returns no error (the
`ErrInvalidMove` that ends the descent does not reach the caller) and what
`lockPiece` returns on the service whose piece sits `k` rows lower, with `X`,
shape and type unchanged. The placement of that lock succeeds and yields a
board `b1` of the same size on which every block of the piece, `k` rows below
where it was, is occupied and every other valid cell is as before; the board
of the returned service is `b1` after the clearing of its completed rows, `b1`
itself when there are none. -/
theorem C13_DropPiece_lands (g : GameService) (r : Fin 7) (piece : Tetromino)
    (hgo : g.gameOver = false) (hcur : g.currentPiece = some piece) (hwf : g.board.WF)
    (hplace : g.board.CanPlaceTetromino (some piece) = true)
    (hblocks : piece.GetBlocks ≠ []) :
    ∃ (k : Nat) (b1 : Board),
      (∀ j : Nat, j ≤ k →
        g.board.CanPlaceTetromino (some (piece.translated { X := 0, Y := (j : Int) })) = true) ∧
      g.board.CanPlaceTetromino
        (some (piece.translated { X := 0, Y := ((k + 1 : Nat) : Int) })) = false ∧
      (piece.translated { X := 0, Y := (k : Int) }).Position =
        { X := piece.Position.X, Y := piece.Position.Y + (k : Int) } ∧
      (piece.translated { X := 0, Y := (k : Int) }).Shape = piece.Shape ∧
      (piece.translated { X := 0, Y := (k : Int) }).Typ = piece.Typ ∧
      (∀ fuel : Nat, k < fuel →
        g.DropPiece fuel r =
          some (({ g with currentPiece := some (piece.translated { X := 0, Y := (k : Int) }) } :
            GameService).lockPiece r)) ∧
      g.board.PlaceTetromino (some (piece.translated { X := 0, Y := (k : Int) })) = (b1, none) ∧
      b1.Width = g.board.Width ∧ b1.Height = g.board.Height ∧
      (∀ p ∈ piece.GetBlocks, g.board.cell (p.Y + (k : Int)) p.X = false ∧
        b1.cell (p.Y + (k : Int)) p.X = true) ∧
      (∀ q : Point, g.board.IsValidPosition q = true →
        q ∉ (piece.translated { X := 0, Y := (k : Int) }).GetBlocks →
        b1.cell q.Y q.X = g.board.cell q.Y q.X) ∧
      (∀ fuel : Nat, k < fuel →
        ∃ g1 : GameService, g.DropPiece fuel r = some (g1, none) ∧
          g1.board =
            if b1.GetCompletedLines.length > 0 then (b1.ClearLines b1.GetCompletedLines).1
            else b1) := by
  obtain ⟨k, hmin, hkf⟩ := landing_exists g.board piece hblocks
  have hall : ∀ j : Nat, j ≤ k →
      g.board.CanPlaceTetromino (some (piece.translated { X := 0, Y := (j : Int) })) = true := by
    intro j hj
    cases j with
    | zero => rw [translated_zero]; exact hplace
    | succ i => exact hmin i (by omega)
  have hck := hall k (le_refl k)
  have hpl := PlaceTetromino_ok g.board _ hck
  have hcb := (CanPlace_blocks g.board _).1 hck
  have hvalid : ∀ p ∈ (piece.translated { X := 0, Y := (k : Int) }).GetBlocks,
      g.board.IsValidPosition p = true := fun p hp => (hcb p hp).1
  have hpb : g.board.PlaceTetromino (some (piece.translated { X := 0, Y := (k : Int) })) =
      g.board.placeBlocks (piece.translated { X := 0, Y := (k : Int) }).GetBlocks := by
    unfold Board.PlaceTetromino
    simp [hck]
  have hdims := placeBlocks_ok _ g.board hvalid
  have hcells := placeBlocks_cells _ g.board hwf hvalid
  rw [← hpb] at hdims hcells
  have hdrop : ∀ fuel : Nat, k < fuel →
      g.DropPiece fuel r =
        some (({ g with currentPiece := some (piece.translated { X := 0, Y := (k : Int) }) } :
          GameService).lockPiece r) := by
    intro fuel hfuel
    have hd := dropLoop_lands k g piece fuel hgo hcur hmin hkf hfuel
    unfold GameService.DropPiece
    rw [hd]
    simp [hgo]
  have hlock := lockPiece_board
    ({ g with currentPiece := some (piece.translated { X := 0, Y := (k : Int) }) } : GameService)
    r _ _ rfl hpl
  refine ⟨k, (g.board.PlaceTetromino (some (piece.translated { X := 0, Y := (k : Int) }))).1,
    hall, hkf, ?_, rfl, rfl, hdrop, hpl, hdims.2.1, hdims.2.2, ?_, ?_, ?_⟩
  · simp [Tetromino.translated]
  · intro p hp
    have hmem : ({ X := p.X + 0, Y := p.Y + (k : Int) } : Point) ∈
        (piece.translated { X := 0, Y := (k : Int) }).GetBlocks := by
      rw [GetBlocks_translated]
      exact List.mem_map.2 ⟨p, hp, rfl⟩
    have h1 := (hcb _ hmem).2
    have h2 := hcells _ (hcb _ hmem).1
    rw [if_pos hmem] at h2
    simp only [add_zero] at h1 h2
    exact ⟨h1, h2⟩
  · intro q hq hnot
    rw [hcells q hq, if_neg hnot]
  · intro fuel hfuel
    refine ⟨(({ g with currentPiece := some (piece.translated { X := 0, Y := (k : Int) }) } :
      GameService).lockPiece r).1, ?_, hlock.1⟩
    rw [hdrop fuel hfuel]
    exact congrArg some (Prod.ext rfl hlock.2)

theorem C13_DropPiece_witness :
    (initialService 1 1).gameOver = false ∧ (initialService 1 1).board.WF ∧
    (initialService 1 1).board.CanPlaceTetromino (some (freshPiece 1)) = true ∧
    ∃ (k : Nat) (b1 : Board),
      (initialService 1 1).board.PlaceTetromino
        (some ((freshPiece 1).translated { X := 0, Y := (k : Int) })) = (b1, none) ∧
      (∀ p ∈ (freshPiece 1).GetBlocks, (initialService 1 1).board.cell (p.Y + (k : Int)) p.X = false ∧
        b1.cell (p.Y + (k : Int)) p.X = true) ∧
      ∀ fuel : Nat, k < fuel →
        ∃ g1 : GameService, (initialService 1 1).DropPiece fuel 2 = some (g1, none) ∧
          g1.board =
            if b1.GetCompletedLines.length > 0 then (b1.ClearLines b1.GetCompletedLines).1
            else b1 :=
  have hwf : (initialService 1 1).board.WF := (NewBoard_WF 10 20 _ rfl).1
  have h := C13_DropPiece_lands (initialService 1 1) 2 (freshPiece 1) rfl rfl hwf (by decide!)
    (by decide!)
  ⟨rfl, hwf, by decide!, h.imp fun _ hk => hk.imp fun _ hb =>
    ⟨hb.2.2.2.2.2.2.1, hb.2.2.2.2.2.2.2.2.2.1, hb.2.2.2.2.2.2.2.2.2.2.2⟩⟩

end Tetris
